import Mathlib

/-!
# cctrace: flow table, event classifier and window smoother

A shallow embedding of `main.go` of `heistp/cctrace`.

* Go `int` is the 64-bit two's-complement integer of the usual targets:
  arithmetic on it is done in `Int` and wrapped by `wrapInt`.
* Go `uint` is a 64-bit unsigned integer: increments are taken modulo `2 ^ 64`.
* Go `map[EventType]uint` is a total function reading `0` at absent keys,
  which is what `m[et]` and `m[et]++` observe.
* A slice `[]Packet` that is mutated in place is a `List Packet` threaded
  through the loops; every loop is a left fold over the values its counter
  takes.
-/

namespace CCTrace

/-! ## Machine integers -/

/-- Modulus of Go `uint` (64 bits). -/
def uintMod : Nat := 18446744073709551616

/-- Smallest Go `int` is `-intHalf`, largest is `intHalf - 1` (64 bits). -/
def intHalf : Int := 9223372036854775808

/-- Two's-complement wrap-around of an exact integer result into Go `int`. -/
def wrapInt (x : Int) : Int := (x + intHalf) % (2 * intHalf) - intHalf

/-! ## Event types (`main.go` lines 100-120) -/

/-- Go `type EventType int`, used as a bit mask. -/
abbrev EventType := Nat

def EventTypeECT : EventType := 1 <<< 0
def EventTypeSCE : EventType := 1 <<< 1
def EventTypeCE : EventType := 1 <<< 2
def EventTypeECE : EventType := 1 <<< 3
def EventTypeCWR : EventType := 1 <<< 4
def EventTypeNS : EventType := 1 <<< 5

def EventTypeCount : Nat := 6

/-- ECN codepoints, Go `type ECN uint8`. -/
def NotECT : Nat := 0
def SCE : Nat := 1
def ECT : Nat := 2
def CE : Nat := 3

/-- Values taken by `et` in `for et := EventType(1); et < EventType(1<<EventTypeCount); et <<= 1`. -/
def etValues : List EventType := (List.range EventTypeCount).map (fun k => 1 <<< k)

/-! ## Count maps -/

/-- Go `map[EventType]uint`; `make(map[EventType]uint)` is `emptyCounts`. -/
abbrev CountMap := EventType → Nat

def emptyCounts : CountMap := fun _ => 0

/-- The statement `m[et]++` on a `map[EventType]uint`. -/
def incr (m : CountMap) (et : EventType) : CountMap :=
  fun k => if k = et then (m k + 1) % uintMod else m k

/-! ## Packets (`main.go` lines 122-136) -/

structure Packet where
  Timestamp : Int
  Length : Int
  EventType : EventType
  Proportions : CountMap
  PropWinSize : Nat

def NewPacket (ts : Int) (length : Int) : Packet :=
  { Timestamp := ts, Length := length, EventType := 0,
    Proportions := emptyCounts, PropWinSize := 0 }

def Packet.AddEvent (p : Packet) (et : CCTrace.EventType) : Packet :=
  { p with EventType := p.EventType ||| et }

/-- A packet as `NewPacket` and `AddEvent` leave it: no window data yet. -/
def Packet.Fresh (p : Packet) : Prop :=
  p.Proportions = emptyCounts ∧ p.PropWinSize = 0

/-- A freshly created packet with the given capture data and event mask. -/
def freshPacket (ts : Int) (length : Int) (ev : EventType) : Packet :=
  (NewPacket ts length).AddEvent ev

/-- The proportion `Proportions[et] / PropWinSize` of `xplotPackets`
(line 304), as an exact rational. -/
def Packet.prop (p : Packet) (et : CCTrace.EventType) : ℚ :=
  (p.Proportions et : ℚ) / (p.PropWinSize : ℚ)

/-! ## The window smoother (`main.go` lines 257-278) -/

/-- In-place update through `p := &packets[i]`. -/
def modifyAt (packets : List Packet) (i : Nat) (f : Packet → Packet) : List Packet :=
  match packets[i]? with
  | some p => packets.set i (f p)
  | none => packets

/-- Body of the `et` loop: `if packets[j].EventType&et != 0 { p.Proportions[et]++ }`. -/
def etBody (i j : Nat) (packets : List Packet) (et : EventType) : List Packet :=
  match packets[j]? with
  | some pj =>
    if pj.EventType &&& et ≠ 0 then
      modifyAt packets i (fun p => { p with Proportions := incr p.Proportions et })
    else packets
  | none => packets

/-- Body of the `j` loop: the `et` loop, then `p.PropWinSize++`. -/
def windowBody (i : Nat) (packets : List Packet) (j : Nat) : List Packet :=
  modifyAt (etValues.foldl (etBody i j) packets) i
    (fun p => { p with PropWinSize := (p.PropWinSize + 1) % uintMod })

/-- Lower end `j1` of the window of packet `i`, after clipping at `0`. -/
def windowLo (i : Nat) (window : Int) : Int :=
  let j1 := wrapInt ((i : Int) - window)
  if j1 < 0 then 0 else j1

/-- Upper end `j2` of the window of packet `i`, after clipping at `len(packets)`. -/
def windowHi (i : Nat) (window : Int) (len : Nat) : Int :=
  let j2 := wrapInt ((i : Int) + window)
  if j2 > (len : Int) then (len : Int) else j2

/-- Values taken by `j` in `for j := j1; j < j2; j++`. -/
def windowIndices (i : Nat) (window : Int) (len : Nat) : List Nat :=
  List.range' (windowLo i window).toNat (windowHi i window len - windowLo i window).toNat

/-- Body of the outer loop of `processPackets` for index `i`. -/
def packetBody (window : Int) (packets : List Packet) (i : Nat) : List Packet :=
  (windowIndices i window packets.length).foldl (windowBody i) packets

def processPackets (packets : List Packet) (window : Int) : List Packet :=
  (List.range packets.length).foldl (packetBody window) packets

/-! ## Decoded packets handed over by the capture library

The capture decoder (`gopacket`) is not part of the repository; the views
below carry the fields of its values that `main.go` reads. -/

/-- Modelled from the spec: a `gopacket.Flow`, the identity of a pair of
endpoints (source and destination ports for a transport flow, source and
destination addresses for a network flow) together with its endpoint kind.
`gopacket.Flow{}` is `Flow.zero`. -/
structure Flow where
  typ : Nat
  src : Nat
  dst : Nat
deriving DecidableEq

def Flow.zero : Flow := { typ := 0, src := 0, dst := 0 }

/-- Modelled from the spec: the direction-reversed identity, `Flow.Reverse()`
of the library: source and destination swapped. -/
def Flow.Reverse (f : Flow) : Flow := { typ := f.typ, src := f.dst, dst := f.src }

/-- Endpoint kinds of the library. -/
def EndpointIPv4 : Nat := 1
def EndpointIPv6 : Nat := 2
def EndpointTCPPort : Nat := 3

/-- Modelled from the spec: the TCP header view (`layers.TCP`): ports and the
flag bits read by `AddPacket`. -/
structure TCP where
  SrcPort : Nat
  DstPort : Nat
  SYN : Bool
  CWR : Bool
  ECE : Bool
  NS : Bool

def TCP.TransportFlow (t : TCP) : Flow :=
  { typ := EndpointTCPPort, src := t.SrcPort, dst := t.DstPort }

/-- Modelled from the spec: the IPv4 view (`layers.IPv4`) with its 8-bit
type-of-service byte. -/
structure IPv4 where
  SrcIP : Nat
  DstIP : Nat
  TOS : Nat

def IPv4.NetworkFlow (ip : IPv4) : Flow :=
  { typ := EndpointIPv4, src := ip.SrcIP, dst := ip.DstIP }

/-- Modelled from the spec: the IPv6 view (`layers.IPv6`) with its 8-bit
traffic-class byte. -/
structure IPv6 where
  SrcIP : Nat
  DstIP : Nat
  TrafficClass : Nat

def IPv6.NetworkFlow (ip : IPv6) : Flow :=
  { typ := EndpointIPv6, src := ip.SrcIP, dst := ip.DstIP }

/-- Modelled from the spec: a decoded packet (`gopacket.Packet`): capture
timestamp, length, and the optional TCP, IPv4 and IPv6 layers returned by
`gp.Layer(...)` (`none` for a `nil` layer). -/
structure GoPacket where
  Timestamp : Int
  Length : Int
  tcp : Option TCP
  ip4 : Option IPv4
  ip6 : Option IPv6

/-! ## Flow records (`main.go` lines 143-219) -/

structure FlowData where
  TransportFlow : Flow
  NetworkFlow : Flow
  UpPackets : List Packet
  DownPackets : List Packet
  UpCounts : CountMap
  DownCounts : CountMap

def NewFlowData (tf : Flow) : FlowData :=
  { TransportFlow := tf, NetworkFlow := Flow.zero, UpPackets := [], DownPackets := [],
    UpCounts := emptyCounts, DownCounts := emptyCounts }

def FlowData.CountEvent (fd : FlowData) (et : EventType) (up : Bool) : FlowData :=
  if up then { fd with UpCounts := incr fd.UpCounts et }
  else { fd with DownCounts := incr fd.DownCounts et }

/-- The method `addIPEvent`; the record and the packet behind the two pointers
are returned as a pair. -/
def FlowData.addIPEvent (fd : FlowData) (p : Packet) (up : Bool) (networkFlow : Flow)
    (newFlow : Bool) (dscp : Nat) : FlowData × Packet :=
  let fd := if newFlow then { fd with NetworkFlow := networkFlow } else fd
  let ecn := dscp &&& 0x03
  if ecn = NotECT then (fd, p)
  else if ecn = SCE then (fd.CountEvent EventTypeSCE up, p.AddEvent EventTypeSCE)
  else if ecn = ECT then (fd.CountEvent EventTypeECT up, p.AddEvent EventTypeECT)
  else if ecn = CE then (fd.CountEvent EventTypeCE up, p.AddEvent EventTypeCE)
  else (fd, p)

/-- The flag part of `AddPacket` (lines 190-201). -/
def FlowData.addFlagEvents (fd : FlowData) (p : Packet) (tcp : TCP) (up : Bool) :
    FlowData × Packet :=
  let s := (fd, p)
  let s := if tcp.CWR then (s.1.CountEvent EventTypeCWR up, s.2.AddEvent EventTypeCWR) else s
  let s := if tcp.ECE then (s.1.CountEvent EventTypeECE up, s.2.AddEvent EventTypeECE) else s
  let s := if tcp.NS then (s.1.CountEvent EventTypeNS up, s.2.AddEvent EventTypeNS) else s
  s

/-- The classification part of `AddPacket` (lines 187-212): the record with its
counters updated and the packet record that will be appended. -/
def FlowData.classify (fd : FlowData) (gp : GoPacket) (tcp : TCP) (up : Bool)
    (newFlow : Bool) : FlowData × Packet :=
  let p := NewPacket gp.Timestamp gp.Length
  if !tcp.SYN then
    let s := fd.addFlagEvents p tcp up
    let s := match gp.ip4 with
      | some ip4 => s.1.addIPEvent s.2 up ip4.NetworkFlow newFlow ip4.TOS
      | none => s
    let s := match gp.ip6 with
      | some ip6 => s.1.addIPEvent s.2 up ip6.NetworkFlow newFlow ip6.TrafficClass
      | none => s
    s
  else (fd, p)

def FlowData.AddPacket (fd : FlowData) (gp : GoPacket) (tcp : TCP) (up : Bool)
    (newFlow : Bool) : FlowData :=
  let s := fd.classify gp tcp up newFlow
  if up then { s.1 with UpPackets := s.1.UpPackets ++ [s.2] }
  else { s.1 with DownPackets := s.1.DownPackets ++ [s.2] }

/-! ## The flow table (`main.go` lines 229-255) -/

/-- Go `map[gopacket.Flow]*FlowData`: an association list with unique keys. -/
abbrev FlowTable := List (Flow × FlowData)

/-- The lookup `data[k]` with its `ok` result. -/
def tableGet : FlowTable → Flow → Option FlowData
  | [], _ => none
  | (k', v) :: rest, k => if k' = k then some v else tableGet rest k

/-- The record stored under `k` becomes `v`: the assignment `data[k] = fd` for
a new key, the mutation through the stored pointer for an existing one. -/
def tablePut : FlowTable → Flow → FlowData → FlowTable
  | [], k, v => [(k, v)]
  | (k', v') :: rest, k, v =>
    if k' = k then (k, v) :: rest else (k', v') :: tablePut rest k v

/-- One iteration of the packet loop of `parse`. -/
def parseStep (data : FlowTable) (p : GoPacket) : FlowTable :=
  match p.tcp with
  | none => data
  | some tcp =>
    let tf := tcp.TransportFlow
    match tableGet data tf with
    | some fd => tablePut data tf (fd.AddPacket p tcp true false)
    | none =>
      match tableGet data tf.Reverse with
      | some fd => tablePut data tf.Reverse (fd.AddPacket p tcp false false)
      | none => tablePut data tf ((NewFlowData tf).AddPacket p tcp true true)

def parse (packets : List GoPacket) : FlowTable :=
  packets.foldl parseStep []

/-- Key and direction (`up`) under which the lookup of `parse` finds the
record of identity `tf`: the literal identity first, then the reversed one. -/
def resolve (data : FlowTable) (tf : Flow) : Option (Flow × Bool) :=
  match tableGet data tf with
  | some _ => some (tf, true)
  | none =>
    match tableGet data tf.Reverse with
    | some _ => some (tf.Reverse, false)
    | none => none

/-- The table never holds a key together with its distinct reversal, and its
keys are unique. -/
def TableInv (d : FlowTable) : Prop :=
  (d.map Prod.fst).Nodup ∧
  ∀ k, (tableGet d k).isSome = true → k.Reverse ≠ k → tableGet d k.Reverse = none

/-- TCP header of a SYN segment from port 1000 to port 80. -/
def tcpSynA : TCP :=
  { SrcPort := 1000, DstPort := 80, SYN := true, CWR := false, ECE := false, NS := false }

/-- TCP header of a data segment from port 80 to port 1000. -/
def tcpCEB : TCP :=
  { SrcPort := 80, DstPort := 1000, SYN := false, CWR := false, ECE := false, NS := false }

/-- Packet A: a SYN segment from port 1000 to port 80 (codepoint Not-ECT). -/
def pktSynA : GoPacket :=
  { Timestamp := 0, Length := 60, tcp := some tcpSynA,
    ip4 := some { SrcIP := 1, DstIP := 2, TOS := 0 }, ip6 := none }

/-- Packet B: a segment in the reverse direction carrying codepoint CE. -/
def pktCEB : GoPacket :=
  { Timestamp := 1, Length := 60, tcp := some tcpCEB,
    ip4 := some { SrcIP := 2, DstIP := 1, TOS := 3 }, ip6 := none }

/-- TCP header with SYN set together with CWR, ECE and NS. -/
def tcpSynAll : TCP :=
  { SrcPort := 1000, DstPort := 80, SYN := true, CWR := true, ECE := true, NS := true }

/-- A SYN segment with every flag set, exposing an IPv4 view with codepoint CE
and an IPv6 view with codepoint SCE. -/
def pktSynAll : GoPacket :=
  { Timestamp := 7, Length := 74, tcp := some tcpSynAll,
    ip4 := some { SrcIP := 1, DstIP := 2, TOS := 3 },
    ip6 := some { SrcIP := 3, DstIP := 4, TrafficClass := 1 } }

/-- A non-SYN segment exposing both an IPv4 view (codepoint SCE) and an IPv6
view (codepoint CE), as an IPv6-in-IPv4 tunnel packet does. -/
def pktBothViews : GoPacket :=
  { Timestamp := 2, Length := 94, tcp := some tcpCEB,
    ip4 := some { SrcIP := 2, DstIP := 1, TOS := 1 },
    ip6 := some { SrcIP := 5, DstIP := 6, TrafficClass := 3 } }

/-- A non-SYN segment exposing an IPv6 view only, with codepoint ECT. -/
def pktOneView : GoPacket :=
  { Timestamp := 3, Length := 80, tcp := some tcpCEB,
    ip4 := none, ip6 := some { SrcIP := 5, DstIP := 6, TrafficClass := 2 } }

/-! ## Reference quantities used in the statements about the classifier -/

/-- Event added for a differentiated-services byte: none for Not-ECT. -/
def ecnEvent (dscp : Nat) : EventType :=
  if dscp &&& 0x03 = SCE then EventTypeSCE
  else if dscp &&& 0x03 = ECT then EventTypeECT
  else if dscp &&& 0x03 = CE then EventTypeCE
  else 0

/-- Event bits of the three TCP flags. -/
def flagMask (tcp : TCP) : EventType :=
  (((0 ||| (if tcp.CWR then EventTypeCWR else 0)) ||| (if tcp.ECE then EventTypeECE else 0))
    ||| (if tcp.NS then EventTypeNS else 0))

/-- Number of the ECT, SCE and CE bits held by an event mask. -/
def ecnBits (ev : EventType) : Nat :=
  ([EventTypeECT, EventTypeSCE, EventTypeCE].filter (fun et => decide (ev &&& et ≠ 0))).length

/-! ## Per-packet reading of the smoother

The loops of `processPackets` only ever write to `packets[i]` and only ever
read the event masks, which they never write. The functions below give the
effect of the loops on the single packet `p = packets[i]`; the lemmas further
down prove that the in-place loops compute exactly this. -/

/-- Event mask of `packets[j]`. -/
def evAt (packets : List Packet) (j : Nat) : EventType :=
  match packets[j]? with
  | some pj => pj.EventType
  | none => 0

/-- Effect on `p` of one `et` iteration when `packets[j].EventType = ev`. -/
def bumpEt (ev : EventType) (p : Packet) (et : EventType) : Packet :=
  if ev &&& et ≠ 0 then { p with Proportions := incr p.Proportions et } else p

/-- Effect on `p` of one `j` iteration when `packets[j].EventType = ev`. -/
def bumpJ (ev : EventType) (p : Packet) : Packet :=
  let q := etValues.foldl (bumpEt ev) p
  { q with PropWinSize := (q.PropWinSize + 1) % uintMod }

/-- Effect on `p` of the whole `j` loop over the indices `js`. -/
def smoothOne (evs : Nat → EventType) (js : List Nat) (p : Packet) : Packet :=
  js.foldl (fun q j => bumpJ (evs j) q) p

/-! ## Reference quantities used in the statements about the smoother -/

/-- Whether the event mask of packet `j` includes `et`. -/
def carries (packets : List Packet) (j : Nat) (et : EventType) : Bool :=
  match packets[j]? with
  | some pj => decide (pj.EventType &&& et ≠ 0)
  | none => false

/-- Number of indices `j` with `lo ≤ j < hi` whose event mask includes `et`. -/
def occurrences (packets : List Packet) (lo hi : Int) (et : EventType) : Nat :=
  ((List.range packets.length).filter
    (fun (j : Nat) => decide (lo ≤ (j : Int)) && decide ((j : Int) < hi) && carries packets j et)).length

/-- The six event types, in bit order. -/
def allEventTypes : List EventType :=
  [EventTypeECT, EventTypeSCE, EventTypeCE, EventTypeECE, EventTypeCWR, EventTypeNS]

/-- Largest Go `int`. -/
def maxInt : Int := 9223372036854775807

/-- Two fresh packets with masks `[CE, none]`. -/
def seqCENone : List Packet :=
  [freshPacket 0 60 EventTypeCE, freshPacket 1 60 0]

/-- Five fresh packets with masks `[CE, none, CE, ECE, CE]`. -/
def seqFive : List Packet :=
  [freshPacket 0 60 EventTypeCE, freshPacket 1 60 0, freshPacket 2 60 EventTypeCE,
   freshPacket 3 60 EventTypeECE, freshPacket 4 60 EventTypeCE]

/-- One fresh packet carrying CE. -/
def seqOneCE : List Packet := [freshPacket 0 60 EventTypeCE]

/-- One packet that already holds window data: CE count 1, window size 1. -/
def seqStale : List Packet :=
  [{ Timestamp := 0, Length := 60, EventType := 0,
     Proportions := incr emptyCounts EventTypeCE, PropWinSize := 1 }]

/-! ## Reference classification (specification section 4.1) -/

/-- Reference classification of a non-SYN packet whose single IP view has the
differentiated-services byte `b`, in the words of the specification: one bit
per set flag, and for the codepoint `b mod 4` nothing (0), SCE (1), ECT (2) or
CE (3). -/
def refClassify (tcp : TCP) (b : Nat) : EventType :=
  (if tcp.CWR then EventTypeCWR else 0) + (if tcp.ECE then EventTypeECE else 0)
    + (if tcp.NS then EventTypeNS else 0)
    + (if b % 4 = 1 then EventTypeSCE else if b % 4 = 2 then EventTypeECT
        else if b % 4 = 3 then EventTypeCE else 0)

/-- Whether an event mask includes the type `et`. -/
def hasType (ev et : EventType) : Bool := decide (ev &&& et ≠ 0)

/-- A non-SYN segment with ECE and NS set and an IPv4 view whose byte is
`0xB9` (upper bits set, codepoint 1). -/
def tcpFlags : TCP :=
  { SrcPort := 80, DstPort := 1000, SYN := false, CWR := false, ECE := true, NS := true }

def pktFlags : GoPacket :=
  { Timestamp := 4, Length := 66, tcp := some tcpFlags,
    ip4 := some { SrcIP := 2, DstIP := 1, TOS := 185 }, ip6 := none }

/-! ## Admission of a sequence of packets to one Flow Record -/

/-- A sequence of calls `fd.AddPacket(gp, tcp, up, newFlow)` on one record. -/
def admitAll (fd : FlowData) (calls : List (GoPacket × TCP × Bool × Bool)) : FlowData :=
  calls.foldl (fun fd c => fd.AddPacket c.1 c.2.1 c.2.2.1 c.2.2.2) fd

/-- Number of packet records of a sequence whose event mask includes `et`. -/
def typeCount (ps : List Packet) (et : EventType) : Nat :=
  ps.countP (fun p => hasType p.EventType et)

/-- The counters of `s.1` are those of `fd0` with one more for every type held
by the mask of the packet `s.2`, in the direction `up`. -/
def CountsTrack (fd0 : FlowData) (up : Bool) (s : FlowData × Packet) : Prop :=
  ∀ et ∈ etValues,
    s.1.UpCounts et =
      (if up = true ∧ hasType s.2.EventType et = true then (fd0.UpCounts et + 1) % uintMod
        else fd0.UpCounts et) ∧
    s.1.DownCounts et =
      (if up = false ∧ hasType s.2.EventType et = true then (fd0.DownCounts et + 1) % uintMod
        else fd0.DownCounts et)

/-- A non-SYN segment exposing an IPv4 and an IPv6 view that both carry CE. -/
def pktBothCE : GoPacket :=
  { Timestamp := 5, Length := 94, tcp := some tcpCEB,
    ip4 := some { SrcIP := 2, DstIP := 1, TOS := 3 },
    ip6 := some { SrcIP := 5, DstIP := 6, TrafficClass := 3 } }

/-- Every counter of the six types equals (as a `uint`) the number of packet
records of its direction whose mask includes the type. -/
def CountsMatch (fd : FlowData) : Prop :=
  ∀ et ∈ etValues,
    fd.UpCounts et = typeCount fd.UpPackets et % uintMod ∧
    fd.DownCounts et = typeCount fd.DownPackets et % uintMod

/-- TCP header of a non-SYN segment from port 1000 to port 80. -/
def tcpPlainA : TCP :=
  { SrcPort := 1000, DstPort := 80, SYN := false, CWR := false, ECE := false, NS := false }

/-- A non-SYN segment from port 1000 to port 80 with an IPv4 view. -/
def pktPlainA : GoPacket :=
  { Timestamp := 0, Length := 60, tcp := some tcpPlainA,
    ip4 := some { SrcIP := 1, DstIP := 2, TOS := 2 }, ip6 := none }

/-- Network-flow identity latched from the views of the packet that creates a
record, when that packet is not a SYN segment: the IPv6 view is assigned after
the IPv4 view and wins. -/
def latchedFlow (gp : GoPacket) : Flow :=
  match gp.ip6 with
  | some ip6 => ip6.NetworkFlow
  | none =>
    match gp.ip4 with
    | some ip4 => ip4.NetworkFlow
    | none => Flow.zero

/-- One packet whose recorded window size is the largest `uint`. -/
def seqFullWindow : List Packet :=
  [{ Timestamp := 0, Length := 60, EventType := 0,
     Proportions := emptyCounts, PropWinSize := 18446744073709551615 }]

/-! ## Event display configuration (`main.go` lines 19-98) -/

structure EventConfig where
  Plot : Bool
  UpSymbol : String
  DownSymbol : String
  Color : String
  Label : String
  LabelAll : Bool
  TextItem : String
  PlotAllUp : Bool
  PlotAllDown : Bool

/-- The zero value of `EventConfig`, read from the Go map at an absent key. -/
def EventConfig.zero : EventConfig :=
  { Plot := false, UpSymbol := "", DownSymbol := "", Color := "", Label := "",
    LabelAll := false, TextItem := "", PlotAllUp := false, PlotAllDown := false }

/-- The map `Config`, read as `Config[et]`. -/
def Config (et : EventType) : EventConfig :=
  if et = EventTypeECT then
    { Plot := false, UpSymbol := "rarrow", DownSymbol := "larrow", Color := "white",
      Label := "ECT", LabelAll := false, TextItem := "ltext", PlotAllUp := false,
      PlotAllDown := false }
  else if et = EventTypeSCE then
    { Plot := true, UpSymbol := "rarrow", DownSymbol := "larrow", Color := "yellow",
      Label := "SCE", LabelAll := false, TextItem := "ltext", PlotAllUp := true,
      PlotAllDown := false }
  else if et = EventTypeCE then
    { Plot := true, UpSymbol := "rarrow", DownSymbol := "larrow", Color := "red",
      Label := "CE", LabelAll := true, TextItem := "ltext", PlotAllUp := false,
      PlotAllDown := false }
  else if et = EventTypeECE then
    { Plot := true, UpSymbol := "rarrow", DownSymbol := "larrow", Color := "blue",
      Label := "ECE", LabelAll := false, TextItem := "ltext", PlotAllUp := false,
      PlotAllDown := false }
  else if et = EventTypeCWR then
    { Plot := true, UpSymbol := "rarrow", DownSymbol := "larrow", Color := "green",
      Label := "CWR", LabelAll := false, TextItem := "ltext", PlotAllUp := false,
      PlotAllDown := false }
  else if et = EventTypeNS then
    { Plot := true, UpSymbol := "rarrow", DownSymbol := "larrow", Color := "purple",
      Label := "NS", LabelAll := false, TextItem := "ltext", PlotAllUp := false,
      PlotAllDown := false }
  else EventConfig.zero

/-! ## The series encoder (`main.go` lines 297-366)

A line of the document keeps the values that are formatted instead of their
text: `tv` is the capture timestamp printed by `TimevalString`, and `num`,
`den` are the two operands `Proportions[et]` and `PropWinSize` of the
proportion printed with `%f`. -/

inductive Line where
  /-- A line `"%s %s %f %s\n"`: keyword (marker symbol or text item), time,
  proportion, colour. -/
  | item (keyword : String) (tv : Int) (num den : Nat) (color : String)
  /-- A line written by `Fprintln` with a fixed text. -/
  | text (s : String)
  /-- A line `"line %s %f %s %f %s\n"`. -/
  | connector (tv1 : Int) (num1 den1 : Nat) (tv2 : Int) (num2 den2 : Nat) (color : String)
  /-- The line written by `Fprintln(w, v.FlowString())`. -/
  | flowLabel (tf : Flow)
deriving DecidableEq

/-- The loop `for j := i - 1; j >= 0; j--` of `xplotPackets` with its `break`,
started with `i` candidates: the first index below `i`, scanning downwards,
whose mask includes `et`, with the packet found there. -/
def scanBack (packets : List Packet) (et : EventType) : Nat → Option (Nat × Packet)
  | 0 => none
  | j + 1 =>
    match packets[j]? with
    | some jp => if jp.EventType &&& et ≠ 0 then some (j, jp) else scanBack packets et j
    | none => scanBack packets et j

/-- Body of the `et` loop of `xplotPackets` for packet `p` at index `i`; the
state is the mask `etmask` and the lines written so far. -/
def plotEt (up lines : Bool) (packets : List Packet) (i : Nat) (p : Packet)
    (st : EventType × List Line) (et : EventType) : EventType × List Line :=
  if p.EventType &&& et ≠ 0 ∨ (up = true ∧ (Config et).PlotAllUp = true) ∨
      (up = false ∧ (Config et).PlotAllDown = true) then
    let symbol := if up = true then (Config et).UpSymbol else (Config et).DownSymbol
    if (Config et).Plot = true then
      let out := st.2 ++
        [Line.item symbol p.Timestamp (p.Proportions et) p.PropWinSize (Config et).Color]
      let st1 : EventType × List Line :=
        if (Config et).LabelAll = true ∨ st.1 &&& et = 0 then
          (st.1 ||| et,
            out ++ [Line.item (Config et).TextItem p.Timestamp (p.Proportions et)
                      p.PropWinSize (Config et).Color,
                    Line.text (Config et).Label])
        else (st.1, out)
      if lines = true then
        match scanBack packets et i with
        | some (_, jp) =>
          (st1.1, st1.2 ++ [Line.connector jp.Timestamp (jp.Proportions et) jp.PropWinSize
            p.Timestamp (p.Proportions et) p.PropWinSize (Config et).Color])
        | none => st1
      else st1
    else st
  else st

/-- The lines written by one call of `xplotPackets`. -/
def xplotPackets (up : Bool) (packets : List Packet) (lines : Bool) : List Line :=
  (packets.enum.foldl
    (fun st ip => etValues.foldl (plotEt up lines packets ip.1 ip.2) st)
    ((0 : EventType), ([] : List Line))).2

/-- The document written by `xplot` for one Flow Record. -/
def xplotDoc (v : FlowData) (lines : Bool) : List Line :=
  [Line.text "timeval double", Line.text "title", Line.flowLabel v.TransportFlow,
   Line.text "xlabel", Line.text "Time", Line.text "ylabel", Line.text "Proportion"]
    ++ xplotPackets true v.UpPackets lines
    ++ xplotPackets false v.DownPackets lines
    ++ [Line.text "go"]

/-! ## Reference quantities used in the statements about the encoder -/

/-- Whether the type fired on the packet or is always displayed on the
direction (the outer condition of `xplotPackets`). -/
def fires (up : Bool) (p : Packet) (et : EventType) : Bool :=
  decide (p.EventType &&& et ≠ 0) || (up && (Config et).PlotAllUp) ||
    (!up && (Config et).PlotAllDown)

/-- Whether a marker is written for the packet and the type: the outer
condition and the `Plot` switch. -/
def shows (up : Bool) (p : Packet) (et : EventType) : Bool :=
  fires up p et && (Config et).Plot

/-- The marker line of a packet and a type. -/
def markerLine (up : Bool) (p : Packet) (et : EventType) : Line :=
  Line.item (if up = true then (Config et).UpSymbol else (Config et).DownSymbol)
    p.Timestamp (p.Proportions et) p.PropWinSize (Config et).Color

/-- The label line-pair of a packet and a type. -/
def labelLines (p : Packet) (et : EventType) : List Line :=
  [Line.item (Config et).TextItem p.Timestamp (p.Proportions et) p.PropWinSize
     (Config et).Color,
   Line.text (Config et).Label]

/-- The connector line of packet `p` at index `i` towards packet `jp`. -/
def connectorLine (jp p : Packet) (et : EventType) : Line :=
  Line.connector jp.Timestamp (jp.Proportions et) jp.PropWinSize
    p.Timestamp (p.Proportions et) p.PropWinSize (Config et).Color

/-- The connector lines written after a marker: none, or one. -/
def connectorLines (lines : Bool) (packets : List Packet) (i : Nat) (p : Packet)
    (et : EventType) : List Line :=
  if lines = true then
    match scanBack packets et i with
    | some (_, jp) => [connectorLine jp p et]
    | none => []
  else []

/-- Whether the label pair is written after a marker, given the mask of the
types labelled so far. -/
def labelled (mask et : EventType) : Bool :=
  (Config et).LabelAll || decide (mask &&& et = 0)

/-- The lines written for one packet and one type. -/
def blockOf (up lines : Bool) (packets : List Packet) (mask : EventType) (i : Nat)
    (p : Packet) (et : EventType) : List Line :=
  if shows up p et = true then
    markerLine up p et ::
      ((if labelled mask et = true then labelLines p et else [])
        ++ connectorLines lines packets i p et)
  else []

/-- The mask `etmask` after one packet and one type. -/
def maskAfter (up : Bool) (mask : EventType) (p : Packet) (et : EventType) : EventType :=
  if shows up p et = true ∧ labelled mask et = true then mask ||| et else mask

/-- The iterations of the two nested loops of `xplotPackets`, in order: packet
index, packet, event type. -/
def cellsOf (packets : List Packet) : List (Nat × Packet × EventType) :=
  packets.enum.flatMap (fun ip => etValues.map (fun et => (ip.1, ip.2, et)))

/-- One iteration of the nested loops on the state (mask, lines written). -/
def plotCell (up lines : Bool) (packets : List Packet) (st : EventType × List Line)
    (c : Nat × Packet × EventType) : EventType × List Line :=
  plotEt up lines packets c.1 c.2.1 st c.2.2

/-- Whether a line is a marker line of the direction: an item whose keyword is
the marker symbol. -/
def isMarker (up : Bool) : Line → Bool
  | Line.item kw _ _ _ _ => decide (kw = (if up = true then "rarrow" else "larrow"))
  | _ => false

/-- Whether a line is a marker line of the type `et`. -/
def isMarkerOf (up : Bool) (et : EventType) : Line → Bool
  | Line.item kw _ _ _ col =>
    decide (kw = (if up = true then "rarrow" else "larrow")) && decide (col = (Config et).Color)
  | _ => false

/-- Whether a line is a connector line. -/
def isConnector : Line → Bool
  | Line.connector _ _ _ _ _ _ _ => true
  | _ => false

/-- Whether a line is the label text of the type `et`. -/
def isLabelText (et : EventType) : Line → Bool
  | Line.text s => decide (s = (Config et).Label)
  | _ => false

/-- If line `k` of `out` is a marker line of the type `et`, the two lines after
it are the label line-pair of the type with the same timestamp, proportion and
colour. -/
def LabelFollows (up : Bool) (et : EventType) (out : List Line) (k : Nat) : Prop :=
  ∀ (tv : Int) (a b : Nat),
    out[k]? = some (Line.item (if up = true then "rarrow" else "larrow") tv a b
      (Config et).Color) →
    out[k + 1]? = some (Line.item (Config et).TextItem tv a b (Config et).Color) ∧
    out[k + 2]? = some (Line.text (Config et).Label)

/-- A Flow Record with one upstream and one downstream packet, both carrying
ECE. -/
def flowTwoECE : FlowData :=
  { TransportFlow := tcpSynA.TransportFlow, NetworkFlow := Flow.zero,
    UpPackets := [freshPacket 0 60 EventTypeECE],
    DownPackets := [freshPacket 1 60 EventTypeECE],
    UpCounts := incr emptyCounts EventTypeECE, DownCounts := incr emptyCounts EventTypeECE }

/-- The statement `m[et]++` on a counter holding `n`, executed when `c` holds. -/
def bumpIf (c : Bool) (n : Nat) : Nat := if c = true then (n + 1) % uintMod else n

/-! ## Lemmas on in-place updates -/

theorem length_modifyAt (ps : List Packet) (i : Nat) (f : Packet → Packet) :
    (modifyAt ps i f).length = ps.length := by
  unfold modifyAt
  cases h : ps[i]? <;> simp

theorem getElem?_modifyAt (ps : List Packet) (i k : Nat) (f : Packet → Packet) :
    (modifyAt ps i f)[k]? = if k = i then ps[k]?.map f else ps[k]? := by
  unfold modifyAt
  cases h : ps[i]? with
  | none =>
    by_cases hk : k = i
    · subst hk; simp [h]
    · simp [hk]
  | some p =>
    by_cases hk : k = i
    · subst hk
      have hlt : k < ps.length := by
        by_contra hge
        rw [List.getElem?_eq_none (by omega)] at h
        cases h
      simp [h, List.getElem?_set, hlt]
    · have hne : i ≠ k := fun h => hk h.symm
      simp [hk, List.getElem?_set, hne]

theorem modifyAt_modifyAt (ps : List Packet) (i : Nat) (f g : Packet → Packet) :
    modifyAt (modifyAt ps i f) i g = modifyAt ps i (fun p => g (f p)) := by
  apply List.ext_getElem?
  intro k
  simp only [getElem?_modifyAt]
  by_cases hk : k = i
  · simp [hk, Option.map_map, Function.comp_def]
  · simp [hk]

theorem modifyAt_id (ps : List Packet) (i : Nat) : modifyAt ps i (fun p => p) = ps := by
  apply List.ext_getElem?
  intro k
  simp only [getElem?_modifyAt]
  by_cases hk : k = i
  · simp [hk]
  · simp [hk]

theorem evAt_modifyAt (ps : List Packet) (i j : Nat) (f : Packet → Packet)
    (hf : ∀ p, (f p).EventType = p.EventType) :
    evAt (modifyAt ps i f) j = evAt ps j := by
  unfold evAt
  rw [getElem?_modifyAt]
  by_cases hj : j = i
  · simp only [hj, if_true]
    cases ps[i]? with
    | none => rfl
    | some p => simp [hf]
  · simp [hj]

theorem evAt_of_getElem? {ps : List Packet} {j : Nat} {p : Packet} (h : ps[j]? = some p) :
    evAt ps j = p.EventType := by
  simp [evAt, h]

/-! ## The per-packet functions keep the capture data -/

theorem bumpEt_frame (ev : EventType) (p : Packet) (et : EventType) :
    (bumpEt ev p et).Timestamp = p.Timestamp ∧ (bumpEt ev p et).Length = p.Length ∧
    (bumpEt ev p et).EventType = p.EventType ∧ (bumpEt ev p et).PropWinSize = p.PropWinSize := by
  unfold bumpEt
  split <;> simp

theorem foldl_bumpEt_frame (ev : EventType) (ets : List EventType) (p : Packet) :
    (ets.foldl (bumpEt ev) p).Timestamp = p.Timestamp ∧
    (ets.foldl (bumpEt ev) p).Length = p.Length ∧
    (ets.foldl (bumpEt ev) p).EventType = p.EventType ∧
    (ets.foldl (bumpEt ev) p).PropWinSize = p.PropWinSize := by
  induction ets generalizing p with
  | nil => simp
  | cons et rest ih =>
    simp only [List.foldl_cons]
    obtain ⟨h1, h2, h3, h4⟩ := ih (bumpEt ev p et)
    obtain ⟨g1, g2, g3, g4⟩ := bumpEt_frame ev p et
    exact ⟨h1.trans g1, h2.trans g2, h3.trans g3, h4.trans g4⟩

theorem bumpJ_frame (ev : EventType) (p : Packet) :
    (bumpJ ev p).Timestamp = p.Timestamp ∧ (bumpJ ev p).Length = p.Length ∧
    (bumpJ ev p).EventType = p.EventType := by
  obtain ⟨h1, h2, h3, _⟩ := foldl_bumpEt_frame ev etValues p
  exact ⟨h1, h2, h3⟩

theorem smoothOne_frame (evs : Nat → EventType) (js : List Nat) (p : Packet) :
    (smoothOne evs js p).Timestamp = p.Timestamp ∧ (smoothOne evs js p).Length = p.Length ∧
    (smoothOne evs js p).EventType = p.EventType := by
  unfold smoothOne
  induction js generalizing p with
  | nil => simp
  | cons j rest ih =>
    simp only [List.foldl_cons]
    obtain ⟨h1, h2, h3⟩ := ih (bumpJ (evs j) p)
    obtain ⟨g1, g2, g3⟩ := bumpJ_frame (evs j) p
    exact ⟨h1.trans g1, h2.trans g2, h3.trans g3⟩

/-! ## The in-place loops compute the per-packet functions -/

theorem etBody_eq (i j : Nat) (ps : List Packet) (et : EventType) (hj : j < ps.length) :
    etBody i j ps et = modifyAt ps i (fun p => bumpEt (evAt ps j) p et) := by
  have hsome : ps[j]? = some ps[j] := List.getElem?_eq_getElem hj
  unfold etBody
  rw [hsome]
  simp only [evAt_of_getElem? hsome, bumpEt]
  by_cases hbit : ps[j].EventType &&& et ≠ 0
  · rw [if_pos hbit]
    simp only [if_pos hbit]
  · rw [if_neg hbit]
    simp only [if_neg hbit]
    exact (modifyAt_id ps i).symm

theorem foldl_etBody_eq (i j : Nat) (ets : List EventType) (ps : List Packet)
    (hj : j < ps.length) :
    ets.foldl (etBody i j) ps = modifyAt ps i (fun p => ets.foldl (bumpEt (evAt ps j)) p) := by
  induction ets generalizing ps with
  | nil => simp [modifyAt_id]
  | cons et rest ih =>
    simp only [List.foldl_cons]
    rw [etBody_eq i j ps et hj]
    have hlen : j < (modifyAt ps i (fun p => bumpEt (evAt ps j) p et)).length := by
      rw [length_modifyAt]; exact hj
    rw [ih _ hlen, modifyAt_modifyAt]
    rw [evAt_modifyAt ps i j _ (fun p => (bumpEt_frame (evAt ps j) p et).2.2.1)]

theorem windowBody_eq (i j : Nat) (ps : List Packet) (hj : j < ps.length) :
    windowBody i ps j = modifyAt ps i (bumpJ (evAt ps j)) := by
  unfold windowBody
  rw [foldl_etBody_eq i j etValues ps hj, modifyAt_modifyAt]
  rfl

theorem foldl_windowBody_eq (i : Nat) (js : List Nat) (ps : List Packet)
    (hjs : ∀ j ∈ js, j < ps.length) :
    js.foldl (windowBody i) ps = modifyAt ps i (smoothOne (evAt ps) js) := by
  induction js generalizing ps with
  | nil =>
    simp only [List.foldl_nil, smoothOne]
    exact (modifyAt_id ps i).symm
  | cons j rest ih =>
    simp only [List.foldl_cons]
    have hj : j < ps.length := hjs j (List.mem_cons_self j rest)
    rw [windowBody_eq i j ps hj]
    have hrest : ∀ k ∈ rest, k < (modifyAt ps i (bumpJ (evAt ps j))).length := by
      intro k hk
      rw [length_modifyAt]
      exact hjs k (List.mem_cons_of_mem j hk)
    rw [ih _ hrest, modifyAt_modifyAt]
    have hev : evAt (modifyAt ps i (bumpJ (evAt ps j))) = evAt ps := by
      funext k
      exact evAt_modifyAt ps i k _ (fun p => (bumpJ_frame (evAt ps j) p).2.2)
    rw [hev]
    rfl

theorem windowLo_nonneg (i : Nat) (w : Int) : 0 ≤ windowLo i w := by
  unfold windowLo
  simp only
  split <;> omega

theorem windowHi_le (i : Nat) (w : Int) (n : Nat) : windowHi i w n ≤ (n : Int) := by
  unfold windowHi
  simp only
  split <;> omega

theorem mem_windowIndices_lt {i : Nat} {w : Int} {n j : Nat}
    (h : j ∈ windowIndices i w n) : j < n := by
  unfold windowIndices at h
  rw [List.mem_range'_1] at h
  have h1 := windowLo_nonneg i w
  have h2 := windowHi_le i w n
  omega

theorem length_windowIndices_le (i : Nat) (w : Int) (n : Nat) :
    (windowIndices i w n).length ≤ n := by
  unfold windowIndices
  rw [List.length_range']
  have h1 := windowLo_nonneg i w
  have h2 := windowHi_le i w n
  omega

theorem packetBody_eq (w : Int) (ps : List Packet) (i : Nat) :
    packetBody w ps i = modifyAt ps i (smoothOne (evAt ps) (windowIndices i w ps.length)) := by
  unfold packetBody
  exact foldl_windowBody_eq i _ ps (fun j hj => mem_windowIndices_lt hj)

/-- State of the slice after the first `m` iterations of the outer loop. -/
theorem foldl_packetBody_getElem? (w : Int) (ps : List Packet) (m k : Nat) :
    ((List.range m).foldl (packetBody w) ps)[k]? =
      if k < m then ps[k]?.map (smoothOne (evAt ps) (windowIndices k w ps.length))
      else ps[k]? := by
  induction m generalizing k with
  | zero => simp
  | succ m ih =>
    have hlen : ((List.range m).foldl (packetBody w) ps).length = ps.length := by
      apply Nat.le_antisymm
      · by_contra hlt
        have h1 := ih ps.length
        rw [List.getElem?_eq_getElem (by omega)] at h1
        have h2 : ps[ps.length]? = none := List.getElem?_eq_none (Nat.le_refl _)
        rw [h2] at h1
        split at h1 <;> simp at h1
      · by_contra hlt
        have hk : ((List.range m).foldl (packetBody w) ps).length < ps.length := by omega
        have h1 := ih ((List.range m).foldl (packetBody w) ps).length
        rw [List.getElem?_eq_none (Nat.le_refl _), List.getElem?_eq_getElem hk] at h1
        split at h1 <;> simp at h1
    have hev : evAt ((List.range m).foldl (packetBody w) ps) = evAt ps := by
      funext j
      unfold evAt
      rw [ih j]
      cases hp : ps[j]? with
      | none => simp
      | some p =>
        by_cases hjm : j < m
        · simp [hjm, (smoothOne_frame _ _ p).2.2]
        · simp [hjm]
    rw [List.range_succ, List.foldl_append]
    simp only [List.foldl_cons, List.foldl_nil]
    rw [packetBody_eq, getElem?_modifyAt, hev, hlen, ih k]
    by_cases hk : k = m
    · subst hk
      simp
    · by_cases hlt : k < m
      · have : k < m + 1 := by omega
        simp [hk, hlt, this]
      · have : ¬ k < m + 1 := by omega
        simp [hk, hlt, this]

/-- Each packet of the result is the per-packet function applied to the
packet at the same index; nothing else changes. -/
theorem processPackets_getElem? (ps : List Packet) (w : Int) (k : Nat) :
    (processPackets ps w)[k]? =
      ps[k]?.map (smoothOne (evAt ps) (windowIndices k w ps.length)) := by
  unfold processPackets
  rw [foldl_packetBody_getElem?]
  by_cases hk : k < ps.length
  · simp [hk]
  · simp [hk, List.getElem?_eq_none (Nat.le_of_not_lt hk)]

theorem length_processPackets (ps : List Packet) (w : Int) :
    (processPackets ps w).length = ps.length := by
  apply Nat.le_antisymm
  · by_contra hlt
    have h1 := processPackets_getElem? ps w ps.length
    rw [List.getElem?_eq_getElem (by omega), List.getElem?_eq_none (Nat.le_refl _)] at h1
    simp at h1
  · by_contra hlt
    have hk : (processPackets ps w).length < ps.length := by omega
    have h1 := processPackets_getElem? ps w (processPackets ps w).length
    rw [List.getElem?_eq_none (Nat.le_refl _), List.getElem?_eq_getElem hk] at h1
    simp at h1

theorem evAt_processPackets (ps : List Packet) (w : Int) :
    evAt (processPackets ps w) = evAt ps := by
  funext j
  unfold evAt
  rw [processPackets_getElem?]
  cases hp : ps[j]? with
  | none => rfl
  | some p => simp [(smoothOne_frame _ _ p).2.2]

/-! ## Counters written by the per-packet functions -/

theorem etValues_eq : etValues = [1, 2, 4, 8, 16, 32] := by decide

theorem foldl_bumpEt_Proportions (ev : EventType) (ets : List EventType) (hnd : ets.Nodup)
    (p : Packet) (k : EventType) :
    (ets.foldl (bumpEt ev) p).Proportions k =
      if k ∈ ets ∧ ev &&& k ≠ 0 then (p.Proportions k + 1) % uintMod else p.Proportions k := by
  induction ets generalizing p with
  | nil => simp
  | cons et rest ih =>
    simp only [List.foldl_cons]
    rw [List.nodup_cons] at hnd
    rw [ih hnd.2]
    by_cases hk : k = et
    · subst hk
      have hnot : ¬ (k ∈ rest ∧ ev &&& k ≠ 0) := fun h => hnd.1 h.1
      rw [if_neg hnot]
      unfold bumpEt
      by_cases hbit : ev &&& k ≠ 0
      · simp [hbit, incr]
      · simp [hbit]
    · have hstep : (bumpEt ev p et).Proportions k = p.Proportions k := by
        unfold bumpEt
        by_cases hbit : ev &&& et ≠ 0
        · simp [hbit, incr, hk]
        · simp [hbit]
      simp [hstep, hk]

theorem bumpJ_PropWinSize (ev : EventType) (p : Packet) :
    (bumpJ ev p).PropWinSize = (p.PropWinSize + 1) % uintMod := by
  unfold bumpJ
  simp only
  rw [(foldl_bumpEt_frame ev etValues p).2.2.2]

theorem bumpJ_Proportions (ev : EventType) (p : Packet) (k : EventType) :
    (bumpJ ev p).Proportions k =
      if k ∈ etValues ∧ ev &&& k ≠ 0 then (p.Proportions k + 1) % uintMod
      else p.Proportions k := by
  unfold bumpJ
  simp only
  exact foldl_bumpEt_Proportions ev etValues (by rw [etValues_eq]; decide) p k

theorem smoothOne_PropWinSize (evs : Nat → EventType) (js : List Nat) (p : Packet)
    (hp : p.PropWinSize < uintMod) :
    (smoothOne evs js p).PropWinSize = (p.PropWinSize + js.length) % uintMod := by
  unfold smoothOne
  induction js generalizing p with
  | nil => simp [Nat.mod_eq_of_lt hp]
  | cons j rest ih =>
    simp only [List.foldl_cons, List.length_cons]
    have hlt : (bumpJ (evs j) p).PropWinSize < uintMod := by
      rw [bumpJ_PropWinSize]
      exact Nat.mod_lt _ (by decide)
    rw [ih _ hlt, bumpJ_PropWinSize]
    unfold uintMod
    omega

theorem smoothOne_Proportions (evs : Nat → EventType) (js : List Nat) (p : Packet)
    (k : EventType) (hp : p.Proportions k < uintMod) :
    (smoothOne evs js p).Proportions k =
      if k ∈ etValues then
        (p.Proportions k + js.countP (fun j => decide (evs j &&& k ≠ 0))) % uintMod
      else p.Proportions k := by
  unfold smoothOne
  induction js generalizing p with
  | nil =>
    simp only [List.foldl_nil, List.countP_nil, Nat.add_zero, Nat.mod_eq_of_lt hp, ite_self]
  | cons j rest ih =>
    simp only [List.foldl_cons]
    have hstep := bumpJ_Proportions (evs j) p k
    have hlt : (bumpJ (evs j) p).Proportions k < uintMod := by
      rw [hstep]
      split
      · exact Nat.mod_lt _ (by decide)
      · exact hp
    rw [ih _ hlt, hstep]
    by_cases hk : k ∈ etValues
    · by_cases hbit : evs j &&& k ≠ 0
      · rw [List.countP_cons_of_pos _ _ (by simpa using hbit)]
        simp only [hk, hbit, and_self, if_true, ne_eq, not_false_eq_true]
        unfold uintMod
        omega
      · rw [List.countP_cons_of_neg _ _ (by simpa using hbit)]
        simp only [hk, hbit, and_false, if_false, if_true]
    · simp only [hk, false_and, if_false]

/-! ## Window bounds -/

theorem wrapInt_eq_self {x : Int} (h1 : -intHalf ≤ x) (h2 : x < intHalf) : wrapInt x = x := by
  unfold wrapInt
  unfold intHalf at *
  omega

theorem windowLo_eq {i : Nat} {r : Int} (hr : 0 ≤ r) (hov : (i : Int) + r < intHalf) :
    windowLo i r = max ((i : Int) - r) 0 := by
  unfold windowLo
  have hw : wrapInt ((i : Int) - r) = (i : Int) - r :=
    wrapInt_eq_self (by unfold intHalf at *; omega) (by unfold intHalf at *; omega)
  simp only [hw]
  split <;> omega

theorem windowHi_eq {i : Nat} {r : Int} (n : Nat) (hr : 0 ≤ r)
    (hov : (i : Int) + r < intHalf) :
    windowHi i r n = min ((i : Int) + r) n := by
  unfold windowHi
  have hw : wrapInt ((i : Int) + r) = (i : Int) + r :=
    wrapInt_eq_self (by unfold intHalf at *; omega) hov
  simp only [hw]
  split <;> omega

theorem fresh_freshPacket (ts len : Int) (ev : EventType) : (freshPacket ts len ev).Fresh :=
  ⟨rfl, rfl⟩

theorem fresh_seqCENone : ∀ p ∈ seqCENone, p.Fresh := by
  intro p hp
  simp only [seqCENone, List.mem_cons, List.mem_singleton, List.not_mem_nil, or_false] at hp
  rcases hp with rfl | rfl <;> exact fresh_freshPacket _ _ _

theorem fresh_seqFive : ∀ p ∈ seqFive, p.Fresh := by
  intro p hp
  simp only [seqFive, List.mem_cons, List.mem_singleton, List.not_mem_nil, or_false] at hp
  rcases hp with rfl | rfl | rfl | rfl | rfl <;> exact fresh_freshPacket _ _ _

theorem allEventTypes_eq : allEventTypes = etValues := by decide

/-- Counting over the loop indices is counting over all indices in the range. -/
theorem countP_range'_eq_occurrences (ps : List Packet) (lo len : Nat) (et : EventType)
    (hle : lo + len ≤ ps.length) :
    (List.range' lo len).countP (fun j => decide (evAt ps j &&& et ≠ 0)) =
      occurrences ps (lo : Int) ((lo : Int) + len) et := by
  unfold occurrences
  rw [← List.countP_eq_length_filter, List.range_eq_range']
  have hsplit : List.range' 0 ps.length =
      (List.range' 0 lo ++ List.range' lo len) ++ List.range' (lo + len) (ps.length - (lo + len)) := by
    have h1 := List.range'_append_1 0 lo len
    have h2 := List.range'_append_1 0 (len + lo) (ps.length - (len + lo))
    simp only [Nat.zero_add] at h1 h2
    rw [h1, Nat.add_comm lo len, h2]
    congr 1
    omega
  rw [hsplit, List.countP_append, List.countP_append]
  have hz1 : (List.range' 0 lo).countP (fun (j : Nat) => decide ((lo : Int) ≤ (j : Int)) &&
      decide ((j : Int) < (lo : Int) + len) && carries ps j et) = 0 := by
    rw [List.countP_eq_zero]
    intro a ha
    rw [List.mem_range'_1] at ha
    have : ¬ ((lo : Int) ≤ (a : Int)) := by omega
    simp [this]
  have hz2 : (List.range' (lo + len) (ps.length - (lo + len))).countP
      (fun (j : Nat) => decide ((lo : Int) ≤ (j : Int)) &&
      decide ((j : Int) < (lo : Int) + len) && carries ps j et) = 0 := by
    rw [List.countP_eq_zero]
    intro a ha
    rw [List.mem_range'_1] at ha
    have : ¬ ((a : Int) < (lo : Int) + len) := by omega
    simp [this]
  rw [hz1, hz2, Nat.zero_add, Nat.add_zero]
  apply List.countP_congr
  intro a ha
  rw [List.mem_range'_1] at ha
  have h1 : (lo : Int) ≤ (a : Int) := by omega
  have h2 : (a : Int) < (lo : Int) + len := by omega
  have hc : carries ps a et = decide (evAt ps a &&& et ≠ 0) := by
    unfold carries evAt
    rw [List.getElem?_eq_getElem (by omega : a < ps.length)]
  simp [h1, h2, hc]

theorem processPackets_at (ps : List Packet) (r : Int) (i : Nat) (hi : i < ps.length) :
    (processPackets ps r)[i]? =
      some (smoothOne (evAt ps) (windowIndices i r ps.length) ps[i]) := by
  rw [processPackets_getElem?, List.getElem?_eq_getElem hi]
  rfl

theorem length_windowIndices (i : Nat) (r : Int) (n : Nat) :
    ((windowIndices i r n).length : Int) = max (windowHi i r n - windowLo i r) 0 := by
  unfold windowIndices
  rw [List.length_range']
  omega

/-- Recorded window size of a fresh packet: the number of loop indices. -/
theorem fresh_PropWinSize (ps : List Packet) (r : Int) (i : Nat) (hi : i < ps.length)
    (hfresh : ps[i].Fresh) (hn : ps.length < uintMod) :
    (smoothOne (evAt ps) (windowIndices i r ps.length) ps[i]).PropWinSize =
      (windowIndices i r ps.length).length := by
  rw [smoothOne_PropWinSize _ _ _ (by rw [hfresh.2]; decide), hfresh.2, Nat.zero_add]
  exact Nat.mod_eq_of_lt (Nat.lt_of_le_of_lt (length_windowIndices_le i r ps.length) hn)

/-- Counts of a fresh packet: the number of loop indices carrying the type. -/
theorem fresh_Proportions (ps : List Packet) (r : Int) (i : Nat) (hi : i < ps.length)
    (hfresh : ps[i].Fresh) (et : EventType) (het : et ∈ etValues) :
    (smoothOne (evAt ps) (windowIndices i r ps.length) ps[i]).Proportions et =
      ((windowIndices i r ps.length).countP (fun j => decide (evAt ps j &&& et ≠ 0)))
        % uintMod := by
  have h0 : ps[i].Proportions et = 0 := by rw [hfresh.1]; rfl
  rw [smoothOne_Proportions _ _ _ _ (by rw [h0]; decide), if_pos het, h0, Nat.zero_add]

theorem fresh_Proportions_other (ps : List Packet) (r : Int) (i : Nat) (hi : i < ps.length)
    (hfresh : ps[i].Fresh) (et : EventType) (het : et ∉ etValues) :
    (smoothOne (evAt ps) (windowIndices i r ps.length) ps[i]).Proportions et = 0 := by
  have h0 : ps[i].Proportions et = 0 := by rw [hfresh.1]; rfl
  rw [smoothOne_Proportions _ _ _ _ (by rw [h0]; decide), if_neg het, h0]

/-- Window of packet `i` when `i + r` does not overflow: the loop runs over
`max(i-r,0), ..., min(i+r,n) - 1`. -/
theorem windowIndices_eq {i : Nat} (n : Nat) {r : Int} (hr : 0 ≤ r)
    (hov : (i : Int) + r < intHalf) :
    windowIndices i r n =
      List.range' (max ((i : Int) - r) 0).toNat
        (min ((i : Int) + r) n - max ((i : Int) - r) 0).toNat := by
  unfold windowIndices
  rw [windowLo_eq hr hov, windowHi_eq n hr hov]

/-- Window size recorded on a fresh packet when `i + r` does not overflow. -/
theorem fresh_window_size (ps : List Packet) (r : Int) (i : Nat) (hi : i < ps.length)
    (hfresh : ps[i].Fresh) (hr : 0 ≤ r) (hov : (i : Int) + r < intHalf) :
    (smoothOne (evAt ps) (windowIndices i r ps.length) ps[i]).PropWinSize =
      (min ((i : Int) + r) ps.length - max ((i : Int) - r) 0).toNat := by
  rw [smoothOne_PropWinSize _ _ _ (by rw [hfresh.2]; decide), hfresh.2, Nat.zero_add,
    windowIndices_eq _ hr hov, List.length_range']
  apply Nat.mod_eq_of_lt
  unfold uintMod
  unfold intHalf at hov
  omega

/-- Count recorded on a fresh packet when `i + r` does not overflow. -/
theorem fresh_window_count (ps : List Packet) (r : Int) (i : Nat) (hi : i < ps.length)
    (hfresh : ps[i].Fresh) (hr : 0 ≤ r) (hov : (i : Int) + r < intHalf)
    (et : EventType) (het : et ∈ etValues) :
    (smoothOne (evAt ps) (windowIndices i r ps.length) ps[i]).Proportions et =
      occurrences ps (max ((i : Int) - r) 0) (min ((i : Int) + r) ps.length) et := by
  rw [fresh_Proportions ps r i hi hfresh et het, windowIndices_eq _ hr hov]
  have hcnt := List.countP_le_length (fun j => decide (evAt ps j &&& et ≠ 0))
    (l := List.range' (max ((i : Int) - r) 0).toNat
      (min ((i : Int) + r) ps.length - max ((i : Int) - r) 0).toNat)
  rw [List.length_range'] at hcnt
  have hmod : ∀ c : Nat,
      c ≤ (min ((i : Int) + r) ps.length - max ((i : Int) - r) 0).toNat → c % uintMod = c := by
    intro c hc
    apply Nat.mod_eq_of_lt
    unfold uintMod
    unfold intHalf at hov
    omega
  rw [hmod _ hcnt]
  have hle : (max ((i : Int) - r) 0).toNat +
      (min ((i : Int) + r) ps.length - max ((i : Int) - r) 0).toNat ≤ ps.length := by
    omega
  rw [countP_range'_eq_occurrences ps _ _ et hle]
  have hlo : (((max ((i : Int) - r) 0).toNat : Nat) : Int) = max ((i : Int) - r) 0 := by
    omega
  have hhi : (((max ((i : Int) - r) 0).toNat : Nat) : Int) +
      (((min ((i : Int) + r) ps.length - max ((i : Int) - r) 0).toNat : Nat) : Int) =
      min ((i : Int) + r) ps.length := by
    omega
  rw [hhi, hlo]

theorem fresh_seqOneCE : ∀ p ∈ seqOneCE, p.Fresh := by
  intro p hp
  simp only [seqOneCE, List.mem_singleton] at hp
  rw [hp]
  exact fresh_freshPacket _ _ _

/-- With radius 0 the loop bounds coincide and the `j` loop never runs. -/
theorem windowIndices_zero (i n : Nat) : windowIndices i 0 n = [] := by
  unfold windowIndices
  have h : (windowHi i 0 n - windowLo i 0).toNat = 0 := by
    unfold windowHi windowLo
    simp only [Int.sub_zero, Int.add_zero]
    split <;> split <;> omega
  rw [h]
  rfl

/-! ## Claims on the window smoother -/

/-- C1 (as amended): for fresh packets, a radius `r ≥ 0` and an index `i < n`
for which `i + r` fits in a Go `int`, the recorded window size of packet `i`
after `processPackets` is `min(i+r, n) - max(i-r, 0)`. -/
theorem processPackets_window_size (ps : List Packet) (r : Int) (i : Nat)
    (hfresh : ∀ p ∈ ps, p.Fresh) (hr : 0 ≤ r) (hi : i < ps.length)
    (hov : (i : Int) + r < intHalf) :
    ∃ p, (processPackets ps r)[i]? = some p ∧
      (p.PropWinSize : Int) = min ((i : Int) + r) ps.length - max ((i : Int) - r) 0 := by
  refine ⟨_, processPackets_at ps r i hi, ?_⟩
  rw [fresh_window_size ps r i hi (hfresh _ (List.getElem_mem hi)) hr hov]
  omega

/-- C1, the scenario of the specification: `n = 5`, `r = 2`, `i = 0` records
window size 2. -/
theorem processPackets_window_size_witness :
    (∀ p ∈ seqFive, p.Fresh) ∧ (0 : Int) ≤ 2 ∧ 0 < seqFive.length ∧
      (((0 : Nat) : Int) + 2 < intHalf) ∧
      ∃ p, (processPackets seqFive 2)[0]? = some p ∧ (p.PropWinSize : Int) = 2 :=
  ⟨fresh_seqFive, by decide, by decide, by decide,
    processPackets_window_size seqFive 2 0 fresh_seqFive (by decide) (by decide) (by decide)⟩

/-- C1 as stated fails for a radius near the largest `int`: with two fresh
packets and `r = maxInt`, `i + r` wraps around for `i = 1`, the loop does not
run and the recorded window size is 0, while `min(i+r, n) - max(i-r, 0) = 2`. -/
theorem processPackets_window_size_overflow :
    (∀ p ∈ seqCENone, p.Fresh) ∧ 0 ≤ maxInt ∧ maxInt < intHalf ∧ 1 < seqCENone.length ∧
      ¬ ∃ p, (processPackets seqCENone maxInt)[1]? = some p ∧
        (p.PropWinSize : Int) =
          min (((1 : Nat) : Int) + maxInt) seqCENone.length
            - max (((1 : Nat) : Int) - maxInt) 0 := by
  refine ⟨fresh_seqCENone, by decide, by decide, by decide, ?_⟩
  rintro ⟨p, hp, hw⟩
  have h0 : (processPackets seqCENone maxInt)[1]?.map (fun q => q.PropWinSize) = some 0 := by
    decide
  rw [hp] at h0
  have hz : p.PropWinSize = 0 := by simpa using h0
  have hf : min (((1 : Nat) : Int) + maxInt) seqCENone.length
      - max (((1 : Nat) : Int) - maxInt) 0 = 2 := by decide
  rw [hf, hz] at hw
  exact absurd hw (by decide)

/-- C2 (as amended): for fresh packets, a radius `r ≥ 0`, an index `i < n`
for which `i + r` fits in a Go `int` and each of the six event types, the
count stored on packet `i` is the number of indices `j` with
`max(i-r,0) ≤ j < min(i+r,n)` whose mask includes the type, and the stored
proportion is that count divided by the window size. -/
theorem processPackets_counts (ps : List Packet) (r : Int) (i : Nat) (et : EventType)
    (hfresh : ∀ p ∈ ps, p.Fresh) (hr : 0 ≤ r) (hi : i < ps.length)
    (hov : (i : Int) + r < intHalf) (het : et ∈ allEventTypes) :
    ∃ p, (processPackets ps r)[i]? = some p ∧
      p.Proportions et =
        occurrences ps (max ((i : Int) - r) 0) (min ((i : Int) + r) ps.length) et ∧
      p.prop et =
        (occurrences ps (max ((i : Int) - r) 0) (min ((i : Int) + r) ps.length) et : ℚ) /
          ((min ((i : Int) + r) ps.length - max ((i : Int) - r) 0).toNat : ℚ) := by
  have hf : ps[i].Fresh := hfresh _ (List.getElem_mem hi)
  rw [allEventTypes_eq] at het
  have hc := fresh_window_count ps r i hi hf hr hov et het
  have hw := fresh_window_size ps r i hi hf hr hov
  refine ⟨_, processPackets_at ps r i hi, hc, ?_⟩
  unfold Packet.prop
  rw [hc, hw]

/-- C2 at `[CE, none, CE, ECE, CE]`, `r = 2`, `i = 2`, type CE. -/
theorem processPackets_counts_witness :
    (∀ p ∈ seqFive, p.Fresh) ∧ EventTypeCE ∈ allEventTypes ∧
    ∃ p, (processPackets seqFive 2)[2]? = some p ∧
      p.Proportions EventTypeCE =
        occurrences seqFive (max (((2 : Nat) : Int) - 2) 0)
          (min (((2 : Nat) : Int) + 2) seqFive.length) EventTypeCE ∧
      p.prop EventTypeCE =
        (occurrences seqFive (max (((2 : Nat) : Int) - 2) 0)
          (min (((2 : Nat) : Int) + 2) seqFive.length) EventTypeCE : ℚ) /
          ((min (((2 : Nat) : Int) + 2) seqFive.length
            - max (((2 : Nat) : Int) - 2) 0).toNat : ℚ) :=
  ⟨fresh_seqFive, by decide,
    processPackets_counts seqFive 2 2 EventTypeCE fresh_seqFive (by decide) (by decide)
      (by decide) (by decide)⟩

/-- C2 as stated fails for a radius near the largest `int`: with masks
`[CE, none]` and `r = maxInt`, packet 1 stores CE count 0, while one index of
`[max(1-r,0), min(1+r,2)) = [0,2)` carries CE. -/
theorem processPackets_counts_overflow :
    (∀ p ∈ seqCENone, p.Fresh) ∧ 0 ≤ maxInt ∧ maxInt < intHalf ∧ 1 < seqCENone.length ∧
      ¬ ∃ p, (processPackets seqCENone maxInt)[1]? = some p ∧
        p.Proportions EventTypeCE =
          occurrences seqCENone (max (((1 : Nat) : Int) - maxInt) 0)
            (min (((1 : Nat) : Int) + maxInt) seqCENone.length) EventTypeCE := by
  refine ⟨fresh_seqCENone, by decide, by decide, by decide, ?_⟩
  rintro ⟨p, hp, hc⟩
  have h0 : (processPackets seqCENone maxInt)[1]?.map (fun q => q.Proportions EventTypeCE)
      = some 0 := by decide
  rw [hp] at h0
  have hz : p.Proportions EventTypeCE = 0 := by simpa using h0
  have hf : occurrences seqCENone (max (((1 : Nat) : Int) - maxInt) 0)
      (min (((1 : Nat) : Int) + maxInt) seqCENone.length) EventTypeCE = 1 := by decide
  rw [hf, hz] at hc
  exact absurd hc (by decide)

/-- C3 (as amended): on `[CE, none, CE, ECE, CE]` with radius 1 the window of
packet 2 covers indices 1 and 2 only; the packet records window size 2, CE
count 1 and ECE count 0, i.e. proportions 1/2 and 0. -/
theorem processPackets_seqFive_radius_one :
    windowIndices 2 1 seqFive.length = [1, 2] ∧
    ∃ p, (processPackets seqFive 1)[2]? = some p ∧
      p.PropWinSize = 2 ∧ p.Proportions EventTypeCE = 1 ∧ p.Proportions EventTypeECE = 0 ∧
      p.prop EventTypeCE = 1 / 2 ∧ p.prop EventTypeECE = 0 := by
  refine ⟨by decide, _, processPackets_at seqFive 1 2 (by decide), ?_⟩
  have hw : (smoothOne (evAt seqFive) (windowIndices 2 1 seqFive.length)
      (seqFive.get ⟨2, by decide⟩)).PropWinSize = 2 := by decide
  have hce : (smoothOne (evAt seqFive) (windowIndices 2 1 seqFive.length)
      (seqFive.get ⟨2, by decide⟩)).Proportions EventTypeCE = 1 := by decide
  have hece : (smoothOne (evAt seqFive) (windowIndices 2 1 seqFive.length)
      (seqFive.get ⟨2, by decide⟩)).Proportions EventTypeECE = 0 := by decide
  refine ⟨hw, hce, hece, ?_, ?_⟩
  · unfold Packet.prop
    rw [show seqFive[2] = seqFive.get ⟨2, by decide⟩ from rfl, hw, hce]
    norm_num
  · unfold Packet.prop
    rw [show seqFive[2] = seqFive.get ⟨2, by decide⟩ from rfl, hw, hece]
    norm_num

/-- C3 as stated fails: packet 2 does not record window size 3, CE count 2
and ECE count 1. -/
theorem processPackets_seqFive_not_three :
    ¬ ∃ p, (processPackets seqFive 1)[2]? = some p ∧
      p.PropWinSize = 3 ∧ p.Proportions EventTypeCE = 2 ∧ p.Proportions EventTypeECE = 1 := by
  rintro ⟨p, hp, hw, _, _⟩
  have h0 : (processPackets seqFive 1)[2]?.map (fun q => q.PropWinSize) = some 2 := by decide
  rw [hp] at h0
  have hz : p.PropWinSize = 2 := by simpa using h0
  rw [hz] at hw
  exact absurd hw (by decide)

/-- C4 (as amended): with radius 0 the window `[i, i)` of every packet is
empty: for fresh packets every index records window size 0 and count 0 for
every event type, whatever fired on the packet itself. -/
theorem processPackets_radius_zero (ps : List Packet) (i : Nat)
    (hfresh : ∀ p ∈ ps, p.Fresh) (hi : i < ps.length) :
    windowIndices i 0 ps.length = [] ∧
    ∃ p, (processPackets ps 0)[i]? = some p ∧ p.PropWinSize = 0 ∧
      ∀ et, p.Proportions et = 0 := by
  have hf : ps[i].Fresh := hfresh _ (List.getElem_mem hi)
  refine ⟨windowIndices_zero i ps.length, _, processPackets_at ps 0 i hi, ?_, ?_⟩
  · rw [windowIndices_zero]
    exact hf.2
  · intro et
    rw [windowIndices_zero]
    show ps[i].Proportions et = 0
    rw [hf.1]
    rfl

/-- C4 at the one-packet sequence `[CE]`. -/
theorem processPackets_radius_zero_witness :
    (∀ p ∈ seqOneCE, p.Fresh) ∧ 0 < seqOneCE.length ∧
    windowIndices 0 0 seqOneCE.length = [] ∧
    ∃ p, (processPackets seqOneCE 0)[0]? = some p ∧ p.PropWinSize = 0 ∧
      ∀ et, p.Proportions et = 0 :=
  ⟨fresh_seqOneCE, by decide,
    processPackets_radius_zero seqOneCE 0 fresh_seqOneCE (by decide)⟩

/-- C4 as stated fails: on the one-packet sequence `[CE]` with radius 0 the
packet does not record window size 1 with CE count 1. -/
theorem processPackets_radius_zero_not_self :
    (∀ p ∈ seqOneCE, p.Fresh) ∧ seqOneCE ≠ [] ∧
    ¬ ∃ p, (processPackets seqOneCE 0)[0]? = some p ∧ p.PropWinSize = 1 ∧
      p.Proportions EventTypeCE = (if p.EventType &&& EventTypeCE ≠ 0 then 1 else 0) := by
  refine ⟨fresh_seqOneCE, List.cons_ne_nil _ _, ?_⟩
  rintro ⟨p, hp, hw, _⟩
  have h0 : (processPackets seqOneCE 0)[0]?.map (fun q => q.PropWinSize) = some 0 := by decide
  rw [hp] at h0
  have hz : p.PropWinSize = 0 := by simpa using h0
  rw [hz] at hw
  exact absurd hw (by decide)

/-- C5 (as amended): for fresh packets, a radius `r ≥ 1` and an index `i < n`
for which `i + r` fits in a Go `int`, the recorded window size of packet `i`
is strictly positive, so the denominator of its proportions is not zero. -/
theorem processPackets_window_pos (ps : List Packet) (r : Int) (i : Nat)
    (hfresh : ∀ p ∈ ps, p.Fresh) (hr : 1 ≤ r) (hi : i < ps.length)
    (hov : (i : Int) + r < intHalf) :
    ∃ p, (processPackets ps r)[i]? = some p ∧ 0 < p.PropWinSize := by
  refine ⟨_, processPackets_at ps r i hi, ?_⟩
  rw [fresh_window_size ps r i hi (hfresh _ (List.getElem_mem hi)) (by omega) hov]
  omega

/-- C5 at `[CE, none, CE, ECE, CE]`, `r = 1`, `i = 4`. -/
theorem processPackets_window_pos_witness :
    (∀ p ∈ seqFive, p.Fresh) ∧ (1 : Int) ≤ 1 ∧ 4 < seqFive.length ∧
    (((4 : Nat) : Int) + 1 < intHalf) ∧
    ∃ p, (processPackets seqFive 1)[4]? = some p ∧ 0 < p.PropWinSize :=
  ⟨fresh_seqFive, by decide, by decide, by decide,
    processPackets_window_pos seqFive 1 4 fresh_seqFive (by decide) (by decide) (by decide)⟩

/-- C5 as stated fails at radius 0: the non-empty sequence `[CE]` is left with
a packet whose recorded window size is 0. -/
theorem processPackets_window_zero_at_radius_zero :
    (∀ p ∈ seqOneCE, p.Fresh) ∧ seqOneCE ≠ [] ∧ (0 : Int) ≤ 0 ∧
    ¬ ∀ p ∈ processPackets seqOneCE 0, 0 < p.PropWinSize := by
  refine ⟨fresh_seqOneCE, List.cons_ne_nil _ _, by decide, ?_⟩
  intro h
  have h0 : (processPackets seqOneCE 0)[0]?.map (fun q => q.PropWinSize) = some 0 := by decide
  cases hp : (processPackets seqOneCE 0)[0]? with
  | none => rw [hp] at h0; cases h0
  | some p =>
    rw [hp] at h0
    have hz : p.PropWinSize = 0 := by simpa using h0
    have hpos := h p (List.getElem?_mem hp)
    omega

/-- C6 (as amended): for fresh packets (a slice, so of length below `2^63`)
and every radius, a second run of `processPackets` with the same radius leaves
every packet with the same proportion for every event type, as an exact
rational: the second run doubles both the count and the window size. -/
theorem processPackets_twice_prop (ps : List Packet) (r : Int) (i : Nat)
    (hfresh : ∀ p ∈ ps, p.Fresh) (hn : (ps.length : Int) < intHalf) (hi : i < ps.length) :
    ∃ p1 p2, (processPackets ps r)[i]? = some p1 ∧
      (processPackets (processPackets ps r) r)[i]? = some p2 ∧
      p2.PropWinSize = 2 * p1.PropWinSize ∧
      ∀ et, p2.Proportions et = 2 * p1.Proportions et ∧ p2.prop et = p1.prop et := by
  have hf : ps[i].Fresh := hfresh _ (List.getElem_mem hi)
  have h1 := processPackets_at ps r i hi
  have h2 : (processPackets (processPackets ps r) r)[i]? =
      some (smoothOne (evAt ps) (windowIndices i r ps.length)
        (smoothOne (evAt ps) (windowIndices i r ps.length) ps[i])) := by
    rw [processPackets_getElem?, h1, evAt_processPackets, length_processPackets]
    rfl
  have hL := length_windowIndices_le i r ps.length
  have hsmall : ∀ c : Nat, c ≤ (windowIndices i r ps.length).length →
      c % uintMod = c ∧ (c + c) % uintMod = 2 * c := by
    intro c hc
    unfold uintMod
    unfold intHalf at hn
    omega
  have hw1 : (smoothOne (evAt ps) (windowIndices i r ps.length) ps[i]).PropWinSize =
      (windowIndices i r ps.length).length := by
    rw [smoothOne_PropWinSize _ _ _ (by rw [hf.2]; decide), hf.2, Nat.zero_add]
    exact (hsmall _ (Nat.le_refl _)).1
  have hw2 : (smoothOne (evAt ps) (windowIndices i r ps.length)
      (smoothOne (evAt ps) (windowIndices i r ps.length) ps[i])).PropWinSize =
      2 * (windowIndices i r ps.length).length := by
    rw [smoothOne_PropWinSize _ _ _ (by rw [hw1]; unfold uintMod; unfold intHalf at hn; omega),
      hw1]
    exact (hsmall _ (Nat.le_refl _)).2
  refine ⟨_, _, h1, h2, by rw [hw2, hw1], ?_⟩
  intro et
  have h0 : ps[i].Proportions et = 0 := by rw [hf.1]; rfl
  have hcnt := List.countP_le_length (fun j => decide (evAt ps j &&& et ≠ 0))
    (l := windowIndices i r ps.length)
  have hc1 := smoothOne_Proportions (evAt ps) (windowIndices i r ps.length) ps[i] et
    (by rw [h0]; decide)
  have hdouble : (smoothOne (evAt ps) (windowIndices i r ps.length)
      (smoothOne (evAt ps) (windowIndices i r ps.length) ps[i])).Proportions et =
      2 * (smoothOne (evAt ps) (windowIndices i r ps.length) ps[i]).Proportions et := by
    by_cases het : et ∈ etValues
    · rw [if_pos het, h0, Nat.zero_add, (hsmall _ hcnt).1] at hc1
      rw [smoothOne_Proportions _ _ _ _
        (by rw [hc1]; unfold uintMod; unfold intHalf at hn; omega), if_pos het, hc1]
      exact (hsmall _ hcnt).2
    · rw [if_neg het, h0] at hc1
      rw [smoothOne_Proportions _ _ _ _ (by rw [hc1]; decide), if_neg het, hc1]
  refine ⟨hdouble, ?_⟩
  unfold Packet.prop
  rw [hdouble, hw2, hw1]
  push_cast
  exact mul_div_mul_left _ _ (by norm_num : (2 : ℚ) ≠ 0)

/-- C6 at `[CE, none, CE, ECE, CE]`, `r = 1`, `i = 2`. -/
theorem processPackets_twice_prop_witness :
    (∀ p ∈ seqFive, p.Fresh) ∧ ((seqFive.length : Int) < intHalf) ∧ 2 < seqFive.length ∧
    ∃ p1 p2, (processPackets seqFive 1)[2]? = some p1 ∧
      (processPackets (processPackets seqFive 1) 1)[2]? = some p2 ∧
      p2.PropWinSize = 2 * p1.PropWinSize ∧
      ∀ et, p2.Proportions et = 2 * p1.Proportions et ∧ p2.prop et = p1.prop et :=
  ⟨fresh_seqFive, by decide, by decide,
    processPackets_twice_prop seqFive 1 2 fresh_seqFive (by decide) (by decide)⟩

/-- C6 as stated, for every packet sequence, fails on a packet that already
holds window data (CE count 1, window size 1): a run with radius 1 leaves CE
proportion 1/2, the next run 1/3. -/
theorem processPackets_twice_prop_stale :
    ∃ p1 p2, (processPackets seqStale 1)[0]? = some p1 ∧
      (processPackets (processPackets seqStale 1) 1)[0]? = some p2 ∧
      p1.prop EventTypeCE = 1 / 2 ∧ p2.prop EventTypeCE = 1 / 3 ∧
      p2.prop EventTypeCE ≠ p1.prop EventTypeCE := by
  have hlen : 0 < seqStale.length := by decide
  have h1 := processPackets_at seqStale 1 0 hlen
  have h2 : (processPackets (processPackets seqStale 1) 1)[0]? =
      some (smoothOne (evAt seqStale) (windowIndices 0 1 seqStale.length)
        (smoothOne (evAt seqStale) (windowIndices 0 1 seqStale.length) seqStale[0])) := by
    rw [processPackets_getElem?, h1, evAt_processPackets, length_processPackets]
    rfl
  have hw1 : (smoothOne (evAt seqStale) (windowIndices 0 1 seqStale.length)
      (seqStale.get ⟨0, by decide⟩)).PropWinSize = 2 := by decide
  have hc1 : (smoothOne (evAt seqStale) (windowIndices 0 1 seqStale.length)
      (seqStale.get ⟨0, by decide⟩)).Proportions EventTypeCE = 1 := by decide
  have hw2 : (smoothOne (evAt seqStale) (windowIndices 0 1 seqStale.length)
      (smoothOne (evAt seqStale) (windowIndices 0 1 seqStale.length)
        (seqStale.get ⟨0, by decide⟩))).PropWinSize = 3 := by decide
  have hc2 : (smoothOne (evAt seqStale) (windowIndices 0 1 seqStale.length)
      (smoothOne (evAt seqStale) (windowIndices 0 1 seqStale.length)
        (seqStale.get ⟨0, by decide⟩))).Proportions EventTypeCE = 1 := by decide
  have e1 : (smoothOne (evAt seqStale) (windowIndices 0 1 seqStale.length)
      (seqStale.get ⟨0, by decide⟩)).prop EventTypeCE = 1 / 2 := by
    unfold Packet.prop
    rw [hw1, hc1]
    norm_num
  have e2 : (smoothOne (evAt seqStale) (windowIndices 0 1 seqStale.length)
      (smoothOne (evAt seqStale) (windowIndices 0 1 seqStale.length)
        (seqStale.get ⟨0, by decide⟩))).prop EventTypeCE = 1 / 3 := by
    unfold Packet.prop
    rw [hw2, hc2]
    norm_num
  refine ⟨_, _, h1, h2, e1, e2, ?_⟩
  have e1' : (smoothOne (evAt seqStale) (windowIndices 0 1 seqStale.length)
      seqStale[0]).prop EventTypeCE = 1 / 2 := e1
  have e2' : (smoothOne (evAt seqStale) (windowIndices 0 1 seqStale.length)
      (smoothOne (evAt seqStale) (windowIndices 0 1 seqStale.length)
        seqStale[0])).prop EventTypeCE = 1 / 3 := e2
  rw [e1', e2']
  norm_num

/-! ## Lemmas on the flow table -/

theorem Flow.Reverse_Reverse (f : Flow) : f.Reverse.Reverse = f := by
  cases f
  rfl

theorem tableGet_tablePut (d : FlowTable) (k k' : Flow) (v : FlowData) :
    tableGet (tablePut d k v) k' = if k = k' then some v else tableGet d k' := by
  induction d with
  | nil => simp [tablePut, tableGet]
  | cons kv rest ih =>
    obtain ⟨k0, v0⟩ := kv
    simp only [tablePut]
    by_cases h0 : k0 = k
    · subst h0
      simp only [if_true, tableGet]
      split <;> rfl
    · simp only [h0, if_false, tableGet, ih]
      by_cases h1 : k0 = k'
      · have h2 : ¬ k = k' := fun h => h0 (h1.trans h.symm)
        simp [h1, h2]
      · simp [h1]

theorem tableGet_isSome_iff_mem (d : FlowTable) (k : Flow) :
    (tableGet d k).isSome = true ↔ k ∈ d.map Prod.fst := by
  induction d with
  | nil => simp [tableGet]
  | cons kv rest ih =>
    obtain ⟨k0, v0⟩ := kv
    simp only [tableGet, List.map_cons, List.mem_cons]
    by_cases h0 : k0 = k
    · simp [h0]
    · have h1 : ¬ k = k0 := fun h => h0 h.symm
      simp [h0, h1, ih]

theorem keys_tablePut (d : FlowTable) (k : Flow) (v : FlowData) :
    (tablePut d k v).map Prod.fst =
      if k ∈ d.map Prod.fst then d.map Prod.fst else d.map Prod.fst ++ [k] := by
  induction d with
  | nil => simp [tablePut]
  | cons kv rest ih =>
    obtain ⟨k0, v0⟩ := kv
    simp only [tablePut]
    by_cases h0 : k0 = k
    · subst h0
      simp
    · have h1 : ¬ k = k0 := fun h => h0 h.symm
      simp only [h0, if_false, List.map_cons, ih, List.mem_cons, h1, false_or]
      split <;> simp

theorem nodup_keys_tablePut (d : FlowTable) (k : Flow) (v : FlowData)
    (h : (d.map Prod.fst).Nodup) : ((tablePut d k v).map Prod.fst).Nodup := by
  rw [keys_tablePut]
  split
  · exact h
  · rename_i hk
    rw [List.nodup_append]
    refine ⟨h, List.nodup_singleton k, ?_⟩
    intro a ha hb
    simp only [List.mem_singleton] at hb
    rw [hb] at ha
    exact hk ha

theorem resolve_eq_some {d : FlowTable} {t k : Flow} {up : Bool}
    (h : resolve d t = some (k, up)) :
    (k = t ∧ up = true ∧ (tableGet d t).isSome = true) ∨
    (k = t.Reverse ∧ up = false ∧ tableGet d t = none ∧
      (tableGet d t.Reverse).isSome = true) := by
  unfold resolve at h
  cases h1 : tableGet d t with
  | some fd =>
    rw [h1] at h
    simp only [Option.some.injEq, Prod.mk.injEq] at h
    exact Or.inl ⟨h.1.symm, h.2.symm, rfl⟩
  | none =>
    rw [h1] at h
    cases h2 : tableGet d t.Reverse with
    | some fd =>
      rw [h2] at h
      simp only [Option.some.injEq, Prod.mk.injEq] at h
      exact Or.inr ⟨h.1.symm, h.2.symm, rfl, rfl⟩
    | none =>
      rw [h2] at h
      cases h

theorem resolve_eq_none {d : FlowTable} {t : Flow} (h : resolve d t = none) :
    tableGet d t = none ∧ tableGet d t.Reverse = none := by
  unfold resolve at h
  cases h1 : tableGet d t with
  | some fd => rw [h1] at h; cases h
  | none =>
    rw [h1] at h
    cases h2 : tableGet d t.Reverse with
    | some fd => rw [h2] at h; cases h
    | none => exact ⟨rfl, rfl⟩

/-- A packet whose identity resolves to a record is added to that record, in
the resolved direction. -/
theorem parseStep_of_resolve_some {d : FlowTable} {p : GoPacket} {tcp : TCP} {k : Flow}
    {up : Bool} (hp : p.tcp = some tcp) (h : resolve d tcp.TransportFlow = some (k, up)) :
    ∃ fd, tableGet d k = some fd ∧
      parseStep d p = tablePut d k (fd.AddPacket p tcp up false) := by
  unfold parseStep
  rw [hp]
  simp only
  rcases resolve_eq_some h with ⟨hk, hup, hsome⟩ | ⟨hk, hup, hnone, hsome⟩
  · subst hk
    subst hup
    cases h1 : tableGet d tcp.TransportFlow with
    | none => rw [h1] at hsome; cases hsome
    | some fd => exact ⟨fd, rfl, rfl⟩
  · subst hk
    subst hup
    rw [hnone]
    cases h1 : tableGet d tcp.TransportFlow.Reverse with
    | none => rw [h1] at hsome; cases hsome
    | some fd => exact ⟨fd, rfl, rfl⟩

/-- A packet whose identity resolves to no record opens a record keyed by its
literal identity and is added to it upstream. -/
theorem parseStep_of_resolve_none {d : FlowTable} {p : GoPacket} {tcp : TCP}
    (hp : p.tcp = some tcp) (h : resolve d tcp.TransportFlow = none) :
    parseStep d p =
      tablePut d tcp.TransportFlow
        ((NewFlowData tcp.TransportFlow).AddPacket p tcp true true) := by
  unfold parseStep
  rw [hp]
  simp only
  obtain ⟨h1, h2⟩ := resolve_eq_none h
  rw [h1, h2]

theorem tableInv_tablePut_present {d : FlowTable} {k : Flow} (v : FlowData)
    (hinv : TableInv d) (hk : (tableGet d k).isSome = true) :
    TableInv (tablePut d k v) := by
  have hsame : ∀ k', (tableGet (tablePut d k v) k').isSome = (tableGet d k').isSome := by
    intro k'
    rw [tableGet_tablePut]
    by_cases h : k = k'
    · subst h
      simp [hk]
    · simp [h]
  refine ⟨nodup_keys_tablePut d k v hinv.1, ?_⟩
  intro k' hk' hrev
  rw [hsame] at hk'
  have hnone := hinv.2 k' hk' hrev
  have h2 := hsame k'.Reverse
  rw [hnone] at h2
  cases h3 : tableGet (tablePut d k v) k'.Reverse with
  | none => rfl
  | some fd => rw [h3] at h2; cases h2

theorem tableInv_tablePut_new {d : FlowTable} {k : Flow} (v : FlowData)
    (hinv : TableInv d) (hr : tableGet d k.Reverse = none) :
    TableInv (tablePut d k v) := by
  refine ⟨nodup_keys_tablePut d k v hinv.1, ?_⟩
  intro k' hk' hrev
  rw [tableGet_tablePut] at hk' ⊢
  by_cases h : k = k'
  · subst h
    have hne : ¬ k = k.Reverse := fun e => hrev e.symm
    rw [if_neg hne]
    exact hr
  · rw [if_neg h] at hk'
    by_cases h2 : k = k'.Reverse
    · exfalso
      have hkk : k.Reverse = k' := by rw [h2, Flow.Reverse_Reverse]
      rw [hkk] at hr
      rw [hr] at hk'
      cases hk'
    · rw [if_neg h2]
      exact hinv.2 k' hk' hrev

theorem tableInv_parseStep {d : FlowTable} (p : GoPacket) (hinv : TableInv d) :
    TableInv (parseStep d p) := by
  cases hp : p.tcp with
  | none =>
    unfold parseStep
    rw [hp]
    exact hinv
  | some tcp =>
    cases hres : resolve d tcp.TransportFlow with
    | none =>
      rw [parseStep_of_resolve_none hp hres]
      exact tableInv_tablePut_new _ hinv (resolve_eq_none hres).2
    | some kd =>
      obtain ⟨k, up⟩ := kd
      obtain ⟨fd, hfd, hstep⟩ := parseStep_of_resolve_some hp hres
      rw [hstep]
      exact tableInv_tablePut_present _ hinv (by rw [hfd]; rfl)

theorem tableInv_foldl (packets : List GoPacket) (d : FlowTable) (hinv : TableInv d) :
    TableInv (packets.foldl parseStep d) := by
  induction packets generalizing d with
  | nil => exact hinv
  | cons p rest ih => exact ih _ (tableInv_parseStep p hinv)

theorem tableInv_parse (packets : List GoPacket) : TableInv (parse packets) :=
  tableInv_foldl packets [] ⟨List.nodup_nil, fun k hk => by cases hk⟩

theorem parse_append_singleton (packets : List GoPacket) (p : GoPacket) :
    parse (packets ++ [p]) = parseStep (parse packets) p := by
  unfold parse
  rw [List.foldl_append]
  rfl

/-- Under the invariant an identity and its reversal resolve to the same key. -/
theorem resolve_reverse_key {d : FlowTable} (hinv : TableInv d) (t : Flow) :
    (resolve d t).map Prod.fst = (resolve d t.Reverse).map Prod.fst := by
  unfold resolve
  rw [Flow.Reverse_Reverse]
  cases h1 : tableGet d t with
  | some fd =>
    by_cases hrev : t.Reverse = t
    · rw [hrev, h1]
    · rw [hinv.2 t (by rw [h1]; rfl) hrev]
      rfl
  | none =>
    cases h2 : tableGet d t.Reverse with
    | some fd => rfl
    | none => rfl

theorem isSome_parseStep {d : FlowTable} (p : GoPacket) {k : Flow}
    (hk : (tableGet d k).isSome = true) : (tableGet (parseStep d p) k).isSome = true := by
  cases hp : p.tcp with
  | none =>
    unfold parseStep
    rw [hp]
    exact hk
  | some tcp =>
    cases hres : resolve d tcp.TransportFlow with
    | none =>
      rw [parseStep_of_resolve_none hp hres, tableGet_tablePut]
      split
      · rfl
      · exact hk
    | some kd =>
      obtain ⟨k0, up⟩ := kd
      obtain ⟨fd, _, hstep⟩ := parseStep_of_resolve_some hp hres
      rw [hstep, tableGet_tablePut]
      split
      · rfl
      · exact hk

theorem isSome_foldl_parseStep (packets : List GoPacket) (d : FlowTable) {k : Flow}
    (hk : (tableGet d k).isSome = true) :
    (tableGet (packets.foldl parseStep d) k).isSome = true := by
  induction packets generalizing d with
  | nil => exact hk
  | cons p rest ih => exact ih _ (isSome_parseStep p hk)

/-- A key of the table after a step was a key before it or is the literal
identity of the packet of the step. -/
theorem isSome_parseStep_inv {d : FlowTable} {p : GoPacket} {k : Flow}
    (hk : (tableGet (parseStep d p) k).isSome = true) :
    (tableGet d k).isSome = true ∨ ∃ tcp, p.tcp = some tcp ∧ tcp.TransportFlow = k := by
  cases hp : p.tcp with
  | none =>
    unfold parseStep at hk
    rw [hp] at hk
    exact Or.inl hk
  | some tcp =>
    cases hres : resolve d tcp.TransportFlow with
    | none =>
      rw [parseStep_of_resolve_none hp hres, tableGet_tablePut] at hk
      by_cases h : tcp.TransportFlow = k
      · exact Or.inr ⟨tcp, rfl, h⟩
      · rw [if_neg h] at hk
        exact Or.inl hk
    | some kd =>
      obtain ⟨k0, up⟩ := kd
      obtain ⟨fd, hfd, hstep⟩ := parseStep_of_resolve_some hp hres
      rw [hstep, tableGet_tablePut] at hk
      by_cases h : k0 = k
      · subst h
        left
        rw [hfd]
        rfl
      · rw [if_neg h] at hk
        exact Or.inl hk

theorem isSome_foldl_parseStep_inv (packets : List GoPacket) (d : FlowTable) {k : Flow}
    (hk : (tableGet (packets.foldl parseStep d) k).isSome = true) :
    (tableGet d k).isSome = true ∨
      ∃ q ∈ packets, ∃ tcp, q.tcp = some tcp ∧ tcp.TransportFlow = k := by
  induction packets generalizing d with
  | nil => exact Or.inl hk
  | cons p rest ih =>
    rcases ih (parseStep d p) hk with h | ⟨q, hq, tcp, h1, h2⟩
    · rcases isSome_parseStep_inv h with h' | ⟨tcp, h1, h2⟩
      · exact Or.inl h'
      · exact Or.inr ⟨p, List.mem_cons_self p rest, tcp, h1, h2⟩
    · exact Or.inr ⟨q, List.mem_cons_of_mem p hq, tcp, h1, h2⟩

/-- An identity none of whose two directions occurred among the packets
resolves to no record. -/
theorem resolve_none_of_unseen (packets : List GoPacket) (t : Flow)
    (hun : ∀ q ∈ packets, ∀ tcp, q.tcp = some tcp →
      tcp.TransportFlow ≠ t ∧ tcp.TransportFlow ≠ t.Reverse) :
    resolve (parse packets) t = none := by
  have hnone : ∀ k, (k = t ∨ k = t.Reverse) → tableGet (parse packets) k = none := by
    intro k hk
    cases hget : tableGet (parse packets) k with
    | none => rfl
    | some fd =>
      exfalso
      have hsome : (tableGet (packets.foldl parseStep []) k).isSome = true := by
        have h := hget
        unfold parse at h
        rw [h]
        rfl
      rcases isSome_foldl_parseStep_inv packets [] hsome with h | ⟨q, hq, tcp, h1, h2⟩
      · cases h
      · obtain ⟨n1, n2⟩ := hun q hq tcp h1
        rcases hk with hk | hk
        · exact n1 (h2.trans hk)
        · exact n2 (h2.trans hk)
  unfold resolve
  rw [hnone t (Or.inl rfl), hnone t.Reverse (Or.inr rfl)]

/-! ## What `AddPacket` does to the packet sequences -/

theorem CountEvent_lists (fd : FlowData) (et : EventType) (up : Bool) :
    (fd.CountEvent et up).UpPackets = fd.UpPackets ∧
    (fd.CountEvent et up).DownPackets = fd.DownPackets := by
  unfold FlowData.CountEvent
  split <;> exact ⟨rfl, rfl⟩

theorem addIPEvent_lists (fd : FlowData) (p : Packet) (up : Bool) (nf : Flow)
    (newFlow : Bool) (dscp : Nat) :
    (fd.addIPEvent p up nf newFlow dscp).1.UpPackets = fd.UpPackets ∧
    (fd.addIPEvent p up nf newFlow dscp).1.DownPackets = fd.DownPackets := by
  unfold FlowData.addIPEvent
  simp only
  have hnf : ∀ g : FlowData, g = (if newFlow = true then { fd with NetworkFlow := nf } else fd) →
      g.UpPackets = fd.UpPackets ∧ g.DownPackets = fd.DownPackets := by
    intro g hg
    rw [hg]
    split <;> exact ⟨rfl, rfl⟩
  obtain ⟨h1, h2⟩ := hnf _ rfl
  split
  · exact ⟨h1, h2⟩
  · split
    · exact ⟨(CountEvent_lists _ _ _).1.trans h1, (CountEvent_lists _ _ _).2.trans h2⟩
    · split
      · exact ⟨(CountEvent_lists _ _ _).1.trans h1, (CountEvent_lists _ _ _).2.trans h2⟩
      · split
        · exact ⟨(CountEvent_lists _ _ _).1.trans h1, (CountEvent_lists _ _ _).2.trans h2⟩
        · exact ⟨h1, h2⟩

theorem addFlagEvents_lists (fd : FlowData) (p : Packet) (tcp : TCP) (up : Bool) :
    (fd.addFlagEvents p tcp up).1.UpPackets = fd.UpPackets ∧
    (fd.addFlagEvents p tcp up).1.DownPackets = fd.DownPackets := by
  unfold FlowData.addFlagEvents
  simp only
  cases tcp.CWR <;> cases tcp.ECE <;> cases tcp.NS <;>
    simp [(CountEvent_lists _ _ _).1, (CountEvent_lists _ _ _).2]

theorem classify_lists (fd : FlowData) (gp : GoPacket) (tcp : TCP) (up newFlow : Bool) :
    (fd.classify gp tcp up newFlow).1.UpPackets = fd.UpPackets ∧
    (fd.classify gp tcp up newFlow).1.DownPackets = fd.DownPackets := by
  unfold FlowData.classify
  simp only
  cases tcp.SYN
  · simp only [Bool.not_false, if_true]
    have h0 := addFlagEvents_lists fd (NewPacket gp.Timestamp gp.Length) tcp up
    cases gp.ip4 with
    | none =>
      cases gp.ip6 with
      | none => exact h0
      | some ip6 =>
        exact ⟨(addIPEvent_lists _ _ _ _ _ _).1.trans h0.1,
          (addIPEvent_lists _ _ _ _ _ _).2.trans h0.2⟩
    | some ip4 =>
      have h1 : (((fd.addFlagEvents (NewPacket gp.Timestamp gp.Length) tcp up).1.addIPEvent
          (fd.addFlagEvents (NewPacket gp.Timestamp gp.Length) tcp up).2 up ip4.NetworkFlow
          newFlow ip4.TOS).1.UpPackets = fd.UpPackets) ∧
          (((fd.addFlagEvents (NewPacket gp.Timestamp gp.Length) tcp up).1.addIPEvent
          (fd.addFlagEvents (NewPacket gp.Timestamp gp.Length) tcp up).2 up ip4.NetworkFlow
          newFlow ip4.TOS).1.DownPackets = fd.DownPackets) :=
        ⟨(addIPEvent_lists _ _ _ _ _ _).1.trans h0.1,
          (addIPEvent_lists _ _ _ _ _ _).2.trans h0.2⟩
      cases gp.ip6 with
      | none => exact h1
      | some ip6 =>
        exact ⟨(addIPEvent_lists _ _ _ _ _ _).1.trans h1.1,
          (addIPEvent_lists _ _ _ _ _ _).2.trans h1.2⟩
  · exact ⟨rfl, rfl⟩

/-- Upstream admission appends the classified packet record to the upstream
sequence and leaves the downstream sequence alone. -/
theorem AddPacket_up (fd : FlowData) (gp : GoPacket) (tcp : TCP) (newFlow : Bool) :
    (fd.AddPacket gp tcp true newFlow).UpPackets =
      fd.UpPackets ++ [(fd.classify gp tcp true newFlow).2] ∧
    (fd.AddPacket gp tcp true newFlow).DownPackets = fd.DownPackets := by
  unfold FlowData.AddPacket
  simp only [if_true]
  exact ⟨by rw [(classify_lists fd gp tcp true newFlow).1],
    (classify_lists fd gp tcp true newFlow).2⟩

/-- Downstream admission appends the classified packet record to the
downstream sequence and leaves the upstream sequence alone. -/
theorem AddPacket_down (fd : FlowData) (gp : GoPacket) (tcp : TCP) (newFlow : Bool) :
    (fd.AddPacket gp tcp false newFlow).DownPackets =
      fd.DownPackets ++ [(fd.classify gp tcp false newFlow).2] ∧
    (fd.AddPacket gp tcp false newFlow).UpPackets = fd.UpPackets := by
  unfold FlowData.AddPacket
  simp only [Bool.false_eq_true, if_false]
  exact ⟨by rw [(classify_lists fd gp tcp false newFlow).2],
    (classify_lists fd gp tcp false newFlow).1⟩

/-! ## Claims on the flow table -/

/-- C7: at every point of the flow-table build of `parse` (after every finite
sequence of packets) the keys are unique, the table never holds a key together
with its distinct reversal, an identity and its reversal resolve to the same
key and hence the same Flow Record, and the next TCP packet with identity `t`
is added to the record keyed by `t` or by `reverse(t)`, whichever exists (a new
record keyed `t` when neither does), leaving every other record unchanged. -/
theorem parse_reverse_same_record (packets : List GoPacket) :
    ((parse packets).map Prod.fst).Nodup ∧
    (∀ k, (tableGet (parse packets) k).isSome = true → k.Reverse ≠ k →
      tableGet (parse packets) k.Reverse = none) ∧
    (∀ t, (resolve (parse packets) t).map Prod.fst =
      (resolve (parse packets) t.Reverse).map Prod.fst) ∧
    (∀ (p : GoPacket) (tcp : TCP), p.tcp = some tcp →
      (∀ k up, resolve (parse packets) tcp.TransportFlow = some (k, up) →
        (k = tcp.TransportFlow ∨ k = tcp.TransportFlow.Reverse) ∧
        ∃ fd, tableGet (parse packets) k = some fd ∧
          tableGet (parse (packets ++ [p])) k = some (fd.AddPacket p tcp up false) ∧
          ∀ k', k' ≠ k →
            tableGet (parse (packets ++ [p])) k' = tableGet (parse packets) k') ∧
      (resolve (parse packets) tcp.TransportFlow = none →
        tableGet (parse (packets ++ [p])) tcp.TransportFlow =
          some ((NewFlowData tcp.TransportFlow).AddPacket p tcp true true) ∧
        ∀ k', k' ≠ tcp.TransportFlow →
          tableGet (parse (packets ++ [p])) k' = tableGet (parse packets) k')) := by
  have hinv := tableInv_parse packets
  refine ⟨hinv.1, hinv.2, fun t => resolve_reverse_key hinv t, ?_⟩
  intro p tcp hp
  rw [parse_append_singleton]
  constructor
  · intro k up hres
    obtain ⟨fd, hfd, hstep⟩ := parseStep_of_resolve_some hp hres
    refine ⟨?_, fd, hfd, ?_, ?_⟩
    · rcases resolve_eq_some hres with ⟨hk, _, _⟩ | ⟨hk, _, _, _⟩
      · exact Or.inl hk
      · exact Or.inr hk
    · rw [hstep, tableGet_tablePut, if_pos rfl]
    · intro k' hne
      rw [hstep, tableGet_tablePut, if_neg (fun h => hne h.symm)]
  · intro hres
    rw [parseStep_of_resolve_none hp hres]
    refine ⟨by rw [tableGet_tablePut, if_pos rfl], ?_⟩
    intro k' hne
    rw [tableGet_tablePut, if_neg (fun h => hne h.symm)]

/-- C8: the direction label of a physical direction never flips. When `first`
is the first packet observed for its transport identity `t` (no earlier packet
has identity `t` or its reversal), it opens the record keyed `t` and is its only
upstream packet; after any further packets `after`, a packet `later` with the
literal identity `t` is appended to the upstream sequence of that record, and
one with the reversed identity (when different from `t`) to its downstream
sequence, the other sequence staying as it was. -/
theorem parse_direction_stable (before after : List GoPacket) (first later : GoPacket)
    (tcp1 tcp2 : TCP) (h1 : first.tcp = some tcp1) (h2 : later.tcp = some tcp2)
    (hfirst : ∀ q ∈ before, ∀ tcp, q.tcp = some tcp →
      tcp.TransportFlow ≠ tcp1.TransportFlow ∧
      tcp.TransportFlow ≠ tcp1.TransportFlow.Reverse) :
    (∃ fd, tableGet (parse (before ++ [first])) tcp1.TransportFlow = some fd ∧
      fd.UpPackets = [((NewFlowData tcp1.TransportFlow).classify first tcp1 true true).2] ∧
      fd.DownPackets = []) ∧
    (tcp2.TransportFlow = tcp1.TransportFlow →
      ∃ fd fd', tableGet (parse (before ++ first :: after)) tcp1.TransportFlow = some fd ∧
        tableGet (parse ((before ++ first :: after) ++ [later])) tcp1.TransportFlow
          = some fd' ∧
        fd'.UpPackets = fd.UpPackets ++ [(fd.classify later tcp2 true false).2] ∧
        fd'.DownPackets = fd.DownPackets) ∧
    (tcp2.TransportFlow = tcp1.TransportFlow.Reverse →
      tcp1.TransportFlow.Reverse ≠ tcp1.TransportFlow →
      ∃ fd fd', tableGet (parse (before ++ first :: after)) tcp1.TransportFlow = some fd ∧
        tableGet (parse ((before ++ first :: after) ++ [later])) tcp1.TransportFlow
          = some fd' ∧
        fd'.DownPackets = fd.DownPackets ++ [(fd.classify later tcp2 false false).2] ∧
        fd'.UpPackets = fd.UpPackets ∧
        tableGet (parse ((before ++ first :: after) ++ [later])) tcp1.TransportFlow.Reverse
          = none) := by
  have hnew := resolve_none_of_unseen before tcp1.TransportFlow hfirst
  have hopen : parse (before ++ [first]) =
      tablePut (parse before) tcp1.TransportFlow
        ((NewFlowData tcp1.TransportFlow).AddPacket first tcp1 true true) := by
    rw [parse_append_singleton, parseStep_of_resolve_none h1 hnew]
  have hget1 : tableGet (parse (before ++ [first])) tcp1.TransportFlow =
      some ((NewFlowData tcp1.TransportFlow).AddPacket first tcp1 true true) := by
    rw [hopen, tableGet_tablePut, if_pos rfl]
  have hsplit : before ++ first :: after = (before ++ [first]) ++ after := by
    simp
  have hsome : (tableGet (parse (before ++ first :: after)) tcp1.TransportFlow).isSome
      = true := by
    rw [hsplit]
    unfold parse
    rw [List.foldl_append]
    apply isSome_foldl_parseStep
    have h := hget1
    unfold parse at h
    rw [h]
    rfl
  have hinv := tableInv_parse (before ++ first :: after)
  obtain ⟨fd, hfd⟩ := Option.isSome_iff_exists.mp hsome
  refine ⟨⟨_, hget1, ?_, ?_⟩, ?_, ?_⟩
  · exact (AddPacket_up _ first tcp1 true).1
  · exact (AddPacket_up _ first tcp1 true).2
  · intro hsame
    have hres : resolve (parse (before ++ first :: after)) tcp2.TransportFlow =
        some (tcp1.TransportFlow, true) := by
      unfold resolve
      rw [hsame, hfd]
    obtain ⟨fd0, hfd0, hstep⟩ := parseStep_of_resolve_some h2 hres
    rw [hfd] at hfd0
    cases hfd0
    refine ⟨fd, _, hfd, ?_, (AddPacket_up fd later tcp2 false).1,
      (AddPacket_up fd later tcp2 false).2⟩
    rw [parse_append_singleton, hstep, tableGet_tablePut, if_pos rfl]
  · intro hrev hne
    have hnone : tableGet (parse (before ++ first :: after)) tcp1.TransportFlow.Reverse
        = none := hinv.2 _ hsome hne
    have hres : resolve (parse (before ++ first :: after)) tcp2.TransportFlow =
        some (tcp1.TransportFlow, false) := by
      unfold resolve
      rw [hrev, hnone, Flow.Reverse_Reverse, hfd]
    obtain ⟨fd0, hfd0, hstep⟩ := parseStep_of_resolve_some h2 hres
    rw [hfd] at hfd0
    cases hfd0
    refine ⟨fd, _, hfd, ?_, (AddPacket_down fd later tcp2 false).1,
      (AddPacket_down fd later tcp2 false).2, ?_⟩
    · rw [parse_append_singleton, hstep, tableGet_tablePut, if_pos rfl]
    · rw [parse_append_singleton, hstep, tableGet_tablePut, if_neg (fun h => hne h.symm)]
      exact hnone

/-- C8, the end-to-end scenario: packet A (SYN) followed by packet B in the
reverse direction carrying CE gives exactly one Flow Record, keyed by the
identity of A, with A upstream with an empty event set and no counter touched,
and B downstream with a downstream CE count of 1. -/
theorem parse_direction_stable_witness :
    pktSynA.tcp = some tcpSynA ∧ pktCEB.tcp = some tcpCEB ∧
    (∀ q ∈ ([] : List GoPacket), ∀ tcp, q.tcp = some tcp →
      tcp.TransportFlow ≠ tcpSynA.TransportFlow ∧
      tcp.TransportFlow ≠ tcpSynA.TransportFlow.Reverse) ∧
    tcpCEB.TransportFlow = tcpSynA.TransportFlow.Reverse ∧
    tcpSynA.TransportFlow.Reverse ≠ tcpSynA.TransportFlow ∧
    (∃ fd fd', tableGet (parse [pktSynA]) tcpSynA.TransportFlow = some fd ∧
      tableGet (parse [pktSynA, pktCEB]) tcpSynA.TransportFlow = some fd' ∧
      fd'.DownPackets = fd.DownPackets ++ [(fd.classify pktCEB tcpCEB false false).2] ∧
      fd'.UpPackets = fd.UpPackets ∧
      tableGet (parse [pktSynA, pktCEB]) tcpSynA.TransportFlow.Reverse = none) ∧
    (parse [pktSynA, pktCEB]).map
        (fun kv => (kv.1, kv.2.UpPackets.map (fun q => q.EventType),
          kv.2.DownPackets.map (fun q => q.EventType),
          allEventTypes.map kv.2.UpCounts, kv.2.DownCounts EventTypeCE))
      = [(tcpSynA.TransportFlow, [0], [EventTypeCE], [0, 0, 0, 0, 0, 0], 1)] :=
  ⟨rfl, rfl, fun q hq => absurd hq (List.not_mem_nil q), by decide, by decide,
    (parse_direction_stable [] [] pktSynA pktCEB tcpSynA tcpCEB rfl rfl
      (fun q hq => absurd hq (List.not_mem_nil q))).2.2 (by decide) (by decide),
    by decide⟩

/-! ## Lemmas on the classifier -/

theorem AddEvent_zero (p : Packet) : p.AddEvent 0 = p := by
  cases p
  simp [Packet.AddEvent]

/-- The packet record left by `addIPEvent` has the event of the codepoint added. -/
theorem addIPEvent_snd (fd : FlowData) (p : Packet) (up : Bool) (nf : Flow)
    (newFlow : Bool) (dscp : Nat) :
    (fd.addIPEvent p up nf newFlow dscp).2 = p.AddEvent (ecnEvent dscp) := by
  unfold FlowData.addIPEvent ecnEvent
  simp only
  by_cases h0 : dscp &&& 0x03 = NotECT
  · have h1 : ¬ dscp &&& 0x03 = SCE := by rw [h0]; decide
    have h2 : ¬ dscp &&& 0x03 = ECT := by rw [h0]; decide
    have h3 : ¬ dscp &&& 0x03 = CE := by rw [h0]; decide
    rw [if_pos h0, if_neg h1, if_neg h2, if_neg h3, AddEvent_zero]
  · rw [if_neg h0]
    by_cases h1 : dscp &&& 0x03 = SCE
    · rw [if_pos h1, if_pos h1]
    · rw [if_neg h1, if_neg h1]
      by_cases h2 : dscp &&& 0x03 = ECT
      · rw [if_pos h2, if_pos h2]
      · rw [if_neg h2, if_neg h2]
        by_cases h3 : dscp &&& 0x03 = CE
        · rw [if_pos h3, if_pos h3]
        · rw [if_neg h3, if_neg h3, AddEvent_zero]

theorem ecnEvent_cases (dscp : Nat) :
    ecnEvent dscp = 0 ∨ ecnEvent dscp = EventTypeSCE ∨ ecnEvent dscp = EventTypeECT ∨
      ecnEvent dscp = EventTypeCE := by
  unfold ecnEvent
  split
  · exact Or.inr (Or.inl rfl)
  · split
    · exact Or.inr (Or.inr (Or.inl rfl))
    · split
      · exact Or.inr (Or.inr (Or.inr rfl))
      · exact Or.inl rfl

theorem addFlagEvents_snd (fd : FlowData) (p : Packet) (tcp : TCP) (up : Bool) :
    (fd.addFlagEvents p tcp up).2.EventType =
      (((p.EventType ||| (if tcp.CWR then EventTypeCWR else 0))
        ||| (if tcp.ECE then EventTypeECE else 0)) ||| (if tcp.NS then EventTypeNS else 0)) := by
  unfold FlowData.addFlagEvents
  cases tcp.CWR <;> cases tcp.ECE <;> cases tcp.NS <;> simp [Packet.AddEvent]

/-- Event mask built by `AddPacket` for a non-SYN segment: the flag bits, then
the event of each IP view that is present. -/
theorem classify_mask (fd : FlowData) (gp : GoPacket) (tcp : TCP) (up newFlow : Bool)
    (hsyn : tcp.SYN = false) :
    (fd.classify gp tcp up newFlow).2.EventType =
      ((flagMask tcp ||| (match gp.ip4 with | some ip4 => ecnEvent ip4.TOS | none => 0))
        ||| (match gp.ip6 with | some ip6 => ecnEvent ip6.TrafficClass | none => 0)) := by
  unfold FlowData.classify
  simp only [hsyn, Bool.not_false, if_true]
  have hflags : (fd.addFlagEvents (NewPacket gp.Timestamp gp.Length) tcp up).2.EventType
      = flagMask tcp := by
    rw [addFlagEvents_snd]
    rfl
  cases h4 : gp.ip4 with
  | none =>
    cases h6 : gp.ip6 with
    | none => simp only [hflags, Nat.or_zero]
    | some ip6 =>
      simp only [addIPEvent_snd, Packet.AddEvent, hflags, Nat.or_zero]
  | some ip4 =>
    cases h6 : gp.ip6 with
    | none => simp only [addIPEvent_snd, Packet.AddEvent, hflags, Nat.or_zero]
    | some ip6 => simp only [addIPEvent_snd, Packet.AddEvent, hflags]

theorem classify_syn (fd : FlowData) (gp : GoPacket) (tcp : TCP) (up newFlow : Bool)
    (hsyn : tcp.SYN = true) :
    fd.classify gp tcp up newFlow = (fd, NewPacket gp.Timestamp gp.Length) := by
  unfold FlowData.classify
  simp [hsyn]

/-- At most one ECN bit is held by the flag bits together with the event of a
single codepoint. -/
theorem ecnBits_flags_one (tcp : TCP) (dscp : Nat) :
    ecnBits (flagMask tcp ||| ecnEvent dscp) ≤ 1 := by
  unfold flagMask
  rcases ecnEvent_cases dscp with h | h | h | h <;> rw [h] <;>
    cases tcp.CWR <;> cases tcp.ECE <;> cases tcp.NS <;> decide

theorem ecnBits_flags_zero (tcp : TCP) : ecnBits (flagMask tcp) = 0 := by
  unfold flagMask
  cases tcp.CWR <;> cases tcp.ECE <;> cases tcp.NS <;> decide

/-! ## Claims on the event classifier -/

/-- C9: for a packet with the SYN flag set, whatever its CWR, ECE and NS flags
and its IPv4/IPv6 views, `AddPacket` appends (to the sequence of its direction)
a packet record with the capture data and an empty event bitmask, and leaves
every upstream and downstream counter of the Flow Record unchanged. -/
theorem AddPacket_syn (fd : FlowData) (gp : GoPacket) (tcp : TCP) (up newFlow : Bool)
    (hsyn : tcp.SYN = true) :
    (fd.AddPacket gp tcp up newFlow).UpCounts = fd.UpCounts ∧
    (fd.AddPacket gp tcp up newFlow).DownCounts = fd.DownCounts ∧
    ∃ q : Packet, q.EventType = 0 ∧ q.Timestamp = gp.Timestamp ∧ q.Length = gp.Length ∧
      (up = true → (fd.AddPacket gp tcp up newFlow).UpPackets = fd.UpPackets ++ [q] ∧
        (fd.AddPacket gp tcp up newFlow).DownPackets = fd.DownPackets) ∧
      (up = false → (fd.AddPacket gp tcp up newFlow).DownPackets = fd.DownPackets ++ [q] ∧
        (fd.AddPacket gp tcp up newFlow).UpPackets = fd.UpPackets) := by
  unfold FlowData.AddPacket
  rw [classify_syn fd gp tcp up newFlow hsyn]
  cases up
  · refine ⟨rfl, rfl, NewPacket gp.Timestamp gp.Length, rfl, rfl, rfl, ?_, ?_⟩
    · intro h; cases h
    · intro _; exact ⟨rfl, rfl⟩
  · refine ⟨rfl, rfl, NewPacket gp.Timestamp gp.Length, rfl, rfl, rfl, ?_, ?_⟩
    · intro _; exact ⟨rfl, rfl⟩
    · intro h; cases h

/-- C9 at a SYN segment with CWR, ECE and NS set and both IP views present,
admitted downstream to a new record. -/
theorem AddPacket_syn_witness :
    tcpSynAll.SYN = true ∧
    ((NewFlowData tcpSynAll.TransportFlow).AddPacket pktSynAll tcpSynAll false true).UpCounts
      = (NewFlowData tcpSynAll.TransportFlow).UpCounts ∧
    ((NewFlowData tcpSynAll.TransportFlow).AddPacket pktSynAll tcpSynAll false true).DownCounts
      = (NewFlowData tcpSynAll.TransportFlow).DownCounts ∧
    ∃ q : Packet, q.EventType = 0 ∧ q.Timestamp = pktSynAll.Timestamp ∧
      q.Length = pktSynAll.Length ∧
      (false = true →
        ((NewFlowData tcpSynAll.TransportFlow).AddPacket pktSynAll tcpSynAll false
            true).UpPackets = (NewFlowData tcpSynAll.TransportFlow).UpPackets ++ [q] ∧
        ((NewFlowData tcpSynAll.TransportFlow).AddPacket pktSynAll tcpSynAll false
            true).DownPackets = (NewFlowData tcpSynAll.TransportFlow).DownPackets) ∧
      (false = false →
        ((NewFlowData tcpSynAll.TransportFlow).AddPacket pktSynAll tcpSynAll false
            true).DownPackets = (NewFlowData tcpSynAll.TransportFlow).DownPackets ++ [q] ∧
        ((NewFlowData tcpSynAll.TransportFlow).AddPacket pktSynAll tcpSynAll false
            true).UpPackets = (NewFlowData tcpSynAll.TransportFlow).UpPackets) :=
  ⟨rfl, AddPacket_syn (NewFlowData tcpSynAll.TransportFlow) pktSynAll tcpSynAll false true rfl⟩

/-! ## The classifier against the reference classification -/

theorem ecnEvent_eq_mod (b : Nat) :
    ecnEvent b = if b % 4 = 1 then EventTypeSCE else if b % 4 = 2 then EventTypeECT
      else if b % 4 = 3 then EventTypeCE else 0 := by
  have h : b &&& 0x03 = b % 4 := Nat.and_pow_two_sub_one_eq_mod b 2
  unfold ecnEvent
  rw [h]
  rfl

/-- Mask of a non-SYN packet with exactly one IP view of byte `b`. -/
theorem classify_mask_one_view (fd : FlowData) (gp : GoPacket) (tcp : TCP)
    (up newFlow : Bool) (b : Nat) (hsyn : tcp.SYN = false)
    (hview : (∃ ip, gp.ip4 = some ip ∧ gp.ip6 = none ∧ ip.TOS = b) ∨
      (∃ ip, gp.ip6 = some ip ∧ gp.ip4 = none ∧ ip.TrafficClass = b)) :
    (fd.classify gp tcp up newFlow).2.EventType = flagMask tcp ||| ecnEvent b := by
  rw [classify_mask fd gp tcp up newFlow hsyn]
  rcases hview with ⟨ip, h4, h6, hb⟩ | ⟨ip, h6, h4, hb⟩
  · rw [h4, h6]
    simp only [Nat.or_zero, hb]
  · rw [h4, h6]
    simp only [Nat.or_zero, hb]

theorem refClassify_spec (tcp : TCP) (b : Nat) :
    flagMask tcp ||| ecnEvent b = refClassify tcp b ∧
    (hasType (refClassify tcp b) EventTypeCWR = tcp.CWR) ∧
    (hasType (refClassify tcp b) EventTypeECE = tcp.ECE) ∧
    (hasType (refClassify tcp b) EventTypeNS = tcp.NS) ∧
    (hasType (refClassify tcp b) EventTypeSCE = decide (b % 4 = 1)) ∧
    (hasType (refClassify tcp b) EventTypeECT = decide (b % 4 = 2)) ∧
    (hasType (refClassify tcp b) EventTypeCE = decide (b % 4 = 3)) ∧
    refClassify tcp b < 1 <<< EventTypeCount := by
  rw [ecnEvent_eq_mod]
  unfold refClassify flagMask
  have hlt : b % 4 < 4 := Nat.mod_lt _ (by decide)
  generalize b % 4 = r at hlt
  interval_cases r <;> cases tcp.CWR <;> cases tcp.ECE <;> cases tcp.NS <;> decide

/-- C11: for a non-SYN packet with exactly one IP view whose
differentiated-services byte is `b`, the event bitmask built by `AddPacket`
is the reference classification: the CWR, ECE and NS bits are set exactly
when the flags are, the SCE, ECT and CE bits exactly when `b mod 4` is 1, 2
and 3, no other bit is set, and bytes that agree modulo 4 classify alike. -/
theorem classify_reference (fd : FlowData) (gp : GoPacket) (tcp : TCP)
    (up newFlow : Bool) (b : Nat) (hsyn : tcp.SYN = false)
    (hview : (∃ ip, gp.ip4 = some ip ∧ gp.ip6 = none ∧ ip.TOS = b) ∨
      (∃ ip, gp.ip6 = some ip ∧ gp.ip4 = none ∧ ip.TrafficClass = b)) :
    (fd.classify gp tcp up newFlow).2.EventType = refClassify tcp b ∧
    (up = true → (fd.AddPacket gp tcp up newFlow).UpPackets =
      fd.UpPackets ++ [(fd.classify gp tcp up newFlow).2]) ∧
    (up = false → (fd.AddPacket gp tcp up newFlow).DownPackets =
      fd.DownPackets ++ [(fd.classify gp tcp up newFlow).2]) ∧
    hasType (fd.classify gp tcp up newFlow).2.EventType EventTypeCWR = tcp.CWR ∧
    hasType (fd.classify gp tcp up newFlow).2.EventType EventTypeECE = tcp.ECE ∧
    hasType (fd.classify gp tcp up newFlow).2.EventType EventTypeNS = tcp.NS ∧
    hasType (fd.classify gp tcp up newFlow).2.EventType EventTypeSCE = decide (b % 4 = 1) ∧
    hasType (fd.classify gp tcp up newFlow).2.EventType EventTypeECT = decide (b % 4 = 2) ∧
    hasType (fd.classify gp tcp up newFlow).2.EventType EventTypeCE = decide (b % 4 = 3) ∧
    (fd.classify gp tcp up newFlow).2.EventType < 1 <<< EventTypeCount ∧
    ∀ b', b' % 4 = b % 4 → refClassify tcp b' = refClassify tcp b := by
  have hm := classify_mask_one_view fd gp tcp up newFlow b hsyn hview
  obtain ⟨h0, h1, h2, h3, h4, h5, h6, h7⟩ := refClassify_spec tcp b
  rw [hm, h0]
  refine ⟨rfl, ?_, ?_, h1, h2, h3, h4, h5, h6, h7, ?_⟩
  · intro hup
    subst hup
    exact (AddPacket_up fd gp tcp newFlow).1
  · intro hup
    subst hup
    exact (AddPacket_down fd gp tcp newFlow).1
  · intro b' hb
    unfold refClassify
    rw [hb]

/-- C11 at a non-SYN segment with ECE and NS set and IPv4 byte `0xB9`: the
mask is ECE, NS and SCE. -/
theorem classify_reference_witness :
    tcpFlags.SYN = false ∧
    ((∃ ip, pktFlags.ip4 = some ip ∧ pktFlags.ip6 = none ∧ ip.TOS = 185) ∨
      (∃ ip, pktFlags.ip6 = some ip ∧ pktFlags.ip4 = none ∧ ip.TrafficClass = 185)) ∧
    ((NewFlowData tcpFlags.TransportFlow).classify pktFlags tcpFlags true true).2.EventType
      = refClassify tcpFlags 185 ∧
    refClassify tcpFlags 185 = EventTypeECE ||| EventTypeNS ||| EventTypeSCE :=
  ⟨rfl, Or.inl ⟨_, rfl, rfl, rfl⟩,
    (classify_reference (NewFlowData tcpFlags.TransportFlow) pktFlags tcpFlags true true 185
      rfl (Or.inl ⟨_, rfl, rfl, rfl⟩)).1,
    by decide⟩

/-! ## Counters follow the event masks -/

theorem or_eq_zero_iff (a b : Nat) : a ||| b = 0 ↔ a = 0 ∧ b = 0 := by
  constructor
  · intro h
    have hbits : ∀ i, a.testBit i = false ∧ b.testBit i = false := by
      intro i
      have hi : (a ||| b).testBit i = false := by rw [h]; exact Nat.zero_testBit i
      rw [Nat.testBit_or] at hi
      cases ha : a.testBit i <;> cases hb : b.testBit i <;> simp [ha, hb] at hi ⊢
    constructor
    · apply Nat.eq_of_testBit_eq
      intro i
      rw [(hbits i).1, Nat.zero_testBit]
    · apply Nat.eq_of_testBit_eq
      intro i
      rw [(hbits i).2, Nat.zero_testBit]
  · rintro ⟨rfl, rfl⟩
    rfl

theorem and_of_etValues {e et : EventType} (he : e ∈ etValues) (het : et ∈ etValues) :
    e &&& et = if e = et then et else 0 := by
  rw [etValues_eq] at he het
  simp only [List.mem_cons, List.mem_singleton, List.not_mem_nil, or_false] at he het
  rcases he with rfl | rfl | rfl | rfl | rfl | rfl <;>
    rcases het with rfl | rfl | rfl | rfl | rfl | rfl <;> decide

theorem ne_zero_of_etValues {et : EventType} (het : et ∈ etValues) : et ≠ 0 := by
  rw [etValues_eq] at het
  simp only [List.mem_cons, List.mem_singleton, List.not_mem_nil, or_false] at het
  rcases het with rfl | rfl | rfl | rfl | rfl | rfl <;> decide

/-- Adding the type `e` to a mask adds exactly `e` to the types it includes. -/
theorem hasType_or (m : EventType) {e et : EventType} (he : e ∈ etValues)
    (het : et ∈ etValues) :
    hasType (m ||| e) et = (hasType m et || decide (e = et)) := by
  unfold hasType
  rw [Nat.and_comm, Nat.and_or_distrib_left, Nat.and_comm et m, Nat.and_comm et e,
    and_of_etValues he het]
  by_cases h : e = et
  · have hne := ne_zero_of_etValues het
    have : ¬ (m &&& et ||| et = 0) := by
      rw [or_eq_zero_iff]
      exact fun hh => hne hh.2
    simp [h, this]
  · simp [h]

theorem hasType_zero (et : EventType) : hasType 0 et = false := by
  unfold hasType
  simp

theorem CountEvent_counts (fd : FlowData) (e : EventType) (up : Bool) (k : EventType) :
    (fd.CountEvent e up).UpCounts k =
      (if up = true ∧ k = e then (fd.UpCounts k + 1) % uintMod else fd.UpCounts k) ∧
    (fd.CountEvent e up).DownCounts k =
      (if up = false ∧ k = e then (fd.DownCounts k + 1) % uintMod else fd.DownCounts k) := by
  unfold FlowData.CountEvent
  cases up
  · by_cases hk : k = e <;> simp [incr, hk]
  · by_cases hk : k = e <;> simp [incr, hk]

theorem countsTrack_init (fd0 : FlowData) (up : Bool) (p : Packet) (hp : p.EventType = 0) :
    CountsTrack fd0 up (fd0, p) := by
  intro et _
  simp only [hp, hasType_zero]
  simp

/-- One `AddEvent`/`CountEvent` pair for a type the mask does not hold yet. -/
theorem countsTrack_event {fd0 : FlowData} {up : Bool} {s : FlowData × Packet}
    (hs : CountsTrack fd0 up s) {e : EventType} (he : e ∈ etValues)
    (hnew : hasType s.2.EventType e = false) :
    CountsTrack fd0 up (s.1.CountEvent e up, s.2.AddEvent e) := by
  intro et het
  obtain ⟨hu, hd⟩ := hs et het
  obtain ⟨cu, cd⟩ := CountEvent_counts s.1 e up et
  have hmask : hasType (s.2.AddEvent e).EventType et =
      (hasType s.2.EventType et || decide (e = et)) := hasType_or _ he het
  simp only [hmask]
  rw [cu, cd, hu, hd]
  by_cases hk : et = e
  · subst hk
    rw [hnew]
    cases up <;> simp
  · have hk' : ¬ e = et := fun h => hk h.symm
    cases up <;> simp [hk, hk']

theorem countsTrack_networkFlow {fd0 : FlowData} {up : Bool} {fd : FlowData} {p : Packet}
    (hs : CountsTrack fd0 up (fd, p)) (nf : Flow) (newFlow : Bool) :
    CountsTrack fd0 up ((if newFlow = true then { fd with NetworkFlow := nf } else fd), p) := by
  cases newFlow
  · exact hs
  · exact hs

theorem countsTrack_cond {fd0 : FlowData} {up : Bool} {s : FlowData × Packet}
    (hs : CountsTrack fd0 up s) (c : Bool) {e : EventType} (he : e ∈ etValues)
    (hnew : hasType s.2.EventType e = false) :
    CountsTrack fd0 up (if c = true then (s.1.CountEvent e up, s.2.AddEvent e) else s) := by
  cases c
  · exact hs
  · exact countsTrack_event hs he hnew

theorem countsTrack_addFlagEvents (fd : FlowData) (ts len : Int) (tcp : TCP) (up : Bool) :
    CountsTrack fd up (fd.addFlagEvents (NewPacket ts len) tcp up) := by
  have h0 : CountsTrack fd up (fd, NewPacket ts len) := countsTrack_init fd up _ rfl
  have h1 := countsTrack_cond h0 tcp.CWR (e := EventTypeCWR) (by decide)
    (by simp [NewPacket, hasType])
  have h2 := countsTrack_cond h1 tcp.ECE (e := EventTypeECE) (by decide)
    (by cases tcp.CWR <;>
      simp [NewPacket, Packet.AddEvent, hasType, EventTypeCWR, EventTypeECE] <;> decide)
  have h3 := countsTrack_cond h2 tcp.NS (e := EventTypeNS) (by decide)
    (by cases tcp.CWR <;> cases tcp.ECE <;>
      simp [NewPacket, Packet.AddEvent, hasType, EventTypeCWR, EventTypeECE, EventTypeNS]
        <;> decide)
  exact h3

theorem hasType_flagMask_ecn (tcp : TCP) :
    hasType (flagMask tcp) EventTypeSCE = false ∧ hasType (flagMask tcp) EventTypeECT = false ∧
    hasType (flagMask tcp) EventTypeCE = false := by
  unfold flagMask
  cases tcp.CWR <;> cases tcp.ECE <;> cases tcp.NS <;> decide

theorem countsTrack_addIPEvent {fd0 : FlowData} {up : Bool} {s : FlowData × Packet}
    (hs : CountsTrack fd0 up s) (nf : Flow) (newFlow : Bool) (dscp : Nat)
    (hsce : hasType s.2.EventType EventTypeSCE = false)
    (hect : hasType s.2.EventType EventTypeECT = false)
    (hce : hasType s.2.EventType EventTypeCE = false) :
    CountsTrack fd0 up (s.1.addIPEvent s.2 up nf newFlow dscp) := by
  have hn : CountsTrack fd0 up
      ((if newFlow = true then { s.1 with NetworkFlow := nf } else s.1), s.2) :=
    @countsTrack_networkFlow fd0 up s.1 s.2 hs nf newFlow
  unfold FlowData.addIPEvent
  simp only
  split
  · exact hn
  · split
    · exact countsTrack_event
        (s := ((if newFlow = true then { s.1 with NetworkFlow := nf } else s.1), s.2))
        hn (by decide) hsce
    · split
      · exact countsTrack_event
          (s := ((if newFlow = true then { s.1 with NetworkFlow := nf } else s.1), s.2))
          hn (by decide) hect
      · split
        · exact countsTrack_event
            (s := ((if newFlow = true then { s.1 with NetworkFlow := nf } else s.1), s.2))
            hn (by decide) hce
        · exact hn

/-- For a SYN segment or a packet with at most one IP view, every counter of
the packet's direction moves by one exactly for the types in the mask of the
packet record, and no other counter moves. -/
theorem countsTrack_classify (fd : FlowData) (gp : GoPacket) (tcp : TCP) (up newFlow : Bool)
    (hone : gp.ip4 = none ∨ gp.ip6 = none) :
    CountsTrack fd up (fd.classify gp tcp up newFlow) := by
  cases hsyn : tcp.SYN with
  | true =>
    rw [classify_syn fd gp tcp up newFlow hsyn]
    exact countsTrack_init fd up _ rfl
  | false =>
    have hflags := countsTrack_addFlagEvents fd gp.Timestamp gp.Length tcp up
    have hmask : (fd.addFlagEvents (NewPacket gp.Timestamp gp.Length) tcp up).2.EventType
        = flagMask tcp := by
      rw [addFlagEvents_snd]
      rfl
    obtain ⟨m1, m2, m3⟩ := hasType_flagMask_ecn tcp
    rw [← hmask] at m1 m2 m3
    unfold FlowData.classify
    simp only [hsyn, Bool.not_false, if_true]
    cases h4 : gp.ip4 with
    | none =>
      cases h6 : gp.ip6 with
      | none => exact hflags
      | some ip6 => exact countsTrack_addIPEvent hflags _ _ _ m1 m2 m3
    | some ip4 =>
      cases h6 : gp.ip6 with
      | none => exact countsTrack_addIPEvent hflags _ _ _ m1 m2 m3
      | some ip6 =>
        rw [h4, h6] at hone
        rcases hone with h | h <;> cases h

/-- The record left by `addIPEvent`: the identity is assigned when `newFlow`
is set, then the event of the codepoint, if any, is counted. -/
theorem addIPEvent_fst (fd : FlowData) (p : Packet) (up : Bool) (nf : Flow)
    (newFlow : Bool) (dscp : Nat) :
    (fd.addIPEvent p up nf newFlow dscp).1 =
      if ecnEvent dscp = 0 then (if newFlow = true then { fd with NetworkFlow := nf } else fd)
      else (if newFlow = true then { fd with NetworkFlow := nf } else fd).CountEvent
        (ecnEvent dscp) up := by
  unfold FlowData.addIPEvent ecnEvent
  simp only
  by_cases h0 : dscp &&& 0x03 = NotECT
  · have h1 : ¬ dscp &&& 0x03 = SCE := by rw [h0]; decide
    have h2 : ¬ dscp &&& 0x03 = ECT := by rw [h0]; decide
    have h3 : ¬ dscp &&& 0x03 = CE := by rw [h0]; decide
    rw [if_pos h0, if_neg h1, if_neg h2, if_neg h3]
    rfl
  · rw [if_neg h0]
    by_cases h1 : dscp &&& 0x03 = SCE
    · rw [if_pos h1, if_pos h1]
      rfl
    · rw [if_neg h1, if_neg h1]
      by_cases h2 : dscp &&& 0x03 = ECT
      · rw [if_pos h2, if_pos h2]
        rfl
      · rw [if_neg h2, if_neg h2]
        by_cases h3 : dscp &&& 0x03 = CE
        · rw [if_pos h3, if_pos h3]
          rfl
        · rw [if_neg h3, if_neg h3]
          rfl

/-- Counters after `addIPEvent`: the counter of the codepoint's event moves by
one in the direction of the packet, no other counter moves. -/
theorem addIPEvent_counts (fd : FlowData) (p : Packet) (up : Bool) (nf : Flow)
    (newFlow : Bool) (dscp : Nat) {k : EventType} (hk : k ≠ 0) :
    (fd.addIPEvent p up nf newFlow dscp).1.UpCounts k =
      (if up = true then bumpIf (decide (k = ecnEvent dscp)) (fd.UpCounts k)
        else fd.UpCounts k) ∧
    (fd.addIPEvent p up nf newFlow dscp).1.DownCounts k =
      (if up = false then bumpIf (decide (k = ecnEvent dscp)) (fd.DownCounts k)
        else fd.DownCounts k) := by
  have hfd : (if newFlow = true then { fd with NetworkFlow := nf } else fd).UpCounts
        = fd.UpCounts ∧
      (if newFlow = true then { fd with NetworkFlow := nf } else fd).DownCounts
        = fd.DownCounts := by
    cases newFlow <;> exact ⟨rfl, rfl⟩
  rw [addIPEvent_fst]
  by_cases h0 : ecnEvent dscp = 0
  · rw [if_pos h0, h0, hfd.1, hfd.2]
    have hd : decide (k = 0) = false := by simp [hk]
    rw [hd]
    cases up <;> simp [bumpIf]
  · rw [if_neg h0]
    obtain ⟨cu, cd⟩ := CountEvent_counts
      (if newFlow = true then { fd with NetworkFlow := nf } else fd) (ecnEvent dscp) up k
    rw [cu, cd, hfd.1, hfd.2]
    by_cases hke : k = ecnEvent dscp
    · cases up <;> simp [bumpIf, hke]
    · cases up <;> simp [bumpIf, hke]

/-- ECN bits of a mask built from the flag bits and the events of two codepoints. -/
theorem hasType_two_views (tcp : TCP) (a b : Nat) :
    ∀ et ∈ [EventTypeECT, EventTypeSCE, EventTypeCE],
      (hasType ((flagMask tcp ||| ecnEvent a) ||| ecnEvent b) et = true ↔
        et = ecnEvent a ∨ et = ecnEvent b) := by
  unfold flagMask
  rcases ecnEvent_cases a with h | h | h | h <;>
    rcases ecnEvent_cases b with h' | h' | h' | h' <;> rw [h, h'] <;>
    cases tcp.CWR <;> cases tcp.ECE <;> cases tcp.NS <;> decide

/-- C10 (as amended): for a non-SYN packet exposing at most one of the IPv4
and IPv6 views, the event bitmask built by `AddPacket` holds at most one of the
ECT, SCE and CE bits, and none of them when the packet has no IP view; for a
packet exposing both views the codepoint of each view is classified separately
and both events are added: the bitmask is the flag bits together with the
event of the IPv4 codepoint and the event of the IPv6 codepoint, it holds an
ECN bit exactly when one of the two codepoints maps to it, and the counters of
the packet's direction are incremented once per set flag, once for the event of
the IPv4 view and once for the event of the IPv6 view. -/
theorem classify_ecn_at_most_one (fd : FlowData) (gp : GoPacket) (tcp : TCP)
    (up newFlow : Bool) (hsyn : tcp.SYN = false) :
    ((gp.ip4 = none ∨ gp.ip6 = none) →
      ecnBits (fd.classify gp tcp up newFlow).2.EventType ≤ 1) ∧
    (gp.ip4 = none → gp.ip6 = none →
      ecnBits (fd.classify gp tcp up newFlow).2.EventType = 0) ∧
    ∀ (ip4 : IPv4) (ip6 : IPv6), gp.ip4 = some ip4 → gp.ip6 = some ip6 →
      (fd.classify gp tcp up newFlow).2.EventType =
        ((flagMask tcp ||| ecnEvent ip4.TOS) ||| ecnEvent ip6.TrafficClass) ∧
      (∀ et ∈ [EventTypeECT, EventTypeSCE, EventTypeCE],
        (hasType (fd.classify gp tcp up newFlow).2.EventType et = true ↔
          et = ecnEvent ip4.TOS ∨ et = ecnEvent ip6.TrafficClass)) ∧
      ∀ et ∈ allEventTypes,
        (fd.classify gp tcp up newFlow).1.UpCounts et =
          (if up = true then
            bumpIf (decide (et = ecnEvent ip6.TrafficClass))
              (bumpIf (decide (et = ecnEvent ip4.TOS))
                (bumpIf (hasType (flagMask tcp) et) (fd.UpCounts et)))
           else fd.UpCounts et) ∧
        (fd.classify gp tcp up newFlow).1.DownCounts et =
          (if up = false then
            bumpIf (decide (et = ecnEvent ip6.TrafficClass))
              (bumpIf (decide (et = ecnEvent ip4.TOS))
                (bumpIf (hasType (flagMask tcp) et) (fd.DownCounts et)))
           else fd.DownCounts et) := by
  have hmask := classify_mask fd gp tcp up newFlow hsyn
  refine ⟨?_, ?_, ?_⟩
  · intro hone
    rw [hmask]
    cases h4 : gp.ip4 with
    | none =>
      cases h6 : gp.ip6 with
      | none =>
        simp only [Nat.or_zero]
        rw [ecnBits_flags_zero]
        exact Nat.zero_le _
      | some ip6 =>
        simp only [Nat.or_zero]
        exact ecnBits_flags_one tcp _
    | some ip4 =>
      cases h6 : gp.ip6 with
      | none =>
        simp only [Nat.or_zero]
        exact ecnBits_flags_one tcp _
      | some ip6 =>
        rw [h4, h6] at hone
        rcases hone with h | h <;> cases h
  · intro h4 h6
    rw [hmask, h4, h6]
    simp only [Nat.or_zero]
    exact ecnBits_flags_zero tcp
  · intro ip4 ip6 h4 h6
    have hm : (fd.classify gp tcp up newFlow).2.EventType =
        ((flagMask tcp ||| ecnEvent ip4.TOS) ||| ecnEvent ip6.TrafficClass) := by
      rw [hmask, h4, h6]
    refine ⟨hm, ?_, ?_⟩
    · rw [hm]
      exact hasType_two_views tcp ip4.TOS ip6.TrafficClass
    · intro et het
      rw [allEventTypes_eq] at het
      have hk : et ≠ 0 := ne_zero_of_etValues het
      obtain ⟨fu, fdn⟩ := countsTrack_addFlagEvents fd gp.Timestamp gp.Length tcp up et het
      have hflags : (fd.addFlagEvents (NewPacket gp.Timestamp gp.Length) tcp up).2.EventType
          = flagMask tcp := by
        rw [addFlagEvents_snd]
        rfl
      rw [hflags] at fu fdn
      have hcl : (fd.classify gp tcp up newFlow).1 =
          (((fd.addFlagEvents (NewPacket gp.Timestamp gp.Length) tcp up).1.addIPEvent
              (fd.addFlagEvents (NewPacket gp.Timestamp gp.Length) tcp up).2 up
              ip4.NetworkFlow newFlow ip4.TOS).1.addIPEvent
            ((fd.addFlagEvents (NewPacket gp.Timestamp gp.Length) tcp up).1.addIPEvent
              (fd.addFlagEvents (NewPacket gp.Timestamp gp.Length) tcp up).2 up
              ip4.NetworkFlow newFlow ip4.TOS).2 up
            ip6.NetworkFlow newFlow ip6.TrafficClass).1 := by
        unfold FlowData.classify
        simp only [hsyn, Bool.not_false, if_true, h4, h6]
      rw [hcl, (addIPEvent_counts _ _ up ip6.NetworkFlow newFlow ip6.TrafficClass hk).1,
        (addIPEvent_counts _ _ up ip6.NetworkFlow newFlow ip6.TrafficClass hk).2,
        (addIPEvent_counts _ _ up ip4.NetworkFlow newFlow ip4.TOS hk).1,
        (addIPEvent_counts _ _ up ip4.NetworkFlow newFlow ip4.TOS hk).2, fu, fdn]
      cases up <;> simp [bumpIf]

/-- C10 at a non-SYN packet with an IPv6 view only (codepoint ECT), whose
bitmask holds one ECN bit, and at a non-SYN packet with an IPv4 view of
codepoint SCE and an IPv6 view of codepoint CE, whose bitmask holds the events
of both views. -/
theorem classify_ecn_at_most_one_witness :
    tcpCEB.SYN = false ∧ (pktOneView.ip4 = none ∨ pktOneView.ip6 = none) ∧
    ecnBits ((NewFlowData tcpCEB.TransportFlow).classify pktOneView tcpCEB true
      true).2.EventType ≤ 1 ∧
    ((NewFlowData tcpCEB.TransportFlow).classify pktOneView tcpCEB true true).2.EventType
      = EventTypeECT ∧
    ((NewFlowData tcpCEB.TransportFlow).classify pktBothViews tcpCEB true true).2.EventType
      = ((flagMask tcpCEB ||| ecnEvent 1) ||| ecnEvent 3) ∧
    ecnEvent 1 = EventTypeSCE ∧ ecnEvent 3 = EventTypeCE :=
  ⟨rfl, Or.inl rfl,
    (classify_ecn_at_most_one (NewFlowData tcpCEB.TransportFlow) pktOneView tcpCEB true true
      rfl).1 (Or.inl rfl),
    by decide,
    ((classify_ecn_at_most_one (NewFlowData tcpCEB.TransportFlow) pktBothViews tcpCEB true
      true rfl).2.2 _ _ rfl rfl).1,
    by decide, by decide⟩

/-- C10 as stated fails for a packet exposing both views: with IPv4 codepoint
SCE and IPv6 codepoint CE the bitmask built by `AddPacket` holds both the SCE
and the CE bit, and both counters are incremented. -/
theorem classify_ecn_both_views :
    pktBothViews.tcp = some tcpCEB ∧ tcpCEB.SYN = false ∧
    pktBothViews.ip4.isSome = true ∧ pktBothViews.ip6.isSome = true ∧
    ((NewFlowData tcpCEB.TransportFlow).classify pktBothViews tcpCEB true true).2.EventType
      = EventTypeSCE ||| EventTypeCE ∧
    ¬ ecnBits ((NewFlowData tcpCEB.TransportFlow).classify pktBothViews tcpCEB true
      true).2.EventType ≤ 1 ∧
    ((NewFlowData tcpCEB.TransportFlow).AddPacket pktBothViews tcpCEB true true).UpCounts
      EventTypeSCE = 1 ∧
    ((NewFlowData tcpCEB.TransportFlow).AddPacket pktBothViews tcpCEB true true).UpCounts
      EventTypeCE = 1 := by
  refine ⟨rfl, rfl, rfl, rfl, ?_, ?_, ?_, ?_⟩ <;> decide

theorem typeCount_append_singleton (ps : List Packet) (q : Packet) (et : EventType) :
    typeCount (ps ++ [q]) et = typeCount ps et + (if hasType q.EventType et = true then 1 else 0) := by
  unfold typeCount
  rw [List.countP_append, List.countP_singleton]

theorem AddPacket_counts (fd : FlowData) (gp : GoPacket) (tcp : TCP) (up newFlow : Bool) :
    (fd.AddPacket gp tcp up newFlow).UpCounts = (fd.classify gp tcp up newFlow).1.UpCounts ∧
    (fd.AddPacket gp tcp up newFlow).DownCounts = (fd.classify gp tcp up newFlow).1.DownCounts := by
  unfold FlowData.AddPacket
  cases up <;> exact ⟨rfl, rfl⟩

theorem countsMatch_AddPacket {fd : FlowData} (h : CountsMatch fd) (gp : GoPacket) (tcp : TCP)
    (up newFlow : Bool) (hone : gp.ip4 = none ∨ gp.ip6 = none) :
    CountsMatch (fd.AddPacket gp tcp up newFlow) := by
  intro et het
  obtain ⟨hu, hd⟩ := h et het
  obtain ⟨tu, td⟩ := countsTrack_classify fd gp tcp up newFlow hone et het
  obtain ⟨cu, cd⟩ := AddPacket_counts fd gp tcp up newFlow
  rw [cu, cd, tu, td, hu, hd]
  have hmod : ∀ n : Nat, (n % uintMod + 1) % uintMod = (n + 1) % uintMod := by
    intro n
    unfold uintMod
    omega
  cases up
  · rw [(AddPacket_down fd gp tcp newFlow).1, (AddPacket_down fd gp tcp newFlow).2,
      typeCount_append_singleton]
    by_cases hq : hasType (fd.classify gp tcp false newFlow).2.EventType et = true
    · simp [hq, hmod]
    · simp [hq]
  · rw [(AddPacket_up fd gp tcp newFlow).1, (AddPacket_up fd gp tcp newFlow).2,
      typeCount_append_singleton]
    by_cases hq : hasType (fd.classify gp tcp true newFlow).2.EventType et = true
    · simp [hq, hmod]
    · simp [hq]

theorem countsMatch_admitAll (calls : List (GoPacket × TCP × Bool × Bool)) (fd : FlowData)
    (h : CountsMatch fd) (hone : ∀ c ∈ calls, c.1.ip4 = none ∨ c.1.ip6 = none) :
    CountsMatch (admitAll fd calls) := by
  unfold admitAll
  induction calls generalizing fd with
  | nil => exact h
  | cons c rest ih =>
    simp only [List.foldl_cons]
    apply ih
    · exact countsMatch_AddPacket h _ _ _ _ (hone c (List.mem_cons_self c rest))
    · intro c' hc'
      exact hone c' (List.mem_cons_of_mem c hc')

theorem length_AddPacket (fd : FlowData) (gp : GoPacket) (tcp : TCP) (up newFlow : Bool) :
    (fd.AddPacket gp tcp up newFlow).UpPackets.length
        + (fd.AddPacket gp tcp up newFlow).DownPackets.length
      = fd.UpPackets.length + fd.DownPackets.length + 1 := by
  cases up
  · rw [(AddPacket_down fd gp tcp newFlow).1, (AddPacket_down fd gp tcp newFlow).2]
    simp
    omega
  · rw [(AddPacket_up fd gp tcp newFlow).1, (AddPacket_up fd gp tcp newFlow).2]
    simp
    omega

theorem length_admitAll (calls : List (GoPacket × TCP × Bool × Bool)) (fd : FlowData) :
    (admitAll fd calls).UpPackets.length + (admitAll fd calls).DownPackets.length
      = fd.UpPackets.length + fd.DownPackets.length + calls.length := by
  unfold admitAll
  induction calls generalizing fd with
  | nil => rfl
  | cons c rest ih =>
    simp only [List.foldl_cons, List.length_cons]
    rw [ih, length_AddPacket]
    omega

theorem countsMatch_NewFlowData (tf : Flow) : CountsMatch (NewFlowData tf) := by
  intro et _
  exact ⟨rfl, rfl⟩

/-! ## Claim on the directional counters -/

/-- C12 (as amended): after any finite sequence of packets admitted to a new
Flow Record through `AddPacket`, each of them exposing at most one of the IPv4
and IPv6 views, for each direction and each of the six event types the counter
(`UpCounts` / `DownCounts`) equals the number of packet records in that
direction's sequence whose event bitmask includes that type. -/
theorem admitAll_counts (tf : Flow) (calls : List (GoPacket × TCP × Bool × Bool))
    (et : EventType) (hone : ∀ c ∈ calls, c.1.ip4 = none ∨ c.1.ip6 = none)
    (hlen : calls.length < uintMod) (het : et ∈ allEventTypes) :
    (admitAll (NewFlowData tf) calls).UpCounts et
      = typeCount (admitAll (NewFlowData tf) calls).UpPackets et ∧
    (admitAll (NewFlowData tf) calls).DownCounts et
      = typeCount (admitAll (NewFlowData tf) calls).DownPackets et := by
  rw [allEventTypes_eq] at het
  obtain ⟨hu, hd⟩ := countsMatch_admitAll calls _ (countsMatch_NewFlowData tf) hone et het
  have hl := length_admitAll calls (NewFlowData tf)
  have h0 : (NewFlowData tf).UpPackets.length + (NewFlowData tf).DownPackets.length = 0 := rfl
  have c1 : typeCount (admitAll (NewFlowData tf) calls).UpPackets et
      ≤ (admitAll (NewFlowData tf) calls).UpPackets.length := List.countP_le_length _
  have c2 : typeCount (admitAll (NewFlowData tf) calls).DownPackets et
      ≤ (admitAll (NewFlowData tf) calls).DownPackets.length := List.countP_le_length _
  rw [hu, hd]
  constructor
  · apply Nat.mod_eq_of_lt
    omega
  · apply Nat.mod_eq_of_lt
    omega

/-- C12 at the two-packet scenario: A (SYN) admitted upstream, then B carrying
CE admitted downstream; type CE. -/
theorem admitAll_counts_witness :
    (∀ c ∈ [(pktSynA, tcpSynA, true, true), (pktCEB, tcpCEB, false, false)],
      c.1.ip4 = none ∨ c.1.ip6 = none) ∧
    EventTypeCE ∈ allEventTypes ∧
    (admitAll (NewFlowData tcpSynA.TransportFlow)
        [(pktSynA, tcpSynA, true, true), (pktCEB, tcpCEB, false, false)]).UpCounts EventTypeCE
      = typeCount (admitAll (NewFlowData tcpSynA.TransportFlow)
        [(pktSynA, tcpSynA, true, true), (pktCEB, tcpCEB, false, false)]).UpPackets EventTypeCE ∧
    (admitAll (NewFlowData tcpSynA.TransportFlow)
        [(pktSynA, tcpSynA, true, true), (pktCEB, tcpCEB, false, false)]).DownCounts EventTypeCE
      = typeCount (admitAll (NewFlowData tcpSynA.TransportFlow)
        [(pktSynA, tcpSynA, true, true), (pktCEB, tcpCEB, false, false)]).DownPackets
          EventTypeCE ∧
    (admitAll (NewFlowData tcpSynA.TransportFlow)
        [(pktSynA, tcpSynA, true, true), (pktCEB, tcpCEB, false, false)]).DownCounts EventTypeCE
      = 1 := by
  have hone : ∀ c ∈ [(pktSynA, tcpSynA, true, true), (pktCEB, tcpCEB, false, false)],
      c.1.ip4 = none ∨ c.1.ip6 = none := by
    intro c hc
    simp only [List.mem_cons, List.mem_singleton, List.not_mem_nil, or_false] at hc
    rcases hc with rfl | rfl <;> exact Or.inr rfl
  have h := admitAll_counts tcpSynA.TransportFlow
    [(pktSynA, tcpSynA, true, true), (pktCEB, tcpCEB, false, false)] EventTypeCE hone
    (by decide) (by decide)
  exact ⟨hone, by decide, h.1, h.2, by decide⟩

/-- C12 as stated fails for a packet exposing both IP views with the same
codepoint: `addIPEvent` runs once per view, so the CE counter is incremented
twice while the single packet record holds the CE bit once. -/
theorem admitAll_counts_both_views :
    (admitAll (NewFlowData tcpCEB.TransportFlow) [(pktBothCE, tcpCEB, true, true)]).UpCounts
        EventTypeCE = 2 ∧
    typeCount (admitAll (NewFlowData tcpCEB.TransportFlow)
        [(pktBothCE, tcpCEB, true, true)]).UpPackets EventTypeCE = 1 ∧
    (admitAll (NewFlowData tcpCEB.TransportFlow) [(pktBothCE, tcpCEB, true, true)]).UpCounts
        EventTypeCE
      ≠ typeCount (admitAll (NewFlowData tcpCEB.TransportFlow)
        [(pktBothCE, tcpCEB, true, true)]).UpPackets EventTypeCE := by
  refine ⟨by decide, by decide, by decide⟩

/-! ## The network-flow identity -/

theorem CountEvent_networkFlow (fd : FlowData) (et : EventType) (up : Bool) :
    (fd.CountEvent et up).NetworkFlow = fd.NetworkFlow := by
  unfold FlowData.CountEvent
  split <;> rfl

theorem addIPEvent_networkFlow (fd : FlowData) (p : Packet) (up : Bool) (nf : Flow)
    (newFlow : Bool) (dscp : Nat) :
    (fd.addIPEvent p up nf newFlow dscp).1.NetworkFlow =
      if newFlow = true then nf else fd.NetworkFlow := by
  unfold FlowData.addIPEvent
  simp only
  have h : (if newFlow = true then { fd with NetworkFlow := nf } else fd).NetworkFlow
      = if newFlow = true then nf else fd.NetworkFlow := by
    cases newFlow <;> rfl
  split
  · exact h
  · split
    · exact (CountEvent_networkFlow _ _ _).trans h
    · split
      · exact (CountEvent_networkFlow _ _ _).trans h
      · split
        · exact (CountEvent_networkFlow _ _ _).trans h
        · exact h

theorem addFlagEvents_networkFlow (fd : FlowData) (p : Packet) (tcp : TCP) (up : Bool) :
    (fd.addFlagEvents p tcp up).1.NetworkFlow = fd.NetworkFlow := by
  unfold FlowData.addFlagEvents
  cases tcp.CWR <;> cases tcp.ECE <;> cases tcp.NS <;> simp [CountEvent_networkFlow]

/-- Network-flow identity after the classification part of `AddPacket`. -/
theorem classify_networkFlow (fd : FlowData) (gp : GoPacket) (tcp : TCP) (up newFlow : Bool) :
    (fd.classify gp tcp up newFlow).1.NetworkFlow =
      if newFlow = true ∧ tcp.SYN = false ∧ (gp.ip4.isSome = true ∨ gp.ip6.isSome = true)
      then latchedFlow gp else fd.NetworkFlow := by
  cases hsyn : tcp.SYN with
  | true =>
    rw [classify_syn fd gp tcp up newFlow hsyn]
    simp
  | false =>
    unfold FlowData.classify latchedFlow
    simp only [hsyn, Bool.not_false, if_true]
    cases h4 : gp.ip4 with
    | none =>
      cases h6 : gp.ip6 with
      | none => simp [addFlagEvents_networkFlow]
      | some ip6 =>
        simp only [addIPEvent_networkFlow, addFlagEvents_networkFlow]
        cases newFlow <;> simp
    | some ip4 =>
      cases h6 : gp.ip6 with
      | none =>
        simp only [addIPEvent_networkFlow, addFlagEvents_networkFlow]
        cases newFlow <;> simp
      | some ip6 =>
        simp only [addIPEvent_networkFlow, addFlagEvents_networkFlow]
        cases newFlow <;> simp

theorem AddPacket_networkFlow (fd : FlowData) (gp : GoPacket) (tcp : TCP) (up newFlow : Bool) :
    (fd.AddPacket gp tcp up newFlow).NetworkFlow =
      if newFlow = true ∧ tcp.SYN = false ∧ (gp.ip4.isSome = true ∨ gp.ip6.isSome = true)
      then latchedFlow gp else fd.NetworkFlow := by
  rw [← classify_networkFlow fd gp tcp up newFlow]
  unfold FlowData.AddPacket
  cases up <;> rfl

/-- A step of `parse` never changes the network-flow identity of a record
that already exists. -/
theorem networkFlow_parseStep {d : FlowTable} (p : GoPacket) {k : Flow} {fd : FlowData}
    (hk : tableGet d k = some fd) :
    ∃ fd', tableGet (parseStep d p) k = some fd' ∧ fd'.NetworkFlow = fd.NetworkFlow := by
  cases hp : p.tcp with
  | none =>
    unfold parseStep
    rw [hp]
    exact ⟨fd, hk, rfl⟩
  | some tcp =>
    cases hres : resolve d tcp.TransportFlow with
    | none =>
      rw [parseStep_of_resolve_none hp hres, tableGet_tablePut]
      have hne : ¬ tcp.TransportFlow = k := by
        intro h
        rw [← h, (resolve_eq_none hres).1] at hk
        cases hk
      rw [if_neg hne]
      exact ⟨fd, hk, rfl⟩
    | some kd =>
      obtain ⟨k0, up⟩ := kd
      obtain ⟨fd0, hfd0, hstep⟩ := parseStep_of_resolve_some hp hres
      rw [hstep, tableGet_tablePut]
      by_cases h : k0 = k
      · subst h
        rw [hk] at hfd0
        cases hfd0
        rw [if_pos rfl]
        refine ⟨_, rfl, ?_⟩
        rw [AddPacket_networkFlow]
        simp
      · rw [if_neg h]
        exact ⟨fd, hk, rfl⟩

theorem networkFlow_foldl_parseStep (packets : List GoPacket) (d : FlowTable) {k : Flow}
    {fd : FlowData} (hk : tableGet d k = some fd) :
    ∃ fd', tableGet (packets.foldl parseStep d) k = some fd' ∧
      fd'.NetworkFlow = fd.NetworkFlow := by
  induction packets generalizing d fd with
  | nil => exact ⟨fd, hk, rfl⟩
  | cons p rest ih =>
    obtain ⟨fd1, h1, e1⟩ := networkFlow_parseStep p hk
    obtain ⟨fd2, h2, e2⟩ := ih (parseStep d p) h1
    exact ⟨fd2, h2, e2.trans e1⟩

/-- The network-flow identity of a Flow Record is written only while the
packet that creates the record is admitted and is never changed by a later
packet of the flow; when the creating packet is a non-SYN segment carrying an
IPv4 or IPv6 layer, the identity is that packet's IP source/destination
addresses (those of the IPv6 layer when it exposes both). -/
theorem parse_networkFlow_latch (before after : List GoPacket) (first : GoPacket)
    (tcp1 : TCP) (h1 : first.tcp = some tcp1)
    (hfirst : ∀ q ∈ before, ∀ tcp, q.tcp = some tcp →
      tcp.TransportFlow ≠ tcp1.TransportFlow ∧
      tcp.TransportFlow ≠ tcp1.TransportFlow.Reverse) :
    ∃ fd, tableGet (parse (before ++ first :: after)) tcp1.TransportFlow = some fd ∧
      fd.NetworkFlow =
        ((NewFlowData tcp1.TransportFlow).AddPacket first tcp1 true true).NetworkFlow ∧
      (tcp1.SYN = false → (first.ip4.isSome = true ∨ first.ip6.isSome = true) →
        fd.NetworkFlow = latchedFlow first) := by
  have hnew := resolve_none_of_unseen before tcp1.TransportFlow hfirst
  have hget1 : tableGet (parseStep (parse before) first) tcp1.TransportFlow =
      some ((NewFlowData tcp1.TransportFlow).AddPacket first tcp1 true true) := by
    rw [parseStep_of_resolve_none h1 hnew, tableGet_tablePut, if_pos rfl]
  have hsplit : parse (before ++ first :: after) =
      after.foldl parseStep (parseStep (parse before) first) := by
    unfold parse
    rw [List.foldl_append, List.foldl_cons]
  obtain ⟨fd, hfd, hnf⟩ := networkFlow_foldl_parseStep after _ hget1
  refine ⟨fd, by rw [hsplit]; exact hfd, hnf, ?_⟩
  intro hsyn hip
  rw [hnf, AddPacket_networkFlow, if_pos ⟨rfl, hsyn, hip⟩]

/-- A flow opened by a non-SYN segment with addresses 1 and 2 and continued by
a packet in the reverse direction: the identity stays that of the first
packet. -/
theorem parse_networkFlow_latch_witness :
    pktPlainA.tcp = some tcpPlainA ∧
    (∀ q ∈ ([] : List GoPacket), ∀ tcp, q.tcp = some tcp →
      tcp.TransportFlow ≠ tcpPlainA.TransportFlow ∧
      tcp.TransportFlow ≠ tcpPlainA.TransportFlow.Reverse) ∧
    (∃ fd, tableGet (parse [pktPlainA, pktCEB]) tcpPlainA.TransportFlow = some fd ∧
      fd.NetworkFlow =
        ((NewFlowData tcpPlainA.TransportFlow).AddPacket pktPlainA tcpPlainA true
          true).NetworkFlow ∧
      (tcpPlainA.SYN = false →
        (pktPlainA.ip4.isSome = true ∨ pktPlainA.ip6.isSome = true) →
        fd.NetworkFlow = latchedFlow pktPlainA)) ∧
    latchedFlow pktPlainA = { typ := EndpointIPv4, src := 1, dst := 2 } :=
  ⟨rfl, fun q hq => absurd hq (List.not_mem_nil q),
    parse_networkFlow_latch [] [pktCEB] pktPlainA tcpPlainA rfl
      (fun q hq => absurd hq (List.not_mem_nil q)),
    by decide⟩

/-- C17: the code does not latch the network-flow identity of a flow whose
first packet is a SYN segment. On the capture of a SYN segment from port 1000
to port 80 carrying an IPv4 layer with addresses 1 and 2, followed by a
non-SYN segment of the reverse direction carrying an IPv4 layer, `parse`
leaves the single Flow Record with the zero identity, where the claim gives
the addresses 1 and 2 of the earliest packet carrying an IP layer; when the
same flow is opened by a non-SYN segment the record does get these
addresses. -/
theorem parse_networkFlow_not_latched :
    pktSynA.tcp = some tcpSynA ∧ tcpSynA.SYN = true ∧
    pktSynA.ip4.map IPv4.NetworkFlow = some { typ := EndpointIPv4, src := 1, dst := 2 } ∧
    pktCEB.tcp = some tcpCEB ∧ tcpCEB.SYN = false ∧
    tcpCEB.TransportFlow = tcpSynA.TransportFlow.Reverse ∧
    pktCEB.ip4.map IPv4.NetworkFlow = some { typ := EndpointIPv4, src := 2, dst := 1 } ∧
    (parse [pktSynA, pktCEB]).map (fun kv => (kv.1, kv.2.NetworkFlow)) =
      [(tcpSynA.TransportFlow, Flow.zero)] ∧
    (parse [pktPlainA, pktCEB]).map (fun kv => (kv.1, kv.2.NetworkFlow)) =
      [(tcpSynA.TransportFlow, { typ := EndpointIPv4, src := 1, dst := 2 })] := by
  refine ⟨rfl, rfl, by decide, rfl, rfl, by decide, by decide, by decide, by decide⟩

/-! ## Frame, bounds and accumulation of the smoother -/

/-- C18: `processPackets` modifies only the two sliding-window fields: the
sequence keeps its length and order, and every packet keeps its capture
timestamp, byte length and event bitmask. -/
theorem processPackets_frame (ps : List Packet) (w : Int) :
    (processPackets ps w).length = ps.length ∧
    (processPackets ps w).map (fun p => (p.Timestamp, p.Length, p.EventType))
      = ps.map (fun p => (p.Timestamp, p.Length, p.EventType)) ∧
    ∀ (i : Nat) (p : Packet), ps[i]? = some p →
      ∃ q : Packet, (processPackets ps w)[i]? = some q ∧
        q.Timestamp = p.Timestamp ∧ q.Length = p.Length ∧ q.EventType = p.EventType := by
  refine ⟨length_processPackets ps w, ?_, ?_⟩
  · apply List.ext_getElem?
    intro i
    rw [List.getElem?_map, List.getElem?_map, processPackets_getElem?]
    cases hp : ps[i]? with
    | none => rfl
    | some p =>
      obtain ⟨h1, h2, h3⟩ := smoothOne_frame (evAt ps) (windowIndices i w ps.length) p
      simp [h1, h2, h3]
  · intro i p hp
    rw [processPackets_getElem?, hp]
    exact ⟨_, rfl, smoothOne_frame (evAt ps) (windowIndices i w ps.length) p⟩

/-- Counts and window size of a fresh packet after one run, for any radius. -/
theorem fresh_run (ps : List Packet) (r : Int) (i : Nat) (hi : i < ps.length)
    (hfresh : ps[i].Fresh) (hn : (ps.length : Int) < intHalf) (et : EventType) :
    (smoothOne (evAt ps) (windowIndices i r ps.length) ps[i]).PropWinSize =
      (windowIndices i r ps.length).length ∧
    (smoothOne (evAt ps) (windowIndices i r ps.length) ps[i]).Proportions et =
      (if et ∈ etValues then
        (windowIndices i r ps.length).countP (fun j => decide (evAt ps j &&& et ≠ 0))
       else 0) := by
  have hL := length_windowIndices_le i r ps.length
  have hcnt := List.countP_le_length (fun j => decide (evAt ps j &&& et ≠ 0))
    (l := windowIndices i r ps.length)
  have hsmall : ∀ c : Nat, c ≤ (windowIndices i r ps.length).length → c % uintMod = c := by
    intro c hc
    apply Nat.mod_eq_of_lt
    unfold uintMod
    unfold intHalf at hn
    omega
  have h0 : ps[i].Proportions et = 0 := by rw [hfresh.1]; rfl
  constructor
  · rw [smoothOne_PropWinSize _ _ _ (by rw [hfresh.2]; decide), hfresh.2, Nat.zero_add]
    exact hsmall _ (Nat.le_refl _)
  · rw [smoothOne_Proportions _ _ _ _ (by rw [h0]; decide), h0, Nat.zero_add]
    by_cases het : et ∈ etValues
    · rw [if_pos het, if_pos het]
      exact hsmall _ hcnt
    · rw [if_neg het, if_neg het]

/-- C19: for fresh packets (a slice, so of length below `2^63`) and a radius
of any sign, after `processPackets` the count stored for every event type on
every packet is at most the packet's recorded window size, so every stored
proportion lies between 0 and 1 whenever the window size is not zero. -/
theorem processPackets_count_le_window (ps : List Packet) (r : Int) (i : Nat)
    (et : EventType) (hfresh : ∀ p ∈ ps, p.Fresh) (hn : (ps.length : Int) < intHalf)
    (hi : i < ps.length) :
    ∃ p, (processPackets ps r)[i]? = some p ∧ p.Proportions et ≤ p.PropWinSize ∧
      (p.PropWinSize ≠ 0 → 0 ≤ p.prop et ∧ p.prop et ≤ 1) := by
  have hf : ps[i].Fresh := hfresh _ (List.getElem_mem hi)
  obtain ⟨hw, hc⟩ := fresh_run ps r i hi hf hn et
  have hle : (smoothOne (evAt ps) (windowIndices i r ps.length) ps[i]).Proportions et ≤
      (smoothOne (evAt ps) (windowIndices i r ps.length) ps[i]).PropWinSize := by
    rw [hw, hc]
    split
    · exact List.countP_le_length _
    · exact Nat.zero_le _
  refine ⟨_, processPackets_at ps r i hi, hle, ?_⟩
  intro hne
  unfold Packet.prop
  have hpos : (0 : ℚ) <
      ((smoothOne (evAt ps) (windowIndices i r ps.length) ps[i]).PropWinSize : ℚ) := by
    exact_mod_cast Nat.pos_of_ne_zero hne
  constructor
  · exact div_nonneg (Nat.cast_nonneg _) (le_of_lt hpos)
  · rw [div_le_one hpos]
    exact_mod_cast hle

/-- C19 at `[CE, none, CE, ECE, CE]` with radius 2, index 2, type CE: the
window covers indices 0 to 3, the packet records window size 4 and CE count 2,
and the bound reads `2 ≤ 4`. -/
theorem processPackets_count_le_window_witness :
    (∀ p ∈ seqFive, p.Fresh) ∧ ((seqFive.length : Int) < intHalf) ∧ 2 < seqFive.length ∧
    (∃ p, (processPackets seqFive 2)[2]? = some p ∧
      p.Proportions EventTypeCE ≤ p.PropWinSize ∧
      (p.PropWinSize ≠ 0 → 0 ≤ p.prop EventTypeCE ∧ p.prop EventTypeCE ≤ 1)) ∧
    windowIndices 2 2 seqFive.length = [0, 1, 2, 3] ∧
    ∃ q, (processPackets seqFive 2)[2]? = some q ∧
      q.PropWinSize = 4 ∧ q.Proportions EventTypeCE = 2 :=
  ⟨fresh_seqFive, by decide, by decide,
    processPackets_count_le_window seqFive 2 2 EventTypeCE fresh_seqFive (by decide)
      (by decide),
    by decide,
    _, processPackets_at seqFive 2 2 (by decide), by decide, by decide⟩

theorem processPackets_twice_at (ps : List Packet) (r : Int) (i : Nat) (hi : i < ps.length) :
    (processPackets (processPackets ps r) r)[i]? =
      some (smoothOne (evAt ps) (windowIndices i r ps.length)
        (smoothOne (evAt ps) (windowIndices i r ps.length) ps[i])) := by
  rw [processPackets_getElem?, processPackets_at ps r i hi, evAt_processPackets,
    length_processPackets]
  rfl

/-- A second run on fresh packets doubles the window size and every count. -/
theorem fresh_run_twice (ps : List Packet) (r : Int) (i : Nat) (hi : i < ps.length)
    (hfresh : ps[i].Fresh) (hn : (ps.length : Int) < intHalf) (et : EventType) :
    (smoothOne (evAt ps) (windowIndices i r ps.length)
        (smoothOne (evAt ps) (windowIndices i r ps.length) ps[i])).PropWinSize =
      2 * (smoothOne (evAt ps) (windowIndices i r ps.length) ps[i]).PropWinSize ∧
    (smoothOne (evAt ps) (windowIndices i r ps.length)
        (smoothOne (evAt ps) (windowIndices i r ps.length) ps[i])).Proportions et =
      2 * (smoothOne (evAt ps) (windowIndices i r ps.length) ps[i]).Proportions et := by
  obtain ⟨hw, hc⟩ := fresh_run ps r i hi hfresh hn et
  have hL := length_windowIndices_le i r ps.length
  have hcnt := List.countP_le_length (fun j => decide (evAt ps j &&& et ≠ 0))
    (l := windowIndices i r ps.length)
  have hdouble : ∀ c : Nat, c ≤ (windowIndices i r ps.length).length →
      c < uintMod ∧ (c + c) % uintMod = 2 * c := by
    intro c hc
    unfold uintMod
    unfold intHalf at hn
    omega
  constructor
  · rw [smoothOne_PropWinSize _ _ _ (by rw [hw]; exact (hdouble _ (Nat.le_refl _)).1), hw]
    exact (hdouble _ (Nat.le_refl _)).2
  · by_cases het : et ∈ etValues
    · rw [if_pos het] at hc
      rw [smoothOne_Proportions _ _ _ _ (by rw [hc]; exact (hdouble _ hcnt).1), if_pos het, hc]
      exact (hdouble _ hcnt).2
    · rw [if_neg het] at hc
      rw [smoothOne_Proportions _ _ _ _ (by rw [hc]; decide), if_neg het, hc]

/-- One run on packets that already hold window data, when `i + r` does not
overflow: the counts and the window size are added to, modulo `2^64`. -/
theorem run_accumulates (ps : List Packet) (r : Int) (i : Nat) (hi : i < ps.length)
    (hr : 0 ≤ r) (hov : (i : Int) + r < intHalf) (et : EventType) (het : et ∈ etValues)
    (hc : ps[i].Proportions et < uintMod) (hw : ps[i].PropWinSize < uintMod) :
    (smoothOne (evAt ps) (windowIndices i r ps.length) ps[i]).Proportions et =
      (ps[i].Proportions et
        + occurrences ps (max ((i : Int) - r) 0) (min ((i : Int) + r) ps.length) et)
        % uintMod ∧
    (smoothOne (evAt ps) (windowIndices i r ps.length) ps[i]).PropWinSize =
      (ps[i].PropWinSize
        + (min ((i : Int) + r) ps.length - max ((i : Int) - r) 0).toNat) % uintMod := by
  constructor
  · rw [smoothOne_Proportions _ _ _ _ hc, if_pos het, windowIndices_eq _ hr hov]
    have hle : (max ((i : Int) - r) 0).toNat +
        (min ((i : Int) + r) ps.length - max ((i : Int) - r) 0).toNat ≤ ps.length := by
      omega
    rw [countP_range'_eq_occurrences ps _ _ et hle]
    have hlo : (((max ((i : Int) - r) 0).toNat : Nat) : Int) = max ((i : Int) - r) 0 := by
      omega
    have hhi : (((max ((i : Int) - r) 0).toNat : Nat) : Int) +
        (((min ((i : Int) + r) ps.length - max ((i : Int) - r) 0).toNat : Nat) : Int) =
        min ((i : Int) + r) ps.length := by
      omega
    rw [hhi, hlo]
  · rw [smoothOne_PropWinSize _ _ _ hw, windowIndices_eq _ hr hov, List.length_range']

/-- C20 (as amended): `processPackets` accumulates into the sliding-window
fields. For packets that already hold counts `c(i, et)` and window size `w(i)`
(values of a `uint`, below `2^64`), a radius `r ≥ 0` and an index `i` for
which `i + r` fits in a Go `int`, after the call packet `i` holds, for each of
the six event types, `c(i, et)` plus the number of packets of
`[max(i-r,0), min(i+r,n))` carrying `et`, and `w(i)` plus
`min(i+r,n) - max(i-r,0)`, both modulo `2^64`; and two consecutive runs on
fresh packets store exactly twice the counts and window size of one run. -/
theorem processPackets_accumulates (ps : List Packet) (r : Int) (i : Nat) (et : EventType)
    (hr : 0 ≤ r) (hi : i < ps.length) (hov : (i : Int) + r < intHalf)
    (het : et ∈ allEventTypes)
    (hc : ∀ p ∈ ps, p.Proportions et < uintMod ∧ p.PropWinSize < uintMod) :
    (∃ p0 p, ps[i]? = some p0 ∧ (processPackets ps r)[i]? = some p ∧
      p.Proportions et =
        (p0.Proportions et
          + occurrences ps (max ((i : Int) - r) 0) (min ((i : Int) + r) ps.length) et)
          % uintMod ∧
      p.PropWinSize =
        (p0.PropWinSize
          + (min ((i : Int) + r) ps.length - max ((i : Int) - r) 0).toNat) % uintMod) ∧
    ((∀ p ∈ ps, p.Fresh) → (ps.length : Int) < intHalf →
      ∃ p1 p2, (processPackets ps r)[i]? = some p1 ∧
        (processPackets (processPackets ps r) r)[i]? = some p2 ∧
        p2.Proportions et = 2 * p1.Proportions et ∧
        p2.PropWinSize = 2 * p1.PropWinSize) := by
  rw [allEventTypes_eq] at het
  obtain ⟨hci, hwi⟩ := hc ps[i] (List.getElem_mem hi)
  constructor
  · obtain ⟨h1, h2⟩ := run_accumulates ps r i hi hr hov et het hci hwi
    exact ⟨ps[i], _, List.getElem?_eq_getElem hi, processPackets_at ps r i hi, h1, h2⟩
  · intro hfresh hn
    obtain ⟨h1, h2⟩ := fresh_run_twice ps r i hi (hfresh _ (List.getElem_mem hi)) hn et
    exact ⟨_, _, processPackets_at ps r i hi, processPackets_twice_at ps r i hi, h2, h1⟩

/-- C20 at a packet already holding CE count 1 and window size 1, radius 1. -/
theorem processPackets_accumulates_witness :
    (0 : Int) ≤ 1 ∧ 0 < seqStale.length ∧ (((0 : Nat) : Int) + 1 < intHalf) ∧
    EventTypeCE ∈ allEventTypes ∧
    (∀ p ∈ seqStale, p.Proportions EventTypeCE < uintMod ∧ p.PropWinSize < uintMod) ∧
    (∃ p0 p, seqStale[0]? = some p0 ∧ (processPackets seqStale 1)[0]? = some p ∧
      p.Proportions EventTypeCE =
        (p0.Proportions EventTypeCE
          + occurrences seqStale (max (((0 : Nat) : Int) - 1) 0)
              (min (((0 : Nat) : Int) + 1) seqStale.length) EventTypeCE) % uintMod ∧
      p.PropWinSize =
        (p0.PropWinSize
          + (min (((0 : Nat) : Int) + 1) seqStale.length
              - max (((0 : Nat) : Int) - 1) 0).toNat) % uintMod) := by
  have hc : ∀ p ∈ seqStale,
      p.Proportions EventTypeCE < uintMod ∧ p.PropWinSize < uintMod := by
    intro p hp
    simp only [seqStale, List.mem_singleton] at hp
    rw [hp]
    exact ⟨by decide, by decide⟩
  exact ⟨by decide, by decide, by decide, by decide, hc,
    (processPackets_accumulates seqStale 1 0 EventTypeCE (by decide) (by decide) (by decide)
      (by decide) hc).1⟩

/-- C20 as stated fails in two ways. With two fresh packets and `r = maxInt`,
`i + r` wraps around for `i = 1` and nothing is added to the window size,
while `min(i+r, n) - max(i-r, 0) = 2`. With a packet whose window size is the
largest `uint`, radius 1 adds one and the field wraps around to 0. -/
theorem processPackets_accumulates_wraps :
    (0 ≤ maxInt ∧ maxInt < intHalf ∧
      (processPackets seqCENone maxInt)[1]?.map (fun p => p.PropWinSize) = some 0 ∧
      seqCENone[1]?.map (fun p => p.PropWinSize
          + (min (((1 : Nat) : Int) + maxInt) seqCENone.length
              - max (((1 : Nat) : Int) - maxInt) 0).toNat) = some 2) ∧
    ((processPackets seqFullWindow 1)[0]?.map (fun p => p.PropWinSize) = some 0 ∧
      seqFullWindow[0]?.map (fun p => p.PropWinSize
          + (min (((0 : Nat) : Int) + 1) seqFullWindow.length
              - max (((0 : Nat) : Int) - 1) 0).toNat) = some 18446744073709551616) := by
  refine ⟨⟨by decide, by decide, by decide, by decide⟩, by decide, by decide⟩

/-! ## Structure of the output of `xplotPackets` -/

theorem foldl_flatMap_eq {α β γ : Type} (l : List α) (f : α → List β) (g : γ → β → γ)
    (b : γ) : (l.flatMap f).foldl g b = l.foldl (fun acc a => (f a).foldl g acc) b := by
  induction l generalizing b with
  | nil => rfl
  | cons a rest ih =>
    rw [List.flatMap_cons, List.foldl_append, List.foldl_cons, ih]

/-- The nested loops are one loop over the cells. -/
theorem xplotPackets_eq_cells (up lines : Bool) (packets : List Packet) :
    xplotPackets up packets lines =
      ((cellsOf packets).foldl (plotCell up lines packets) ((0 : EventType), [])).2 := by
  unfold xplotPackets cellsOf
  rw [foldl_flatMap_eq]
  have hbody : (fun (st : EventType × List Line) (ip : Nat × Packet) =>
        etValues.foldl (plotEt up lines packets ip.1 ip.2) st)
      = (fun st ip => (etValues.map (fun et => (ip.1, ip.2, et))).foldl
          (plotCell up lines packets) st) := by
    funext st ip
    rw [List.foldl_map]
    rfl
  rw [hbody]

/-- One iteration appends the block of its cell and updates the mask. -/
theorem plotCell_eq (up lines : Bool) (packets : List Packet) (st : EventType × List Line)
    (c : Nat × Packet × EventType) :
    plotCell up lines packets st c =
      (maskAfter up st.1 c.2.1 c.2.2,
        st.2 ++ blockOf up lines packets st.1 c.1 c.2.1 c.2.2) := by
  obtain ⟨i, p, et⟩ := c
  obtain ⟨mask, out⟩ := st
  unfold plotCell plotEt maskAfter blockOf shows fires labelled connectorLines labelLines
    markerLine connectorLine
  simp only
  by_cases hf : p.EventType &&& et ≠ 0 ∨ (up = true ∧ (Config et).PlotAllUp = true) ∨
      (up = false ∧ (Config et).PlotAllDown = true)
  · have hfb : (decide (p.EventType &&& et ≠ 0) || (up && (Config et).PlotAllUp) ||
        (!up && (Config et).PlotAllDown)) = true := by
      rcases hf with h | ⟨h1, h2⟩ | ⟨h1, h2⟩
      · simp [h]
      · simp [h1, h2]
      · simp [h1, h2]
    rw [if_pos hf, hfb]
    cases hplot : (Config et).Plot
    · simp
    · by_cases hl : (Config et).LabelAll = true ∨ mask &&& et = 0
      · have hlb : ((Config et).LabelAll || decide (mask &&& et = 0)) = true := by
          rcases hl with h | h
          · simp [h]
          · simp [h]
        cases lines
        · simp [hl, hlb]
        · cases hs : scanBack packets et i with
          | none => simp [hl, hlb]
          | some jp => simp [hl, hlb]
      · have hlb : ((Config et).LabelAll || decide (mask &&& et = 0)) = false := by
          have h1 : ¬ (Config et).LabelAll = true := fun h => hl (Or.inl h)
          have h2 : ¬ mask &&& et = 0 := fun h => hl (Or.inr h)
          simp [h1, h2]
        cases lines
        · simp [hl, hlb]
        · cases hs : scanBack packets et i with
          | none => simp [hl, hlb]
          | some jp => simp [hl, hlb]
  · have hfb : (decide (p.EventType &&& et ≠ 0) || (up && (Config et).PlotAllUp) ||
        (!up && (Config et).PlotAllDown)) = false := by
      have h1 : ¬ p.EventType &&& et ≠ 0 := fun h => hf (Or.inl h)
      have h2 : ¬ (up = true ∧ (Config et).PlotAllUp = true) := fun h => hf (Or.inr (Or.inl h))
      have h3 : ¬ (up = false ∧ (Config et).PlotAllDown = true) :=
        fun h => hf (Or.inr (Or.inr h))
      cases up <;> simp_all
    rw [if_neg hf, hfb]
    simp

theorem mem_cellsOf {packets : List Packet} {c : Nat × Packet × EventType}
    (hc : c ∈ cellsOf packets) :
    c.2.2 ∈ etValues ∧ packets[c.1]? = some c.2.1 := by
  unfold cellsOf at hc
  rw [List.mem_flatMap] at hc
  obtain ⟨ip, hip, hmem⟩ := hc
  rw [List.mem_map] at hmem
  obtain ⟨et, het, rfl⟩ := hmem
  obtain ⟨i, p⟩ := ip
  obtain ⟨hlt, hp⟩ := List.mem_enum hip
  refine ⟨het, ?_⟩
  simp only
  rw [List.getElem?_eq_getElem hlt, hp]

/-! ## Facts about the display configuration -/

theorem config_keywords {et : EventType} (het : et ∈ etValues) :
    (Config et).UpSymbol = "rarrow" ∧ (Config et).DownSymbol = "larrow" ∧
    (Config et).TextItem = "ltext" := by
  rw [etValues_eq] at het
  simp only [List.mem_cons, List.mem_singleton, List.not_mem_nil, or_false] at het
  rcases het with rfl | rfl | rfl | rfl | rfl | rfl <;> exact ⟨rfl, rfl, rfl⟩

theorem config_color_inj {et et' : EventType} (het : et ∈ etValues) (het' : et' ∈ etValues) :
    (Config et').Color = (Config et).Color ↔ et' = et := by
  rw [etValues_eq] at het het'
  simp only [List.mem_cons, List.mem_singleton, List.not_mem_nil, or_false] at het het'
  rcases het with rfl | rfl | rfl | rfl | rfl | rfl <;>
    rcases het' with rfl | rfl | rfl | rfl | rfl | rfl <;> decide

theorem config_label_inj {et et' : EventType} (het : et ∈ etValues) (het' : et' ∈ etValues) :
    (Config et').Label = (Config et).Label ↔ et' = et := by
  rw [etValues_eq] at het het'
  simp only [List.mem_cons, List.mem_singleton, List.not_mem_nil, or_false] at het het'
  rcases het with rfl | rfl | rfl | rfl | rfl | rfl <;>
    rcases het' with rfl | rfl | rfl | rfl | rfl | rfl <;> decide

/-- The `Plot` switch is on for every type except ECT. -/
theorem config_plot {et : EventType} (het : et ∈ etValues) :
    (Config et).Plot = true ↔ et ≠ EventTypeECT := by
  rw [etValues_eq] at het
  simp only [List.mem_cons, List.mem_singleton, List.not_mem_nil, or_false] at het
  rcases het with rfl | rfl | rfl | rfl | rfl | rfl <;> decide

/-! ## Markers and connectors of a block -/

theorem isMarker_markerLine (up : Bool) (p : Packet) {et : EventType} (het : et ∈ etValues) :
    isMarker up (markerLine up p et) = true := by
  obtain ⟨h1, h2, _⟩ := config_keywords het
  unfold markerLine isMarker
  rw [h1, h2]
  simp

theorem isMarker_labelLines (up : Bool) (p : Packet) {et : EventType} (het : et ∈ etValues) :
    ∀ l ∈ labelLines p et, isMarker up l = false := by
  obtain ⟨_, _, h3⟩ := config_keywords het
  intro l hl
  unfold labelLines at hl
  simp only [List.mem_cons, List.mem_singleton, List.not_mem_nil, or_false] at hl
  rcases hl with rfl | rfl
  · unfold isMarker
    rw [h3]
    cases up <;> simp
  · rfl

theorem isMarker_connectorLines (up lines : Bool) (packets : List Packet) (i : Nat)
    (p : Packet) (et : EventType) :
    ∀ l ∈ connectorLines lines packets i p et, isMarker up l = false := by
  intro l hl
  unfold connectorLines at hl
  cases lines
  · simp at hl
  · cases hs : scanBack packets et i with
    | none => simp [hs] at hl
    | some jp =>
      simp [hs] at hl
      rw [hl]
      rfl

theorem isConnector_connectorLines (lines : Bool) (packets : List Packet) (i : Nat)
    (p : Packet) (et : EventType) :
    ∀ l ∈ connectorLines lines packets i p et, isConnector l = true := by
  intro l hl
  unfold connectorLines at hl
  cases lines
  · simp at hl
  · cases hs : scanBack packets et i with
    | none => simp [hs] at hl
    | some jp =>
      simp [hs] at hl
      rw [hl]
      rfl

theorem filter_isMarker_blockOf (up lines : Bool) (packets : List Packet) (mask : EventType)
    (i : Nat) (p : Packet) {et : EventType} (het : et ∈ etValues) :
    (blockOf up lines packets mask i p et).filter (isMarker up) =
      if shows up p et = true then [markerLine up p et] else [] := by
  unfold blockOf
  by_cases hs : shows up p et = true
  · rw [if_pos hs, if_pos hs, List.filter_cons_of_pos (isMarker_markerLine up p het)]
    congr 1
    rw [List.filter_eq_nil_iff]
    intro l hl
    rw [List.mem_append] at hl
    rcases hl with hl | hl
    · by_cases hlab : labelled mask et = true
      · rw [if_pos hlab] at hl
        rw [isMarker_labelLines up p het l hl]
        decide
      · rw [if_neg hlab] at hl
        cases hl
    · rw [isMarker_connectorLines up lines packets i p et l hl]
      decide
  · rw [if_neg hs, if_neg hs]
    rfl

theorem filter_markerConnector_blockOf (up lines : Bool) (packets : List Packet)
    (mask : EventType) (i : Nat) (p : Packet) {et : EventType} (het : et ∈ etValues) :
    (blockOf up lines packets mask i p et).filter (fun l => isMarker up l || isConnector l) =
      if shows up p et = true then
        markerLine up p et :: connectorLines lines packets i p et
      else [] := by
  unfold blockOf
  by_cases hs : shows up p et = true
  · rw [if_pos hs, if_pos hs,
      List.filter_cons_of_pos (by rw [isMarker_markerLine up p het]; rfl)]
    congr 1
    rw [List.filter_append]
    have hlab : (if labelled mask et = true then labelLines p et else []).filter
        (fun l => isMarker up l || isConnector l) = [] := by
      rw [List.filter_eq_nil_iff]
      intro l hl
      by_cases hb : labelled mask et = true
      · rw [if_pos hb] at hl
        have h1 := isMarker_labelLines up p het l hl
        have h2 : isConnector l = false := by
          unfold labelLines at hl
          simp only [List.mem_cons, List.mem_singleton, List.not_mem_nil, or_false] at hl
          rcases hl with rfl | rfl <;> rfl
        rw [h1, h2]
        decide
      · rw [if_neg hb] at hl
        cases hl
    have hconn : (connectorLines lines packets i p et).filter
        (fun l => isMarker up l || isConnector l) = connectorLines lines packets i p et := by
      rw [List.filter_eq_self]
      intro l hl
      rw [isConnector_connectorLines lines packets i p et l hl]
      simp
    rw [hlab, hconn]
    rfl
  · rw [if_neg hs, if_neg hs]
    rfl

/-- A class of lines of the output is the concatenation of what each cell
contributes to it, when that contribution does not depend on the mask. -/
theorem filter_foldl_plotCell (up lines : Bool) (packets : List Packet) (q : Line → Bool)
    (g : Nat × Packet × EventType → List Line)
    (hblock : ∀ (mask : EventType) (c : Nat × Packet × EventType), c.2.2 ∈ etValues →
      (blockOf up lines packets mask c.1 c.2.1 c.2.2).filter q = g c)
    (cs : List (Nat × Packet × EventType)) (st : EventType × List Line)
    (hcs : ∀ c ∈ cs, c.2.2 ∈ etValues) :
    (cs.foldl (plotCell up lines packets) st).2.filter q = st.2.filter q ++ cs.flatMap g := by
  induction cs generalizing st with
  | nil => simp
  | cons c rest ih =>
    rw [List.foldl_cons, ih _ (fun c' hc' => hcs c' (List.mem_cons_of_mem c hc')),
      plotCell_eq, List.flatMap_cons]
    simp only
    rw [List.filter_append, hblock st.1 c (hcs c (List.mem_cons_self c rest)),
      List.append_assoc]

theorem flatMap_if_singleton {α β : Type} (l : List α) (c : α → Bool) (f : α → β) :
    l.flatMap (fun a => if c a = true then [f a] else []) = (l.filter c).map f := by
  induction l with
  | nil => rfl
  | cons a rest ih =>
    rw [List.flatMap_cons, ih]
    by_cases h : c a = true
    · rw [if_pos h, List.filter_cons_of_pos h]
      rfl
    · rw [if_neg h, List.filter_cons_of_neg h]
      rfl

theorem flatMap_if_list {α β : Type} (l : List α) (c : α → Bool) (f : α → List β) :
    l.flatMap (fun a => if c a = true then f a else []) = (l.filter c).flatMap f := by
  induction l with
  | nil => rfl
  | cons a rest ih =>
    rw [List.flatMap_cons, ih]
    by_cases h : c a = true
    · rw [if_pos h, List.filter_cons_of_pos h, List.flatMap_cons]
    · rw [if_neg h, List.filter_cons_of_neg h]
      rfl

theorem cells_order_from (n : Nat) (packets : List Packet) :
    ((packets.enumFrom n).flatMap
        (fun ip => etValues.map (fun et => (ip.1, ip.2, et)))).map (fun c => (c.1, c.2.2))
      = (List.range' n packets.length).flatMap
          (fun i => allEventTypes.map (fun et => (i, et))) := by
  induction packets generalizing n with
  | nil => rfl
  | cons p rest ih =>
    rw [List.enumFrom_cons, List.flatMap_cons, List.map_append, ih (n + 1), List.length_cons,
      List.range'_succ, List.flatMap_cons, allEventTypes_eq, List.map_map]
    rfl

/-- The cells are visited in packet order and, within a packet, in the bit
order of the event types. -/
theorem cells_order (packets : List Packet) :
    (cellsOf packets).map (fun c => (c.1, c.2.2))
      = (List.range packets.length).flatMap
          (fun i => allEventTypes.map (fun et => (i, et))) := by
  unfold cellsOf List.enum
  rw [cells_order_from, List.range_eq_range']

theorem shows_iff (up : Bool) (p : Packet) {et : EventType} (het : et ∈ etValues) :
    shows up p et = true ↔
      et ≠ EventTypeECT ∧
        (p.EventType &&& et ≠ 0 ∨ (up = true ∧ (Config et).PlotAllUp = true) ∨
          (up = false ∧ (Config et).PlotAllDown = true)) := by
  unfold shows fires
  rw [Bool.and_eq_true, config_plot het]
  constructor
  · rintro ⟨h1, h2⟩
    refine ⟨h2, ?_⟩
    cases up <;> simp at h1 ⊢ <;> exact h1
  · rintro ⟨h1, h2⟩
    refine ⟨?_, h1⟩
    cases up <;> simp at h2 ⊢ <;> exact h2

/-! ## Claims on the series encoder -/

/-- C15 (as amended): for each direction the marker lines written by
`xplotPackets` are, in packet order and within a packet in event-type bit
order, exactly the marker lines (direction symbol, packet timestamp,
proportion, type colour) of the pairs (packet, event type) for which the type
is configured `Plot=true` (every type but ECT) and either fired on the packet
or is configured to always display on that direction; no marker is written for
any other pair. -/
theorem xplotPackets_markers (up lines : Bool) (packets : List Packet) :
    (xplotPackets up packets lines).filter (isMarker up) =
      ((cellsOf packets).filter (fun c => shows up c.2.1 c.2.2)).map
        (fun c => markerLine up c.2.1 c.2.2) ∧
    (cellsOf packets).map (fun c => (c.1, c.2.2))
      = (List.range packets.length).flatMap
          (fun i => allEventTypes.map (fun et => (i, et))) ∧
    (∀ c ∈ cellsOf packets, packets[c.1]? = some c.2.1 ∧ c.2.2 ∈ allEventTypes) ∧
    ∀ (p : Packet) (et : EventType), et ∈ allEventTypes →
      (shows up p et = true ↔
        et ≠ EventTypeECT ∧
          (p.EventType &&& et ≠ 0 ∨ (up = true ∧ (Config et).PlotAllUp = true) ∨
            (up = false ∧ (Config et).PlotAllDown = true))) := by
  refine ⟨?_, cells_order packets, ?_, ?_⟩
  · rw [xplotPackets_eq_cells,
      filter_foldl_plotCell up lines packets (isMarker up)
        (fun c => if shows up c.2.1 c.2.2 = true then [markerLine up c.2.1 c.2.2] else [])
        (fun mask c hc => filter_isMarker_blockOf up lines packets mask c.1 c.2.1 hc)
        (cellsOf packets) _ (fun c hc => (mem_cellsOf hc).1)]
    rw [flatMap_if_singleton]
    rfl
  · intro c hc
    rw [allEventTypes_eq]
    exact ⟨(mem_cellsOf hc).2, (mem_cellsOf hc).1⟩
  · intro p et het
    rw [allEventTypes_eq] at het
    exact shows_iff up p het

/-- C15 as stated fails for ECT, which is configured `Plot=false`: a
downstream packet on which ECT fired gets no marker line at all. -/
theorem xplotPackets_no_ECT_marker :
    (freshPacket 0 60 EventTypeECT).EventType &&& EventTypeECT ≠ 0 ∧
    xplotPackets false [freshPacket 0 60 EventTypeECT] false = [] ∧
    xplotPackets false [freshPacket 0 60 EventTypeECT] true = [] := by
  refine ⟨by decide, by decide, by decide⟩

/-! ## The backward scan -/

theorem scanBack_none_iff (packets : List Packet) (et : EventType) (i : Nat) :
    scanBack packets et i = none ↔ ∀ k, k < i → carries packets k et = false := by
  induction i with
  | zero =>
    constructor
    · intro _ k hk
      exact absurd hk (Nat.not_lt_zero k)
    · intro _
      rfl
  | succ j ih =>
    unfold scanBack
    cases hp : packets[j]? with
    | none =>
      simp only
      rw [ih]
      constructor
      · intro h k hk
        rcases Nat.lt_succ_iff_lt_or_eq.mp hk with hlt | heq
        · exact h k hlt
        · subst heq
          unfold carries
          rw [hp]
      · intro h k hk
        exact h k (Nat.lt_succ_of_lt hk)
    | some jp =>
      simp only
      by_cases hbit : jp.EventType &&& et ≠ 0
      · rw [if_pos hbit]
        constructor
        · intro h
          cases h
        · intro h
          have hj := h j (Nat.lt_succ_self j)
          unfold carries at hj
          rw [hp] at hj
          simp only [decide_eq_false_iff_not] at hj
          exact absurd hbit hj
      · rw [if_neg hbit, ih]
        constructor
        · intro h k hk
          rcases Nat.lt_succ_iff_lt_or_eq.mp hk with hlt | heq
          · exact h k hlt
          · subst heq
            unfold carries
            rw [hp]
            simp only [decide_eq_false_iff_not]
            exact hbit
        · intro h k hk
          exact h k (Nat.lt_succ_of_lt hk)

theorem scanBack_some_iff (packets : List Packet) (et : EventType) (i j : Nat) (jp : Packet) :
    scanBack packets et i = some (j, jp) ↔
      j < i ∧ packets[j]? = some jp ∧ jp.EventType &&& et ≠ 0 ∧
        ∀ k, j < k → k < i → carries packets k et = false := by
  induction i with
  | zero =>
    constructor
    · intro h
      cases h
    · rintro ⟨h, _⟩
      exact absurd h (Nat.not_lt_zero j)
  | succ m ih =>
    unfold scanBack
    cases hp : packets[m]? with
    | none =>
      simp only
      rw [ih]
      constructor
      · rintro ⟨h1, h2, h3, h4⟩
        refine ⟨Nat.lt_succ_of_lt h1, h2, h3, ?_⟩
        intro k hk1 hk2
        rcases Nat.lt_succ_iff_lt_or_eq.mp hk2 with hlt | heq
        · exact h4 k hk1 hlt
        · subst heq
          unfold carries
          rw [hp]
      · rintro ⟨h1, h2, h3, h4⟩
        have hne : j ≠ m := by
          intro e
          rw [e, hp] at h2
          cases h2
        have hlt : j < m := by omega
        exact ⟨hlt, h2, h3, fun k hk1 hk2 => h4 k hk1 (Nat.lt_succ_of_lt hk2)⟩
    | some mp =>
      simp only
      by_cases hbit : mp.EventType &&& et ≠ 0
      · rw [if_pos hbit]
        constructor
        · intro h
          simp only [Option.some.injEq, Prod.mk.injEq] at h
          obtain ⟨rfl, rfl⟩ := h
          refine ⟨Nat.lt_succ_self _, hp, hbit, ?_⟩
          intro k hk1 hk2
          omega
        · rintro ⟨h1, h2, h3, h4⟩
          have hjm : j = m := by
            by_contra hne
            have hlt : j < m := by omega
            have hm := h4 m hlt (Nat.lt_succ_self m)
            unfold carries at hm
            rw [hp] at hm
            simp only [decide_eq_false_iff_not] at hm
            exact hm hbit
          subst hjm
          rw [hp] at h2
          cases h2
          rfl
      · rw [if_neg hbit, ih]
        constructor
        · rintro ⟨h1, h2, h3, h4⟩
          refine ⟨Nat.lt_succ_of_lt h1, h2, h3, ?_⟩
          intro k hk1 hk2
          rcases Nat.lt_succ_iff_lt_or_eq.mp hk2 with hlt | heq
          · exact h4 k hk1 hlt
          · subst heq
            unfold carries
            rw [hp]
            simp only [decide_eq_false_iff_not]
            exact hbit
        · rintro ⟨h1, h2, h3, h4⟩
          have hne : j ≠ m := by
            intro e
            rw [e, hp] at h2
            cases h2
            exact hbit h3
          have hlt : j < m := by omega
          exact ⟨hlt, h2, h3, fun k hk1 hk2 => h4 k hk1 (Nat.lt_succ_of_lt hk2)⟩

theorem filter_isConnector_blockOf_off (up : Bool) (packets : List Packet) (mask : EventType)
    (i : Nat) (p : Packet) (et : EventType) :
    (blockOf up false packets mask i p et).filter isConnector = [] := by
  rw [List.filter_eq_nil_iff]
  intro l hl
  unfold blockOf at hl
  by_cases hs : shows up p et = true
  · rw [if_pos hs] at hl
    have hc : connectorLines false packets i p et = [] := rfl
    rw [hc, List.append_nil, List.mem_cons] at hl
    rcases hl with rfl | hl
    · unfold markerLine isConnector
      simp
    · by_cases hb : labelled mask et = true
      · rw [if_pos hb] at hl
        unfold labelLines at hl
        simp only [List.mem_cons, List.mem_singleton, List.not_mem_nil, or_false] at hl
        rcases hl with rfl | rfl <;> simp [isConnector]
      · rw [if_neg hb] at hl
        cases hl
  · rw [if_neg hs] at hl
    cases hl

theorem connectorLines_spec (packets : List Packet) (i : Nat) (p : Packet) (et : EventType) :
    (connectorLines true packets i p et = [] ↔ ∀ k, k < i → carries packets k et = false) ∧
    (∀ (j : Nat) (jp : Packet), j < i → packets[j]? = some jp →
      carries packets j et = true → (∀ k, j < k → k < i → carries packets k et = false) →
      connectorLines true packets i p et = [connectorLine jp p et]) ∧
    (connectorLines true packets i p et).length ≤ 1 ∧
    connectorLines false packets i p et = [] := by
  refine ⟨?_, ?_, ?_, rfl⟩
  · rw [← scanBack_none_iff]
    unfold connectorLines
    cases hs : scanBack packets et i with
    | none => simp
    | some jp => simp
  · intro j jp hj hp hcar hnone
    have hbit : jp.EventType &&& et ≠ 0 := by
      unfold carries at hcar
      rw [hp] at hcar
      simpa using hcar
    have hs := (scanBack_some_iff packets et i j jp).mpr ⟨hj, hp, hbit, hnone⟩
    unfold connectorLines
    rw [hs]
    rfl
  · unfold connectorLines
    cases hs : scanBack packets et i with
    | none => simp
    | some jp => simp

/-- C16: with connecting-line mode enabled, every marker written by
`xplotPackets` for type `et` at packet index `i` is followed (among the marker
and connector lines) by exactly one connector line when some index `j < i` of
the same sequence has `et` in its bitmask, joining the (timestamp, proportion)
of the largest such `j` to that of packet `i` in the type's colour, and by none
otherwise; with the mode disabled no connector line is written. -/
theorem xplotPackets_connectors (up : Bool) (packets : List Packet) :
    (∀ lines : Bool,
      (xplotPackets up packets lines).filter (fun l => isMarker up l || isConnector l) =
        ((cellsOf packets).filter (fun c => shows up c.2.1 c.2.2)).flatMap
          (fun c => markerLine up c.2.1 c.2.2 ::
            connectorLines lines packets c.1 c.2.1 c.2.2)) ∧
    (xplotPackets up packets false).filter isConnector = [] ∧
    ∀ (i : Nat) (p : Packet) (et : EventType),
      (connectorLines true packets i p et = [] ↔
        ∀ k, k < i → carries packets k et = false) ∧
      (∀ (j : Nat) (jp : Packet), j < i → packets[j]? = some jp →
        carries packets j et = true → (∀ k, j < k → k < i → carries packets k et = false) →
        connectorLines true packets i p et = [connectorLine jp p et]) ∧
      (connectorLines true packets i p et).length ≤ 1 ∧
      connectorLines false packets i p et = [] := by
  refine ⟨?_, ?_, fun i p et => connectorLines_spec packets i p et⟩
  · intro lines
    rw [xplotPackets_eq_cells,
      filter_foldl_plotCell up lines packets (fun l => isMarker up l || isConnector l)
        (fun c => if shows up c.2.1 c.2.2 = true then
          markerLine up c.2.1 c.2.2 :: connectorLines lines packets c.1 c.2.1 c.2.2 else [])
        (fun mask c hc => filter_markerConnector_blockOf up lines packets mask c.1 c.2.1 hc)
        (cellsOf packets) _ (fun c hc => (mem_cellsOf hc).1)]
    rw [flatMap_if_list]
    rfl
  · rw [xplotPackets_eq_cells,
      filter_foldl_plotCell up false packets isConnector (fun _ => [])
        (fun mask c _ => filter_isConnector_blockOf_off up packets mask c.1 c.2.1 c.2.2)
        (cellsOf packets) _ (fun c hc => (mem_cellsOf hc).1)]
    simp

/-! ## Invariants of the output, block by block -/

/-- A property of the loop state that holds at the start and is kept by the
block of every cell holds for the final state. -/
theorem foldl_plotCell_induction (up lines : Bool) (packets : List Packet)
    (Inv : EventType × List Line → Prop) (cs : List (Nat × Packet × EventType))
    (hstep : ∀ (st : EventType × List Line) (c : Nat × Packet × EventType), c ∈ cs →
      Inv st →
      Inv (maskAfter up st.1 c.2.1 c.2.2,
        st.2 ++ blockOf up lines packets st.1 c.1 c.2.1 c.2.2))
    (st : EventType × List Line) (h0 : Inv st) :
    Inv (cs.foldl (plotCell up lines packets) st) := by
  induction cs generalizing st with
  | nil => exact h0
  | cons c rest ih =>
    rw [List.foldl_cons]
    apply ih
    · intro st' c' hc' hinv
      exact hstep st' c' (List.mem_cons_of_mem c hc') hinv
    · rw [plotCell_eq]
      exact hstep st c (List.mem_cons_self c rest) h0

theorem isMarkerOf_markerLine (up : Bool) (p : Packet) {et et0 : EventType}
    (het : et ∈ etValues) (het0 : et0 ∈ etValues) :
    isMarkerOf up et0 (markerLine up p et) = decide (et = et0) := by
  obtain ⟨h1, h2, _⟩ := config_keywords het
  unfold markerLine isMarkerOf
  rw [h1, h2]
  have hc := config_color_inj het0 het
  by_cases h : et = et0
  · simp [h]
  · have hne : ¬ (Config et).Color = (Config et0).Color := fun e => h (hc.mp e)
    simp [h, hne]

theorem isMarkerOf_le_isMarker (up : Bool) (et0 : EventType) (l : Line)
    (h : isMarker up l = false) : isMarkerOf up et0 l = false := by
  cases l with
  | item kw tv a b col =>
    unfold isMarker at h
    unfold isMarkerOf
    simp only at h ⊢
    rw [h]
    rfl
  | text s => rfl
  | connector t1 a b t2 c d col => rfl
  | flowLabel tf => rfl

/-- Markers of the type `et0` in the block of a cell: its marker line, when
the cell is of that type. -/
theorem countP_isMarkerOf_blockOf (up lines : Bool) (packets : List Packet) (mask : EventType)
    (i : Nat) (p : Packet) {et et0 : EventType} (het : et ∈ etValues)
    (het0 : et0 ∈ etValues) :
    (blockOf up lines packets mask i p et).countP (isMarkerOf up et0) =
      if shows up p et = true ∧ et = et0 then 1 else 0 := by
  unfold blockOf
  by_cases hs : shows up p et = true
  · rw [if_pos hs, List.countP_cons, isMarkerOf_markerLine up p het het0]
    have hrest : ((if labelled mask et = true then labelLines p et else [])
        ++ connectorLines lines packets i p et).countP (isMarkerOf up et0) = 0 := by
      rw [List.countP_eq_zero]
      intro l hl
      rw [List.mem_append] at hl
      have hm : isMarker up l = false := by
        rcases hl with hl | hl
        · by_cases hlab : labelled mask et = true
          · rw [if_pos hlab] at hl
            exact isMarker_labelLines up p het l hl
          · rw [if_neg hlab] at hl
            cases hl
        · exact isMarker_connectorLines up lines packets i p et l hl
      rw [isMarkerOf_le_isMarker up et0 l hm]
      decide
    rw [hrest]
    by_cases h : et = et0
    · subst h
      simp [hs]
    · simp [h]
  · rw [if_neg hs]
    simp [hs]

/-- Label texts of the type `et0` in the block of a cell: one when the cell is
of that type, shown and labelled. -/
theorem countP_isLabelText_blockOf (up lines : Bool) (packets : List Packet)
    (mask : EventType) (i : Nat) (p : Packet) {et et0 : EventType} (het : et ∈ etValues)
    (het0 : et0 ∈ etValues) :
    (blockOf up lines packets mask i p et).countP (isLabelText et0) =
      if shows up p et = true ∧ labelled mask et = true ∧ et = et0 then 1 else 0 := by
  have hc := config_label_inj het0 het
  have hconn : (connectorLines lines packets i p et).countP (isLabelText et0) = 0 := by
    rw [List.countP_eq_zero]
    intro l hl
    have h := isConnector_connectorLines lines packets i p et l hl
    cases l with
    | item kw tv a b col => cases h
    | text s => cases h
    | connector t1 a b t2 c d col => simp [isLabelText]
    | flowLabel tf => cases h
  unfold blockOf
  by_cases hs : shows up p et = true
  · rw [if_pos hs, List.countP_cons, List.countP_append, hconn]
    have hm : isLabelText et0 (markerLine up p et) = false := rfl
    rw [hm]
    by_cases hlab : labelled mask et = true
    · rw [if_pos hlab]
      unfold labelLines
      rw [List.countP_cons, List.countP_cons, List.countP_nil]
      have h1 : isLabelText et0 (Line.item (Config et).TextItem p.Timestamp (p.Proportions et)
          p.PropWinSize (Config et).Color) = false := rfl
      have h2 : isLabelText et0 (Line.text (Config et).Label) = decide (et = et0) := by
        unfold isLabelText
        by_cases h : et = et0
        · simp [h]
        · have hne : ¬ (Config et).Label = (Config et0).Label := fun e => h (hc.mp e)
          simp [h, hne]
      rw [h1, h2]
      by_cases h : et = et0
      · subst h
        simp [hs, hlab]
      · simp [h]
    · rw [if_neg hlab]
      simp [hs, hlab]
  · rw [if_neg hs]
    simp [hs]

theorem labelFollows_append (up : Bool) (et0 : EventType) (out block : List Line) (k : Nat)
    (hout : k < out.length → LabelFollows up et0 out k)
    (hblock : out.length ≤ k → LabelFollows up et0 block (k - out.length)) :
    LabelFollows up et0 (out ++ block) k := by
  intro tv a b h
  by_cases hk : k < out.length
  · rw [List.getElem?_append_left hk] at h
    obtain ⟨h1, h2⟩ := hout hk tv a b h
    obtain ⟨hlt1, _⟩ := List.getElem?_eq_some.mp h1
    obtain ⟨hlt2, _⟩ := List.getElem?_eq_some.mp h2
    rw [List.getElem?_append_left hlt1, List.getElem?_append_left hlt2]
    exact ⟨h1, h2⟩
  · have hle : out.length ≤ k := Nat.le_of_not_lt hk
    rw [List.getElem?_append_right hle] at h
    obtain ⟨h1, h2⟩ := hblock hle tv a b h
    rw [List.getElem?_append_right (by omega), List.getElem?_append_right (by omega)]
    have e1 : k + 1 - out.length = k - out.length + 1 := by omega
    have e2 : k + 2 - out.length = k - out.length + 2 := by omega
    rw [e1, e2]
    exact ⟨h1, h2⟩

/-- A marker line of the type `et0` in the block of a cell is the first line
of the block, and the cell is a shown cell of that type. -/
theorem blockOf_marker_pos (up lines : Bool) (packets : List Packet) (mask : EventType)
    (i : Nat) (p : Packet) {et et0 : EventType} (het : et ∈ etValues) (het0 : et0 ∈ etValues)
    (j : Nat) (tv : Int) (a b : Nat)
    (h : (blockOf up lines packets mask i p et)[j]? =
      some (Line.item (if up = true then "rarrow" else "larrow") tv a b (Config et0).Color)) :
    shows up p et = true ∧ j = 0 ∧ et = et0 ∧ tv = p.Timestamp ∧ a = p.Proportions et ∧
      b = p.PropWinSize := by
  unfold blockOf at h
  by_cases hs : shows up p et = true
  · rw [if_pos hs] at h
    cases j with
    | zero =>
      rw [List.getElem?_cons_zero] at h
      unfold markerLine at h
      simp only [Option.some.injEq, Line.item.injEq] at h
      obtain ⟨_, h2, h3, h4, h5⟩ := h
      exact ⟨hs, rfl, (config_color_inj het0 het).mp h5, h2.symm, h3.symm, h4.symm⟩
    | succ j' =>
      exfalso
      rw [List.getElem?_cons_succ] at h
      have hmem := List.getElem?_mem h
      rw [List.mem_append] at hmem
      have hm : isMarker up (Line.item (if up = true then "rarrow" else "larrow") tv a b
          (Config et0).Color) = false := by
        rcases hmem with hl | hl
        · by_cases hlab : labelled mask et = true
          · rw [if_pos hlab] at hl
            exact isMarker_labelLines up p het _ hl
          · rw [if_neg hlab] at hl
            cases hl
        · exact isMarker_connectorLines up lines packets i p et _ hl
      unfold isMarker at hm
      simp at hm
  · rw [if_neg hs] at h
    cases h

/-- In the block of a shown and labelled cell the label pair follows the
marker line directly. -/
theorem blockOf_labels (up lines : Bool) (packets : List Packet) (mask : EventType)
    (i : Nat) (p : Packet) (et : EventType) (hs : shows up p et = true)
    (hlab : labelled mask et = true) :
    (blockOf up lines packets mask i p et)[1]? =
      some (Line.item (Config et).TextItem p.Timestamp (p.Proportions et) p.PropWinSize
        (Config et).Color) ∧
    (blockOf up lines packets mask i p et)[2]? = some (Line.text (Config et).Label) := by
  unfold blockOf labelLines
  rw [if_pos hs, if_pos hlab]
  constructor
  · simp
  · simp

/-- In the block of a cell, a marker of the type `et0` is followed by the
label pair whenever shown cells of that type are labelled under the mask. -/
theorem labelFollows_blockOf (up lines : Bool) (packets : List Packet) (mask : EventType)
    (i : Nat) (p : Packet) {et et0 : EventType} (het : et ∈ etValues) (het0 : et0 ∈ etValues)
    (hlab : labelled mask et0 = true) (j : Nat) :
    LabelFollows up et0 (blockOf up lines packets mask i p et) j := by
  intro tv a b h
  obtain ⟨hs, hj, hee, htv, ha, hb⟩ :=
    blockOf_marker_pos up lines packets mask i p het het0 j tv a b h
  subst hj
  subst hee
  rw [htv, ha, hb]
  exact blockOf_labels up lines packets mask i p et hs hlab

theorem labelled_CE (mask : EventType) : labelled mask EventTypeCE = true := rfl

/-- C14: for every packet sequence, direction and lines setting, every CE
marker line written by `xplotPackets` is immediately followed by its own label
line-pair, a line with the keyword `ltext` and the same timestamp, proportion
and colour as the marker and then the line `CE`; the number of CE label pairs
equals the number of CE markers. -/
theorem xplotPackets_CE_labels (up lines : Bool) (packets : List Packet) :
    (∀ (k : Nat) (tv : Int) (a b : Nat),
      (xplotPackets up packets lines)[k]? =
        some (Line.item (if up = true then "rarrow" else "larrow") tv a b "red") →
      (xplotPackets up packets lines)[k + 1]? = some (Line.item "ltext" tv a b "red") ∧
      (xplotPackets up packets lines)[k + 2]? = some (Line.text "CE")) ∧
    (xplotPackets up packets lines).countP (isLabelText EventTypeCE) =
      (xplotPackets up packets lines).countP (isMarkerOf up EventTypeCE) ∧
    (Config EventTypeCE).Plot = true ∧ (Config EventTypeCE).LabelAll = true ∧
    (Config EventTypeCE).TextItem = "ltext" ∧ (Config EventTypeCE).Label = "CE" ∧
    (Config EventTypeCE).Color = "red" := by
  have hce : EventTypeCE ∈ etValues := by decide
  have hinv := foldl_plotCell_induction up lines packets
    (fun st => (∀ k, LabelFollows up EventTypeCE st.2 k) ∧
      st.2.countP (isLabelText EventTypeCE) = st.2.countP (isMarkerOf up EventTypeCE))
    (cellsOf packets)
    (by
      intro st c hc hinv
      obtain ⟨hf, hcount⟩ := hinv
      have het := (mem_cellsOf hc).1
      constructor
      · intro k
        exact labelFollows_append up EventTypeCE _ _ k (fun _ => hf k)
          (fun _ => labelFollows_blockOf up lines packets st.1 c.1 c.2.1 het hce
            (labelled_CE st.1) _)
      · simp only
        rw [List.countP_append, List.countP_append, hcount,
          countP_isMarkerOf_blockOf up lines packets st.1 c.1 c.2.1 het hce,
          countP_isLabelText_blockOf up lines packets st.1 c.1 c.2.1 het hce]
        congr 1
        by_cases h : c.2.2 = EventTypeCE
        · rw [h]
          simp [labelled_CE]
        · simp [h])
    ((0 : EventType), [])
    (by
      constructor
      · intro k tv a b h
        cases h
      · rfl)
  simp only at hinv
  rw [← xplotPackets_eq_cells] at hinv
  refine ⟨?_, hinv.2, rfl, rfl, rfl, rfl, rfl⟩
  intro k tv a b h
  exact hinv.1 k tv a b h

/-! ## The mask of labelled types -/

theorem and_eq_zero_iff_hasType (m et : EventType) : m &&& et = 0 ↔ hasType m et = false := by
  unfold hasType
  simp

/-- Effect of one cell on the bit of `et0` in the mask. -/
theorem maskAfter_and (up : Bool) (mask : EventType) (p : Packet) {et et0 : EventType}
    (het : et ∈ etValues) (het0 : et0 ∈ etValues) :
    (maskAfter up mask p et &&& et0 = 0) ↔
      (mask &&& et0 = 0 ∧ ¬ (shows up p et = true ∧ labelled mask et = true ∧ et = et0)) := by
  unfold maskAfter
  by_cases hc : shows up p et = true ∧ labelled mask et = true
  · rw [if_pos hc, and_eq_zero_iff_hasType, hasType_or mask het het0, and_eq_zero_iff_hasType]
    by_cases h : et = et0
    · subst h
      simp
      intro _
      exact hc
    · simp [h]
  · rw [if_neg hc]
    constructor
    · intro h
      exact ⟨h, fun hh => hc ⟨hh.1, hh.2.1⟩⟩
    · intro h
      exact h.1

theorem labelled_of_not_all {et : EventType} (hla : (Config et).LabelAll = false)
    (mask : EventType) : labelled mask et = true ↔ mask &&& et = 0 := by
  unfold labelled
  rw [hla]
  simp

/-- Invariant of the loop for a type that is labelled on first occurrence
only: the mask holds the type exactly when a marker of the type was written,
one label text of the type was written exactly in that case, and the first
marker of the type is followed by the label pair. -/
theorem label_once_invariant (up lines : Bool) (packets : List Packet) {et0 : EventType}
    (het0 : et0 ∈ etValues) (hla : (Config et0).LabelAll = false)
    (cs : List (Nat × Packet × EventType)) (hcs : ∀ c ∈ cs, c.2.2 ∈ etValues) :
    ((cs.foldl (plotCell up lines packets) ((0 : EventType), [])).1 &&& et0 = 0 ↔
      (cs.foldl (plotCell up lines packets) ((0 : EventType), [])).2.countP
        (isMarkerOf up et0) = 0) ∧
    (cs.foldl (plotCell up lines packets) ((0 : EventType), [])).2.countP (isLabelText et0) =
      (if (cs.foldl (plotCell up lines packets) ((0 : EventType), [])).2.countP
        (isMarkerOf up et0) = 0 then 0 else 1) ∧
    ∀ k, ((cs.foldl (plotCell up lines packets) ((0 : EventType), [])).2.take k).countP
        (isMarkerOf up et0) = 0 →
      LabelFollows up et0 (cs.foldl (plotCell up lines packets) ((0 : EventType), [])).2 k := by
  have hinv := foldl_plotCell_induction up lines packets
    (fun st => (st.1 &&& et0 = 0 ↔ st.2.countP (isMarkerOf up et0) = 0) ∧
      st.2.countP (isLabelText et0) =
        (if st.2.countP (isMarkerOf up et0) = 0 then 0 else 1) ∧
      ∀ k, (st.2.take k).countP (isMarkerOf up et0) = 0 → LabelFollows up et0 st.2 k)
    cs
    (by
      intro st c hc hinv
      obtain ⟨j1, j2, j3⟩ := hinv
      have het := hcs c hc
      have hM := countP_isMarkerOf_blockOf up lines packets st.1 c.1 c.2.1 het het0
      have hL := countP_isLabelText_blockOf up lines packets st.1 c.1 c.2.1 het het0
      have hmask := maskAfter_and up st.1 c.2.1 het het0
      simp only
      rw [List.countP_append, List.countP_append, hM, hL, hmask]
      refine ⟨?_, ?_, ?_⟩
      · by_cases hcase : shows up c.2.1 c.2.2 = true ∧ c.2.2 = et0
        · obtain ⟨hs, hee⟩ := hcase
          rw [if_pos ⟨hs, hee⟩]
          constructor
          · rintro ⟨hz, hn⟩
            exfalso
            apply hn
            refine ⟨hs, ?_, hee⟩
            rw [hee, labelled_of_not_all hla]
            exact hz
          · intro h
            omega
        · rw [if_neg hcase, Nat.add_zero, ← j1]
          constructor
          · intro h
            exact h.1
          · intro h
            exact ⟨h, fun hh => hcase ⟨hh.1, hh.2.2⟩⟩
      · by_cases hcase : shows up c.2.1 c.2.2 = true ∧ c.2.2 = et0
        · obtain ⟨hs, hee⟩ := hcase
          have hMv : (if shows up c.2.1 c.2.2 = true ∧ c.2.2 = et0 then 1 else 0) = 1 :=
            if_pos ⟨hs, hee⟩
          rw [hMv, j2]
          by_cases hz : st.1 &&& et0 = 0
          · have hlab : labelled st.1 c.2.2 = true := by
              rw [hee, labelled_of_not_all hla]
              exact hz
            have hLv : (if shows up c.2.1 c.2.2 = true ∧ labelled st.1 c.2.2 = true ∧
                c.2.2 = et0 then 1 else 0) = 1 := if_pos ⟨hs, hlab, hee⟩
            rw [hLv, j1.mp hz]
            rfl
          · have hlab : ¬ labelled st.1 c.2.2 = true := by
              rw [hee, labelled_of_not_all hla]
              exact hz
            have hne : ¬ st.2.countP (isMarkerOf up et0) = 0 := fun h => hz (j1.mpr h)
            have hLv : (if shows up c.2.1 c.2.2 = true ∧ labelled st.1 c.2.2 = true ∧
                c.2.2 = et0 then 1 else 0) = 0 := if_neg (fun hh => hlab hh.2.1)
            rw [hLv, if_neg hne, if_neg (by omega)]
        · have hcase2 : ¬ (shows up c.2.1 c.2.2 = true ∧ labelled st.1 c.2.2 = true ∧
              c.2.2 = et0) := fun hh => hcase ⟨hh.1, hh.2.2⟩
          have hMv : (if shows up c.2.1 c.2.2 = true ∧ c.2.2 = et0 then 1 else 0) = 0 :=
            if_neg hcase
          have hLv : (if shows up c.2.1 c.2.2 = true ∧ labelled st.1 c.2.2 = true ∧
              c.2.2 = et0 then 1 else 0) = 0 := if_neg hcase2
          rw [hMv, hLv, Nat.add_zero, Nat.add_zero]
          exact j2
      · intro k hk
        apply labelFollows_append
        · intro hlt
          apply j3 k
          rw [List.take_append_of_le_length (Nat.le_of_lt hlt)] at hk
          exact hk
        · intro hle
          rw [List.take_append_eq_append_take, List.take_of_length_le hle,
            List.countP_append] at hk
          have hz : st.1 &&& et0 = 0 := j1.mpr (by omega)
          exact labelFollows_blockOf up lines packets st.1 c.1 c.2.1 het het0
            ((labelled_of_not_all hla st.1).mpr hz) _)
    ((0 : EventType), [])
    (by
      refine ⟨?_, rfl, ?_⟩
      · simp
      · intro k _ tv a b h
        cases h)
  exact hinv


/-! ## Labels of the types labelled on first occurrence -/

/-- C13 (amended): for every packet sequence, direction and lines setting, and
every event type configured with `LabelAll = false` and `Plot = true` (these are
SCE, ECE, CWR and NS), the output of one `xplotPackets` call holds the label
line of the type exactly once if it holds a marker of the type and not at all
otherwise, and a marker of the type with no marker of the type before it is
directly followed by the label line-pair with the same timestamp, proportion
and colour. -/
theorem xplotPackets_label_once (up lines : Bool) (packets : List Packet) (et : EventType)
    (het : et ∈ allEventTypes) (hla : (Config et).LabelAll = false)
    (hplot : (Config et).Plot = true) :
    (et = EventTypeSCE ∨ et = EventTypeECE ∨ et = EventTypeCWR ∨ et = EventTypeNS) ∧
    (xplotPackets up packets lines).countP (isLabelText et) =
      (if (xplotPackets up packets lines).countP (isMarkerOf up et) = 0 then 0 else 1) ∧
    ∀ k, ((xplotPackets up packets lines).take k).countP (isMarkerOf up et) = 0 →
      LabelFollows up et (xplotPackets up packets lines) k := by
  have het0 : et ∈ etValues := by
    simp only [allEventTypes, List.mem_cons, List.mem_singleton, List.not_mem_nil,
      or_false] at het
    rcases het with h | h | h | h | h | h <;> subst h <;> decide
  have hinv := label_once_invariant up lines packets het0 hla (cellsOf packets)
    (fun c hc => (mem_cellsOf hc).1)
  rw [← xplotPackets_eq_cells] at hinv
  refine ⟨?_, hinv.2.1, hinv.2.2⟩
  simp only [allEventTypes, List.mem_cons, List.mem_singleton, List.not_mem_nil,
    or_false] at het
  rcases het with h | h | h | h | h | h
  · subst h
    exact absurd hplot (by decide)
  · exact Or.inl h
  · subst h
    exact absurd hla (by decide)
  · exact Or.inr (Or.inl h)
  · exact Or.inr (Or.inr (Or.inl h))
  · exact Or.inr (Or.inr (Or.inr h))

/-- The label policy at ECE on the upstream sequence `seqFive`. -/
theorem xplotPackets_label_once_witness :
    EventTypeECE ∈ allEventTypes ∧ (Config EventTypeECE).LabelAll = false ∧
    (Config EventTypeECE).Plot = true ∧
    (xplotPackets true seqFive false).countP (isLabelText EventTypeECE) =
      (if (xplotPackets true seqFive false).countP (isMarkerOf true EventTypeECE) = 0
        then 0 else 1) :=
  ⟨by decide, by decide, by decide,
    (xplotPackets_label_once true false seqFive EventTypeECE (by decide) (by decide)
      (by decide)).2.1⟩

/-- The document of a Flow Record whose upstream and downstream sequences both
carry ECE holds the ECE label twice, once in each directional section, although
ECE is configured with `LabelAll = false` and `Plot = true`. -/
theorem xplotDoc_ECE_label_twice :
    (Config EventTypeECE).LabelAll = false ∧ (Config EventTypeECE).Plot = true ∧
    (xplotDoc flowTwoECE false).countP (isMarkerOf true EventTypeECE) = 1 ∧
    (xplotDoc flowTwoECE false).countP (isMarkerOf false EventTypeECE) = 1 ∧
    (xplotDoc flowTwoECE false).countP (isLabelText EventTypeECE) = 2 := by
  decide

end CCTrace
